import Mathlib

/-!
# Address resolution (pico_arp.c): embedding and verified properties

The embedding follows `src/stack/pico_arp.c` function by function.

* Objects the C code reaches through pointers (`struct pico_arp`) live in an
  explicit heap; a pointer is an index into it.
* The module's statics (`Arp_table`, `pending`, `pending_timer_on`) are fields of
  `ArpState`, together with the timers handed to the timer service and a trace
  of the calls made to collaborators.
* Collaborators that are not part of this file (routing, devices, allocators, the
  clock) are taken as the fields of `Env`; each is consulted at most once per
  operation, so one `Env` per call covers every behaviour they can show.
-/

namespace PicoArp

/-! ## Constants -/

/-- The retry interval of the drain timer, `#define PICO_ARP_RETRY 300`. -/
def PICO_ARP_RETRY : Nat := 300

/-- The staleness timeout, `#define PICO_ARP_TIMEOUT 600000`. -/
def PICO_ARP_TIMEOUT : Nat := 600000

/-- Modelled from the spec: the length of a hardware address (`pico_arp.h` and
`pico_eth.h` are not part of the source); "hardware_address: 6-byte link-layer
address". -/
def PICO_SIZE_ETH : Nat := 6

/-- Modelled from the spec: the length of an IPv4 address, "IPv4 address (4 bytes)". -/
def PICO_SIZE_IP4 : Nat := 4

/-- Modelled from the spec: the length of the "standard link-layer header" that
precedes the message: destination (6), source (6), protocol (2). -/
def PICO_SIZE_ETHHDR : Nat := 14

/-- The size of the packed `struct pico_arp_hdr`:
`2 + 2 + 1 + 1 + 2 + 6 + 4 + 6 + 4`. -/
def PICO_SIZE_ARPHDR : Nat := 2 + 2 + 1 + 1 + 2 + PICO_SIZE_ETH + 4 + PICO_SIZE_ETH + 4

/-- Modelled from the spec: "Opcode 1 = REQUEST". -/
def PICO_ARP_REQUEST : Nat := 1

/-- Modelled from the spec: "Opcode 2 = REPLY". -/
def PICO_ARP_REPLY : Nat := 2

/-- Modelled from the spec: the hardware type of "the Ethernet/IPv4 pairing". -/
def PICO_ARP_HTYPE_ETH : Nat := 1

/-- Modelled from the spec: the protocol type of "the Ethernet/IPv4 pairing". -/
def PICO_IDETH_IPV4 : Nat := 0x0800

/-- Modelled from the spec: the link-layer protocol number of resolution messages. -/
def PICO_IDETH_ARP : Nat := 0x0806

/-! ## Data model -/

/-- A hardware address, `uint8_t addr[6]`. -/
structure Mac where
  b0 : Nat
  b1 : Nat
  b2 : Nat
  b3 : Nat
  b4 : Nat
  b5 : Nat
deriving DecidableEq, Repr

/-- The broadcast address `PICO_ETHADDR_ALL`. -/
def PICO_ETHADDR_ALL : Mac := ⟨0xff, 0xff, 0xff, 0xff, 0xff, 0xff⟩

/-- The six bytes of a hardware address, in memory order. -/
def Mac.bytes (m : Mac) : List Nat := [m.b0, m.b1, m.b2, m.b3, m.b4, m.b5]

/-- Modelled from the spec: the `arp_status` field of `struct pico_arp`
(`pico_arp.h` is not part of the source); "status: enum {REACHABLE, STALE}". -/
inductive ArpStatus where
  | PICO_ARP_STATUS_REACHABLE
  | PICO_ARP_STATUS_STALE
deriving DecidableEq, Repr

open ArpStatus

/-- Modelled from the spec: `struct pico_arp`, a cache entry (`pico_arp.h` is not
part of the source): "address", "hardware_address", "status", "timestamp",
"owning_interface". The fields are the ones `pico_arp.c` reads and writes. A
device is named by its pointer. -/
structure pico_arp where
  eth : Mac
  ipv4 : Nat
  arp_status : ArpStatus
  timestamp : Nat
  dev : Nat
deriving DecidableEq, Repr

/-- A zero-filled `struct pico_arp`, as `pico_zalloc` returns it. Each field is
overwritten before `pico_arp.c` reads it. -/
def pico_arp.zero : pico_arp :=
  { eth := ⟨0, 0, 0, 0, 0, 0⟩, ipv4 := 0, arp_status := PICO_ARP_STATUS_REACHABLE,
    timestamp := 0, dev := 0 }

instance : Inhabited pico_arp := ⟨pico_arp.zero⟩

/-- Modelled from the spec: `struct pico_frame` (`pico_frame.h` is not part of
the source): a buffer that carries "addressable sub-regions for link-layer
header, network header, and payload start", the device, and "an embedded
failure_count incremented each time resolution is attempted". Pointers into the
buffer are offsets; `net_hdr = none` is the null pointer. -/
structure pico_frame where
  buffer : List Nat
  datalink_hdr : Nat
  net_hdr : Option Nat
  start : Nat
  len : Nat
  dev : Nat
  failure_count : Nat
deriving DecidableEq, Repr

/-- The callbacks this file hands to `pico_timer_add`, with their argument. -/
inductive Callback where
  | check_pending
  | arp_expire (entry : Nat)
deriving DecidableEq, Repr

/-- A timer handed to the timer service and not fired yet. -/
structure Timer where
  delay : Nat
  cb : Callback
deriving DecidableEq, Repr

/-- The calls observed at the module's boundary, in program order. `arp_query`
marks an entry into `pico_arp_query`. -/
inductive Event where
  | arp_query (dev : Nat) (dst : Nat)
  | frame_alloc (size : Nat)
  | dev_send (dev : Nat) (bytes : List Nat)
  | frame_discard (f : pico_frame)
  | notify_dest_unreachable (f : pico_frame)
  | ethernet_send (f : pico_frame)
  | timer_add (delay : Nat) (cb : Callback)
deriving DecidableEq, Repr

/-- The state of the module: the allocated `struct pico_arp` objects (a pointer is
an index into `heap`), the tree `Arp_table` as the in-order sequence of its
nodes, the queue `pending`, the flag `pending_timer_on`, the timers handed to
the timer service and not fired yet, and the trace of collaborator calls. -/
structure ArpState where
  heap : List pico_arp
  Arp_table : List Nat
  pending : List pico_frame
  pending_timer_on : Int
  timers : List Timer
  trace : List Event
deriving DecidableEq, Repr

/-- The state at start-up: nothing allocated, empty tree and queue, flag clear. -/
def ArpState.init : ArpState :=
  { heap := [], Arp_table := [], pending := [], pending_timer_on := 0,
    timers := [], trace := [] }

/-- The collaborators of `pico_arp.c`, none of which is part of the source.
* `route_get_gateway d` is `pico_ipv4_route_get_gateway(&d).addr`;
* `source_find d` is `pico_ipv4_source_find(&d)` (`none` for NULL);
* `link_find a` is `pico_ipv4_link_find(&a)` (`none` for NULL);
* `ipv4_dst f` is `((struct pico_ipv4_hdr *) f->net_hdr)->dst.addr`;
* `dev_mac d` is `d->eth->mac.addr`;
* `dev_send d bytes` is the value `d->send(d, bytes, len)` returns;
* `frame_alloc n` is the content of the buffer `pico_frame_alloc(n)` returns
  (`none` for NULL);
* `zalloc_ok` tells whether `pico_zalloc` succeeds;
* `ethernet_send f s` is the value `pico_ethernet_send(f)` returns when called in
  the state `s`, with the state it leaves (the send path of the stack may come
  back into this module);
* `now` is `PICO_TIME()`. -/
structure Env where
  route_get_gateway : Nat → Nat
  source_find : Nat → Option Nat
  link_find : Nat → Option Nat
  ipv4_dst : pico_frame → Nat
  dev_mac : Nat → Mac
  dev_send : Nat → List Nat → Int
  frame_alloc : Nat → Option (List Nat)
  zalloc_ok : Bool
  ethernet_send : pico_frame → ArpState → Int × ArpState
  now : Nat

/-! ## Buffers

Bytes are natural numbers; a word is read from the low eight bits of each of its
bytes. The 16- and 32-bit words of the packed header are kept in the order they
have on the wire (most significant byte first); `pico_arp.c` only moves and
compares them. Reads outside the buffer give 0 and writes outside it are lost;
the statements about the content of a frame assume the header lies inside the
buffer. -/

/-- Reads `n` bytes from offset `off`. -/
def rd (b : List Nat) (off n : Nat) : List Nat :=
  (List.range n).map (fun i => b.getD (off + i) 0)

/-- The model of `memcpy(b + off, src, src.length)`. -/
def memcpy (b : List Nat) (off : Nat) : List Nat → List Nat
  | [] => b
  | x :: xs => memcpy (b.set off x) (off + 1) xs

/-- The word made of the given bytes, most significant first. -/
def be_word (l : List Nat) : Nat := l.foldl (fun acc x => acc * 256 + x % 256) 0

/-- The `n` low bytes of `v`, most significant first. -/
def be_bytes : Nat → Nat → List Nat
  | 0, _ => []
  | n + 1, v => (v / 256 ^ n % 256) :: be_bytes n v

/-- Reads one byte. -/
def load8 (b : List Nat) (off : Nat) : Nat := be_word (rd b off 1)

/-- Writes one byte. -/
def store8 (b : List Nat) (off v : Nat) : List Nat := memcpy b off (be_bytes 1 v)

/-- Reads a 16-bit word. -/
def load16 (b : List Nat) (off : Nat) : Nat := be_word (rd b off 2)

/-- Writes a 16-bit word. -/
def store16 (b : List Nat) (off v : Nat) : List Nat := memcpy b off (be_bytes 2 v)

/-- Reads a 32-bit word. -/
def load32 (b : List Nat) (off : Nat) : Nat := be_word (rd b off 4)

/-- Writes a 32-bit word. -/
def store32 (b : List Nat) (off v : Nat) : List Nat := memcpy b off (be_bytes 4 v)

/-- The hardware address made of the first six bytes of a list. -/
def Mac.ofBytes (l : List Nat) : Mac :=
  ⟨l.getD 0 0, l.getD 1 0, l.getD 2 0, l.getD 3 0, l.getD 4 0, l.getD 5 0⟩

/-- Reads a hardware address. -/
def load_mac (b : List Nat) (off : Nat) : Mac := Mac.ofBytes (rd b off PICO_SIZE_ETH)

/-! Offsets of the fields of `struct pico_arp_hdr` (packed) and of the
link-layer header. -/

def OFF_HTYPE : Nat := 0
def OFF_PTYPE : Nat := 2
def OFF_HSIZE : Nat := 4
def OFF_PSIZE : Nat := 5
def OFF_OPCODE : Nat := 6
def OFF_S_MAC : Nat := 8
def OFF_SRC : Nat := 14
def OFF_D_MAC : Nat := 18
def OFF_DST : Nat := 24
def OFF_ETH_DADDR : Nat := 0
def OFF_ETH_SADDR : Nat := 6
def OFF_ETH_PROTO : Nat := 12

/-! ## Collaborator calls -/

/-- Appends a call to the trace. -/
def log (e : Event) (s : ArpState) : ArpState :=
  { s with trace := s.trace ++ [e] }

/-- The call `pico_timer_add(delay, cb, arg)`. -/
def pico_timer_add (delay : Nat) (cb : Callback) (s : ArpState) : ArpState :=
  { s with timers := s.timers ++ [⟨delay, cb⟩],
           trace := s.trace ++ [Event.timer_add delay cb] }

/-- The call `pico_frame_discard(f)`. -/
def pico_frame_discard (f : pico_frame) (s : ArpState) : ArpState :=
  log (Event.frame_discard f) s

/-- The call `pico_notify_dest_unreachable(f)`. -/
def pico_notify_dest_unreachable (f : pico_frame) (s : ArpState) : ArpState :=
  log (Event.notify_dest_unreachable f) s

/-- Modelled from the spec: `pico_enqueue(&pending, f)`, "a FIFO queue primitive";
`pending` is a zero-initialised static, so the queue carries no bound. -/
def pico_enqueue (f : pico_frame) (s : ArpState) : ArpState :=
  { s with pending := s.pending ++ [f] }

/-! ## The tree -/

/-- The entry a pointer refers to. -/
def deref (heap : List pico_arp) (p : Nat) : pico_arp := heap.getD p default

/-- A write through the pointer `p`: the object becomes `g` of what it was. -/
def update (heap : List pico_arp) (p : Nat) (g : pico_arp → pico_arp) : List pico_arp :=
  heap.set p (g (deref heap p))

/-- The comparison function of the tree. -/
def arp_compare (a b : pico_arp) : Int :=
  if a.ipv4 < b.ipv4 then -1
  else if a.ipv4 > b.ipv4 then 1
  else 0

/-- Modelled from the spec: `RB_FIND` (`rb.h` is not part of the source), the
"exact-key lookup" of an "ordered associative store": the node that compares
equal to `search`. -/
def RB_FIND (heap : List pico_arp) (tree : List Nat) (search : pico_arp) : Option Nat :=
  tree.find? (fun q => arp_compare search (deref heap q) == 0)

/-- Modelled from the spec: `RB_INSERT` (`rb.h` is not part of the source): the
node goes to its place in the order of `arp_compare`, and the store holds "at most
one entry per IPv4 address at any time (inserting with an existing key
replaces/removes the prior entry first)": "if an entry with the same address key
exists, it is removed first, then the new entry is inserted". So a node that
compares equal to `p` is unlinked and `p` takes its place. -/
def RB_INSERT (heap : List pico_arp) : List Nat → Nat → List Nat
  | [], p => [p]
  | q :: t, p =>
    if arp_compare (deref heap p) (deref heap q) < 0 then p :: q :: t
    else if arp_compare (deref heap p) (deref heap q) > 0 then q :: RB_INSERT heap t p
    else p :: t

/-- Modelled from the spec: `RB_REMOVE` (`rb.h` is not part of the source):
"detach it from the Cache (remove, do not discard the record)". -/
def RB_REMOVE (tree : List Nat) (p : Nat) : List Nat := tree.erase p

/-! ## The functions of pico_arp.c -/

/-- The function `pico_arp_query`. -/
def pico_arp_query (c : Env) (dev dst : Nat) (s : ArpState) : Int × ArpState :=
  let s0 := log (Event.arp_query dev dst) s
  let q := c.frame_alloc (PICO_SIZE_ETHHDR + PICO_SIZE_ARPHDR)
  let s1 := log (Event.frame_alloc (PICO_SIZE_ETHHDR + PICO_SIZE_ARPHDR)) s0
  match c.source_find dst with
  | none => (-1, s1)
  | some src =>
    match q with
    | none => (-1, s1)
    | some buf =>
      let eh := 0
      let ah := 0 + PICO_SIZE_ETHHDR
      -- Fill eth header
      let b1 := memcpy buf (eh + OFF_ETH_SADDR) (c.dev_mac dev).bytes
      let b2 := memcpy b1 (eh + OFF_ETH_DADDR) PICO_ETHADDR_ALL.bytes
      let b3 := store16 b2 (eh + OFF_ETH_PROTO) PICO_IDETH_ARP
      -- Fill arp header
      let b4 := store16 b3 (ah + OFF_HTYPE) PICO_ARP_HTYPE_ETH
      let b5 := store16 b4 (ah + OFF_PTYPE) PICO_IDETH_IPV4
      let b6 := store8 b5 (ah + OFF_HSIZE) PICO_SIZE_ETH
      let b7 := store8 b6 (ah + OFF_PSIZE) PICO_SIZE_IP4
      let b8 := store16 b7 (ah + OFF_OPCODE) PICO_ARP_REQUEST
      let b9 := memcpy b8 (ah + OFF_S_MAC) (c.dev_mac dev).bytes
      let b10 := store32 b9 (ah + OFF_SRC) src
      let b11 := store32 b10 (ah + OFF_DST) dst
      let qf : pico_frame :=
        { buffer := b11, datalink_hdr := 0, net_hdr := none, start := 0,
          len := PICO_SIZE_ETHHDR + PICO_SIZE_ARPHDR, dev := 0, failure_count := 0 }
      let ret := c.dev_send dev (rd qf.buffer qf.start qf.len)
      let s2 := log (Event.dev_send dev (rd qf.buffer qf.start qf.len)) s1
      (ret, pico_frame_discard qf s2)

/-- The function `check_pending` (its arguments are unused). -/
def check_pending (c : Env) (s : ArpState) : ArpState :=
  match s.pending with
  | [] => { s with pending_timer_on := 0 }
  | f :: rest =>
    let s1 := log (Event.ethernet_send f) { s with pending := rest }
    let r := c.ethernet_send f s1
    let s2 := if r.1 > 0 then pico_frame_discard f r.2 else r.2
    pico_timer_add PICO_ARP_RETRY Callback.check_pending s2

/-- The function `pico_arp_get_entry`. -/
def pico_arp_get_entry (s : ArpState) (dst : Nat) : Option Nat :=
  match RB_FIND s.heap s.Arp_table { pico_arp.zero with ipv4 := dst } with
  | some found =>
    if (deref s.heap found).arp_status ≠ PICO_ARP_STATUS_STALE then some found else none
  | none => none

/-- The function `pico_arp_get_entry_by_mac`: `RB_FOREACH` visits the nodes in
the order of the tree. -/
def pico_arp_get_entry_by_mac (s : ArpState) (dst : Mac) : Option Nat :=
  s.Arp_table.find? (fun search => decide ((deref s.heap search).eth = dst))

/-- The function `pico_arp_get`; the frame is returned with its new
`failure_count`. -/
def pico_arp_get (c : Env) (f : pico_frame) (s : ArpState) :
    Option Nat × pico_frame × ArpState :=
  let dst := c.ipv4_dst f
  let gateway := c.route_get_gateway dst
  let a4 :=
    if gateway ≠ 0 then pico_arp_get_entry s gateway
    else pico_arp_get_entry s dst
  match a4 with
  | some p => (some p, f, s)
  | none =>
    let f1 := { f with failure_count := f.failure_count + 1 }
    if f1.failure_count < 4 then
      let s1 :=
        if gateway ≠ 0 then (pico_arp_query c f1.dev gateway s).2
        else (pico_arp_query c f1.dev dst s).2
      let s2 := pico_enqueue f1 s1
      let s3 :=
        if s2.pending_timer_on = 0 then
          pico_timer_add PICO_ARP_RETRY Callback.check_pending
            { s2 with pending_timer_on := s2.pending_timer_on + 1 }
        else s2
      (none, f1, s3)
    else
      (none, f1, pico_frame_discard f1 (pico_notify_dest_unreachable f1 s))

/-- The function `arp_expire`, called with the entry `stale`. -/
def arp_expire (c : Env) (stale : Nat) (s : ArpState) : ArpState :=
  let h1 := update s.heap stale (fun e => { e with arp_status := PICO_ARP_STATUS_STALE })
  let s1 := { s with heap := h1 }
  (pico_arp_query c (deref s1.heap stale).dev (deref s1.heap stale).ipv4 s1).2

/-- The function `pico_arp_add_entry`, called with the pointer `entry`. -/
def pico_arp_add_entry (c : Env) (entry : Nat) (s : ArpState) : ArpState :=
  let h1 := update s.heap entry (fun e => { e with arp_status := PICO_ARP_STATUS_REACHABLE })
  let h2 := update h1 entry (fun e => { e with timestamp := c.now })
  let s1 := { s with heap := h2, Arp_table := RB_INSERT h2 s.Arp_table entry }
  pico_timer_add PICO_ARP_TIMEOUT (Callback.arp_expire entry) s1

/-- The function `pico_arp_receive`; the frame is returned as the function leaves
it. -/
def pico_arp_receive (c : Env) (f : pico_frame) (s : ArpState) :
    Int × pico_frame × ArpState :=
  match f.net_hdr with
  | none => (-1, f, pico_frame_discard f s)
  | some hdr =>
    -- Populate a new arp entry
    let search : pico_arp :=
      { pico_arp.zero with ipv4 := load32 f.buffer (hdr + OFF_SRC),
                           eth := load_mac f.buffer (hdr + OFF_S_MAC) }
    -- Search for already existing entry
    let found := RB_FIND s.heap s.Arp_table search
    let alloc : Option (Option Nat × ArpState) :=
      match found with
      | none =>
        if c.zalloc_ok then
          some (some s.heap.length,
            { s with heap := s.heap ++
                [{ pico_arp.zero with ipv4 := load32 f.buffer (hdr + OFF_SRC) }] })
        else none
      | some p =>
        if (deref s.heap p).arp_status = PICO_ARP_STATUS_STALE then
          -- Replace if stale
          some (some p, { s with Arp_table := RB_REMOVE s.Arp_table p })
        else some (none, s)
    match alloc with
    | none => (-1, f, pico_frame_discard f s)
    | some (new, s1) =>
      let s2 :=
        match new with
        | some n =>
          let h1 := update s1.heap n
            (fun e => { e with eth := load_mac f.buffer (hdr + OFF_S_MAC) })
          let h2 := update h1 n (fun e => { e with dev := f.dev })
          pico_arp_add_entry c n { s1 with heap := h2 }
        | none => s1
      if load16 f.buffer (hdr + OFF_OPCODE) = PICO_ARP_REQUEST then
        let eh := f.datalink_hdr
        let me := load32 f.buffer (hdr + OFF_DST)
        let link_dev := c.link_find me
        if link_dev ≠ some f.dev then (0, f, pico_frame_discard f s2)
        else
          let b1 := store16 f.buffer (hdr + OFF_OPCODE) PICO_ARP_REPLY
          let b2 := memcpy b1 (hdr + OFF_D_MAC) (rd b1 (hdr + OFF_S_MAC) PICO_SIZE_ETH)
          let b3 := memcpy b2 (hdr + OFF_S_MAC) (c.dev_mac f.dev).bytes
          let b4 := store32 b3 (hdr + OFF_DST) (load32 b3 (hdr + OFF_SRC))
          let b5 := store32 b4 (hdr + OFF_SRC) me
          -- Prepare eth header for arp reply
          let b6 := memcpy b5 (eh + OFF_ETH_DADDR) (rd b5 (eh + OFF_ETH_SADDR) PICO_SIZE_ETH)
          let b7 := memcpy b6 (eh + OFF_ETH_SADDR) (c.dev_mac f.dev).bytes
          let f1 := { f with buffer := b7, start := f.datalink_hdr,
                             len := PICO_SIZE_ETHHDR + PICO_SIZE_ARPHDR }
          let s3 := log (Event.dev_send f1.dev (rd f1.buffer f1.start f1.len)) s2
          (0, f1, pico_frame_discard f1 s3)
      else (0, f, pico_frame_discard f s2)

/-! ## Vocabulary of the statements -/

/-- The address `pico_arp_get` has to resolve for `f`: the gateway the routing
collaborator names for the destination of `f` when that is not zero, else the
destination. -/
def resolve_target (c : Env) (f : pico_frame) : Nat :=
  if c.route_get_gateway (c.ipv4_dst f) ≠ 0 then c.route_get_gateway (c.ipv4_dst f)
  else c.ipv4_dst f

/-- The calls made between the state `s` and a later state `t`. -/
def events_since (s t : ArpState) : List Event := t.trace.drop s.trace.length

/-- The calls one `pico_arp_query c dev dst` makes. -/
def query_events (c : Env) (dev dst : Nat) : List Event :=
  (pico_arp_query c dev dst ArpState.init).2.trace

/-- Entries into `pico_arp_query`. -/
def Event.is_query : Event → Bool
  | Event.arp_query _ _ => true
  | _ => false

/-- Calls of `pico_notify_dest_unreachable`. -/
def Event.is_notify : Event → Bool
  | Event.notify_dest_unreachable _ => true
  | _ => false

/-- Calls of a device's send primitive. -/
def Event.is_dev_send : Event → Bool
  | Event.dev_send _ _ => true
  | _ => false

/-- Calls of `pico_timer_add`. -/
def Event.is_timer_add : Event → Bool
  | Event.timer_add _ _ => true
  | _ => false

/-- Calls of `pico_frame_discard`. -/
def Event.is_discard : Event → Bool
  | Event.frame_discard _ => true
  | _ => false

/-- The first block of `pico_arp_receive` on a frame whose header is at `hdr`, from
"Populate a new arp entry" to the call of `pico_arp_add_entry`: the state it
leaves, `none` when `pico_zalloc` fails. -/
def receive_learn (c : Env) (f : pico_frame) (hdr : Nat) (s : ArpState) : Option ArpState :=
  match RB_FIND s.heap s.Arp_table
      { pico_arp.zero with ipv4 := load32 f.buffer (hdr + OFF_SRC),
                           eth := load_mac f.buffer (hdr + OFF_S_MAC) } with
  | none =>
    if c.zalloc_ok then
      let h0 := s.heap ++ [{ pico_arp.zero with ipv4 := load32 f.buffer (hdr + OFF_SRC) }]
      let h1 := update h0 s.heap.length
        (fun e => { e with eth := load_mac f.buffer (hdr + OFF_S_MAC) })
      let h2 := update h1 s.heap.length (fun e => { e with dev := f.dev })
      some (pico_arp_add_entry c s.heap.length { s with heap := h2 })
    else none
  | some p =>
    if (deref s.heap p).arp_status = PICO_ARP_STATUS_STALE then
      let h1 := update s.heap p
        (fun e => { e with eth := load_mac f.buffer (hdr + OFF_S_MAC) })
      let h2 := update h1 p (fun e => { e with dev := f.dev })
      some (pico_arp_add_entry c p
        { s with Arp_table := RB_REMOVE s.Arp_table p, heap := h2 })
    else some s

/-- The buffer of the frame once `pico_arp_receive` has turned the request into
a reply. -/
def reply_buffer (c : Env) (f : pico_frame) (hdr : Nat) : List Nat :=
  let b1 := store16 f.buffer (hdr + OFF_OPCODE) PICO_ARP_REPLY
  let b2 := memcpy b1 (hdr + OFF_D_MAC) (rd b1 (hdr + OFF_S_MAC) PICO_SIZE_ETH)
  let b3 := memcpy b2 (hdr + OFF_S_MAC) (c.dev_mac f.dev).bytes
  let b4 := store32 b3 (hdr + OFF_DST) (load32 b3 (hdr + OFF_SRC))
  let b5 := store32 b4 (hdr + OFF_SRC) (load32 f.buffer (hdr + OFF_DST))
  let b6 := memcpy b5 (f.datalink_hdr + OFF_ETH_DADDR)
    (rd b5 (f.datalink_hdr + OFF_ETH_SADDR) PICO_SIZE_ETH)
  memcpy b6 (f.datalink_hdr + OFF_ETH_SADDR) (c.dev_mac f.dev).bytes

/-- The frame as `pico_arp_receive` hands it to the device for a reply. -/
def reply_frame (c : Env) (f : pico_frame) (hdr : Nat) : pico_frame :=
  { f with buffer := reply_buffer c f hdr, start := f.datalink_hdr,
           len := PICO_SIZE_ETHHDR + PICO_SIZE_ARPHDR }

/-- The calls of the second block of `pico_arp_receive`, from the test of the
opcode to the release of the frame. -/
def reply_events (c : Env) (f : pico_frame) (hdr : Nat) : List Event :=
  if load16 f.buffer (hdr + OFF_OPCODE) = PICO_ARP_REQUEST then
    if c.link_find (load32 f.buffer (hdr + OFF_DST)) ≠ some f.dev then
      [Event.frame_discard f]
    else
      [Event.dev_send f.dev
          (rd (reply_buffer c f hdr) f.datalink_hdr (PICO_SIZE_ETHHDR + PICO_SIZE_ARPHDR)),
       Event.frame_discard (reply_frame c f hdr)]
  else [Event.frame_discard f]

/-- The buffer `pico_arp_query` fills for the target `dst`, from the allocated
content `buf` and the selected source address `src`. -/
def query_buffer (c : Env) (dev dst src : Nat) (buf : List Nat) : List Nat :=
  let b1 := memcpy buf (0 + OFF_ETH_SADDR) (c.dev_mac dev).bytes
  let b2 := memcpy b1 (0 + OFF_ETH_DADDR) PICO_ETHADDR_ALL.bytes
  let b3 := store16 b2 (0 + OFF_ETH_PROTO) PICO_IDETH_ARP
  let b4 := store16 b3 (0 + PICO_SIZE_ETHHDR + OFF_HTYPE) PICO_ARP_HTYPE_ETH
  let b5 := store16 b4 (0 + PICO_SIZE_ETHHDR + OFF_PTYPE) PICO_IDETH_IPV4
  let b6 := store8 b5 (0 + PICO_SIZE_ETHHDR + OFF_HSIZE) PICO_SIZE_ETH
  let b7 := store8 b6 (0 + PICO_SIZE_ETHHDR + OFF_PSIZE) PICO_SIZE_IP4
  let b8 := store16 b7 (0 + PICO_SIZE_ETHHDR + OFF_OPCODE) PICO_ARP_REQUEST
  let b9 := memcpy b8 (0 + PICO_SIZE_ETHHDR + OFF_S_MAC) (c.dev_mac dev).bytes
  let b10 := store32 b9 (0 + PICO_SIZE_ETHHDR + OFF_SRC) src
  store32 b10 (0 + PICO_SIZE_ETHHDR + OFF_DST) dst

/-- The call of the send path in `check_pending`: `pico_ethernet_send(f)` for the
head `f` of the queue, in the state where `f` has been dequeued (the queue is
`rest`); the value it returns and the state it leaves. -/
def send_head (c : Env) (f : pico_frame) (rest : List pico_frame) (s : ArpState) :
    Int × ArpState :=
  c.ethernet_send f (log (Event.ethernet_send f) { s with pending := rest })

/-- The representation invariant of the tree: its nodes are allocated objects and
their keys ascend strictly, so no two nodes carry the same address. -/
def wf (s : ArpState) : Prop :=
  (∀ p ∈ s.Arp_table, p < s.heap.length) ∧
  (s.Arp_table.map (fun p => (deref s.heap p).ipv4)).Pairwise (· < ·)

instance (s : ArpState) : Decidable (wf s) := by
  unfold wf; infer_instance

/-! ## Runs of the module -/

/-- Timers whose callback is `check_pending`. -/
def Timer.is_drain (t : Timer) : Bool := decide (t.cb = Callback.check_pending)

/-- Timers whose callback is `arp_expire` with the entry `e`. -/
def Timer.is_expire (e : Nat) (t : Timer) : Bool := decide (t.cb = Callback.arp_expire e)

/-- The number of outstanding `check_pending` timers. -/
def drain_timers (s : ArpState) : Nat := s.timers.countP Timer.is_drain

/-- The number of outstanding `arp_expire` timers of the entry `e`. -/
def expire_timers (s : ArpState) (e : Nat) : Nat := s.timers.countP (Timer.is_expire e)

/-- A sequence of calls of `pico_arp_get`, from the first state to the second. -/
inductive GetSteps : ArpState → ArpState → Prop where
  | refl (s : ArpState) : GetSteps s s
  | step (c : Env) (f : pico_frame) {s t : ArpState} :
      GetSteps s t → GetSteps s (pico_arp_get c f t).2.2

/-- Modelled from the spec: `pico_ethernet_send` (`pico_stack.c` is not part of
the source), "the lower-layer send path". The cache and the queue "belong
exclusively to the Resolution Engine, which is the only component permitted to
mutate either structure", and the send path calls into it to resolve the next
hop: `pico_ethernet_send` changes the state of the module through calls of
`pico_arp_get` only. -/
def send_path (c : Env) : Prop := ∀ f s, GetSteps s (c.ethernet_send f s).2

/-- The timer service fires the drain timer `t`: the timer is no longer
outstanding and `check_pending` runs. -/
def fire_check_pending (c : Env) (t : Timer) (s : ArpState) : ArpState :=
  check_pending c { s with timers := s.timers.erase t }

/-- The timer service fires the staleness timer `t` of the entry `e`: the timer is
no longer outstanding and `arp_expire` runs with `e`. -/
def fire_arp_expire (c : Env) (t : Timer) (e : Nat) (s : ArpState) : ArpState :=
  arp_expire c e { s with timers := s.timers.erase t }

/-- The states the module reaches from start-up: by calls of `pico_arp_get`, by
drain timers that fire (`check_pending`), by calls of `pico_arp_receive` and by
staleness timers that fire (`arp_expire`). `pico_arp_add_entry` is called from
`pico_arp_receive` only. -/
inductive Reachable : ArpState → Prop where
  | init : Reachable ArpState.init
  | get (c : Env) (f : pico_frame) {s : ArpState} :
      Reachable s → Reachable (pico_arp_get c f s).2.2
  | drain (c : Env) (t : Timer) {s : ArpState} :
      Reachable s → t ∈ s.timers → t.cb = Callback.check_pending → send_path c →
      Reachable (fire_check_pending c t s)
  | receive (c : Env) (f : pico_frame) {s : ArpState} :
      Reachable s → Reachable (pico_arp_receive c f s).2.2
  | expire (c : Env) (t : Timer) (e : Nat) {s : ArpState} :
      Reachable s → t ∈ s.timers → t.cb = Callback.arp_expire e →
      Reachable (fire_arp_expire c t e s)

/-- The states of the cache after a sequence of calls of `pico_arp_add_entry`
(with an object the caller has just allocated and filled, or with an object
allocated before), `pico_arp_receive` and `arp_expire` (with an allocated
object), from the empty cache. -/
inductive CacheReachable : ArpState → Prop where
  | init : CacheReachable ArpState.init
  | add_new (c : Env) (e0 : pico_arp) {s : ArpState} :
      CacheReachable s →
      CacheReachable (pico_arp_add_entry c s.heap.length { s with heap := s.heap ++ [e0] })
  | add_old (c : Env) (p : Nat) {s : ArpState} :
      CacheReachable s → p < s.heap.length → CacheReachable (pico_arp_add_entry c p s)
  | receive (c : Env) (f : pico_frame) {s : ArpState} :
      CacheReachable s → CacheReachable (pico_arp_receive c f s).2.2
  | expire (c : Env) (e : Nat) {s : ArpState} :
      CacheReachable s → e < s.heap.length → CacheReachable (arp_expire c e s)

/-- The invariant of the drain timer: the number of outstanding `check_pending`
timers is the value of `pending_timer_on`, it is at most 1, and the flag is set
whenever the queue holds a frame. -/
def drain_inv (s : ArpState) : Prop :=
  (drain_timers s : Int) = s.pending_timer_on ∧ drain_timers s ≤ 1 ∧
  (s.pending ≠ [] → s.pending_timer_on = 1)

/-- The invariant of the staleness timers: the tree is well-ordered, every
allocated entry is a node of the tree, and the number of outstanding `arp_expire`
timers of an entry is 1 if the entry is allocated and REACHABLE and 0 otherwise
(so 0 for a STALE entry). -/
def expire_inv (s : ArpState) : Prop :=
  wf s ∧ (∀ p, p < s.heap.length → p ∈ s.Arp_table) ∧
  (∀ p, expire_timers s p =
    if p < s.heap.length ∧ (deref s.heap p).arp_status = PICO_ARP_STATUS_REACHABLE
    then 1 else 0)

/-- The drain timer fires once for each element of the list (the collaborators at
that firing), as long as a drain timer is outstanding; `none` if none is. -/
def drain_run : List Env → ArpState → Option ArpState
  | [], s => some s
  | c :: cs, s =>
    match s.timers.find? Timer.is_drain with
    | none => none
    | some t => drain_run cs (fire_check_pending c t s)

/-! ## Sample data -/

/-- The hardware address aa:aa:aa:aa:aa:aa. -/
def macAA : Mac := ⟨0xaa, 0xaa, 0xaa, 0xaa, 0xaa, 0xaa⟩

/-- The hardware address bb:bb:bb:bb:bb:bb. -/
def macBB : Mac := ⟨0xbb, 0xbb, 0xbb, 0xbb, 0xbb, 0xbb⟩

/-- The hardware address cc:cc:cc:cc:cc:cc. -/
def macCC : Mac := ⟨0xcc, 0xcc, 0xcc, 0xcc, 0xcc, 0xcc⟩

/-- The address 10.0.0.1. -/
def ip1 : Nat := 0x0a000001

/-- The address 10.0.0.2. -/
def ip2 : Nat := 0x0a000002

/-- The address 10.0.0.3. -/
def ip3 : Nat := 0x0a000003

/-- A host with one device (pointer 1, hardware address aa:..:aa) that owns
10.0.0.1: no gateway, every allocation and every send succeeds. -/
def env1 : Env :=
  { route_get_gateway := fun _ => 0,
    source_find := fun _ => some ip1,
    link_find := fun a => if a = ip1 then some 1 else none,
    ipv4_dst := fun _ => ip2,
    dev_mac := fun _ => macAA,
    dev_send := fun _ bytes => bytes.length,
    frame_alloc := fun n => some (List.replicate n 0),
    zalloc_ok := true,
    ethernet_send := fun _ s => (1, s),
    now := 7 }

/-- The same host when `pico_zalloc` fails. -/
def env_nomem : Env := { env1 with zalloc_ok := false }

/-- A cache entry for `ip` with hardware address `m`, learned on device 1. -/
def entry (ip : Nat) (m : Mac) (st : ArpStatus) : pico_arp :=
  { eth := m, ipv4 := ip, arp_status := st, timestamp := 0, dev := 1 }

/-- An outbound frame on device 1. -/
def frame_out (count : Nat) : pico_frame :=
  { buffer := [], datalink_hdr := 0, net_hdr := some 14, start := 0, len := 0, dev := 1,
    failure_count := count }

/-- An inbound frame on device 1: a link-layer header (from `smac` to `dmac`)
followed by a resolution message with the given opcode, sender and target. -/
def arp_frame (opcode : Nat) (smac : Mac) (sip : Nat) (dmac : Mac) (dip : Nat) : pico_frame :=
  { buffer :=
      dmac.bytes ++ smac.bytes ++ be_bytes 2 PICO_IDETH_ARP
        ++ be_bytes 2 PICO_ARP_HTYPE_ETH ++ be_bytes 2 PICO_IDETH_IPV4
        ++ [PICO_SIZE_ETH, PICO_SIZE_IP4] ++ be_bytes 2 opcode
        ++ smac.bytes ++ be_bytes 4 sip ++ dmac.bytes ++ be_bytes 4 dip,
    datalink_hdr := 0, net_hdr := some PICO_SIZE_ETHHDR, start := 0,
    len := PICO_SIZE_ETHHDR + PICO_SIZE_ARPHDR, dev := 1, failure_count := 0 }

/-- A REPLY from 10.0.0.2 at bb:..:bb to 10.0.0.1 at aa:..:aa. -/
def reply_bb : pico_frame := arp_frame PICO_ARP_REPLY macBB ip2 macAA ip1

/-- A REPLY from 10.0.0.2 at cc:..:cc to 10.0.0.1 at aa:..:aa. -/
def reply_cc : pico_frame := arp_frame PICO_ARP_REPLY macCC ip2 macAA ip1

/-- A REQUEST from 10.0.0.2 at bb:..:bb for 10.0.0.1, broadcast. -/
def request_for_ip1 : pico_frame := arp_frame PICO_ARP_REQUEST macBB ip2 PICO_ETHADDR_ALL ip1

/-- A REQUEST from 10.0.0.2 at bb:..:bb for 10.0.0.3, broadcast. -/
def request_for_ip3 : pico_frame := arp_frame PICO_ARP_REQUEST macBB ip2 PICO_ETHADDR_ALL ip3

/-- A cache that holds 10.0.0.2 at bb:..:bb, reachable, and a second object for
the same address, at cc:..:cc, that is not linked in the tree. -/
def state_dup : ArpState :=
  { ArpState.init with
    heap := [entry ip2 macBB PICO_ARP_STATUS_REACHABLE, entry ip2 macCC PICO_ARP_STATUS_REACHABLE],
    Arp_table := [0] }

/-- A cache that holds 10.0.0.2 (reachable) and 10.0.0.3 (stale), both at
bb:..:bb. -/
def state_shared : ArpState :=
  { ArpState.init with
    heap := [entry ip2 macBB PICO_ARP_STATUS_REACHABLE, entry ip3 macBB PICO_ARP_STATUS_STALE],
    Arp_table := [0, 1] }

/-- A cache that holds 10.0.0.2 at bb:..:bb, with the given status. -/
def state_one (st : ArpStatus) : ArpState :=
  { ArpState.init with heap := [entry ip2 macBB st], Arp_table := [0] }

/-- The host of `env1` before it has an address: source selection finds
nothing. -/
def env_nosrc : Env := { env1 with source_find := fun _ => none }

/-- The host of `env1` when the send path reports 0 (nothing sent) and leaves the
state of the module alone. -/
def env_unsent : Env := { env1 with ethernet_send := fun _ s => (0, s) }

/-- The REPLY `reply_bb` cut one byte short: the message has 27 bytes. -/
def short_reply : pico_frame :=
  { reply_bb with buffer := reply_bb.buffer.take 41, len := 41 }

/-- The REPLY `reply_bb` without a network header pointer. -/
def frame_nohdr : pico_frame := { reply_bb with net_hdr := none }

/-- A state with one frame in the queue, the flag set and the drain timer armed. -/
def state_queued : ArpState :=
  { ArpState.init with
    pending := [frame_out 1], pending_timer_on := 1,
    timers := [⟨PICO_ARP_RETRY, Callback.check_pending⟩] }

/-! ## Lemmas on the trace -/

theorem pico_arp_query_state (c : Env) (dev dst : Nat) (s : ArpState) :
    (pico_arp_query c dev dst s).2 = { s with trace := s.trace ++ query_events c dev dst } := by
  unfold query_events pico_arp_query
  cases c.source_find dst <;> cases c.frame_alloc (PICO_SIZE_ETHHDR + PICO_SIZE_ARPHDR) <;>
    simp [log, pico_frame_discard, ArpState.init]

theorem query_events_filter_query (c : Env) (dev dst : Nat) :
    (query_events c dev dst).filter Event.is_query = [Event.arp_query dev dst] := by
  unfold query_events pico_arp_query
  cases c.source_find dst <;> cases c.frame_alloc (PICO_SIZE_ETHHDR + PICO_SIZE_ARPHDR) <;>
    simp [log, pico_frame_discard, ArpState.init, Event.is_query]

theorem query_events_filter_notify (c : Env) (dev dst : Nat) :
    (query_events c dev dst).filter Event.is_notify = [] := by
  unfold query_events pico_arp_query
  cases c.source_find dst <;> cases c.frame_alloc (PICO_SIZE_ETHHDR + PICO_SIZE_ARPHDR) <;>
    simp [log, pico_frame_discard, ArpState.init, Event.is_notify]

theorem query_events_discard (c : Env) (dev dst : Nat) (f : pico_frame)
    (h : Event.frame_discard f ∈ query_events c dev dst) : f.failure_count = 0 := by
  unfold query_events pico_arp_query at h
  cases hs : c.source_find dst <;>
    cases hq : c.frame_alloc (PICO_SIZE_ETHHDR + PICO_SIZE_ARPHDR) <;>
    simp [hs, hq, log, pico_frame_discard, ArpState.init] at h
  rw [h]

theorem events_since_append (s : ArpState) (t : ArpState) (l : List Event)
    (h : t.trace = s.trace ++ l) : events_since s t = l := by
  simp [events_since, h]

/-! ## Lemmas on the tree -/

theorem arp_compare_eq_zero (a b : pico_arp) : arp_compare a b = 0 ↔ a.ipv4 = b.ipv4 := by
  unfold arp_compare
  split
  · simp; omega
  · split
    · simp; omega
    · simp; omega

theorem RB_FIND_eq (heap : List pico_arp) (tree : List Nat) (search : pico_arp) :
    RB_FIND heap tree search
      = tree.find? (fun q => decide ((deref heap q).ipv4 = search.ipv4)) := by
  unfold RB_FIND
  congr 1
  funext q
  by_cases h : (deref heap q).ipv4 = search.ipv4
  · simp [h, (arp_compare_eq_zero search (deref heap q)).2 h.symm]
  · have : ¬ arp_compare search (deref heap q) = 0 := fun h0 =>
      h ((arp_compare_eq_zero search (deref heap q)).1 h0).symm
    simp [h, this]

theorem RB_FIND_some (heap : List pico_arp) (tree : List Nat) (search : pico_arp) (p : Nat)
    (h : RB_FIND heap tree search = some p) :
    p ∈ tree ∧ (deref heap p).ipv4 = search.ipv4 := by
  rw [RB_FIND_eq] at h
  exact ⟨List.mem_of_find?_eq_some h, by simpa using List.find?_some h⟩

theorem pico_arp_get_entry_some (s : ArpState) (dst p : Nat)
    (h : pico_arp_get_entry s dst = some p) :
    RB_FIND s.heap s.Arp_table { pico_arp.zero with ipv4 := dst } = some p ∧
    p ∈ s.Arp_table ∧ (deref s.heap p).ipv4 = dst ∧
    (deref s.heap p).arp_status ≠ PICO_ARP_STATUS_STALE := by
  unfold pico_arp_get_entry at h
  split at h
  · rename_i found hf
    split at h
    · rename_i hst
      cases h
      have := RB_FIND_some _ _ _ _ hf
      exact ⟨hf, this.1, this.2, hst⟩
    · cases h
  · cases h

theorem arp_compare_neg (a b : pico_arp) : arp_compare a b < 0 ↔ a.ipv4 < b.ipv4 := by
  unfold arp_compare
  split
  · simp [*]
  · split <;> simp [*]

theorem arp_compare_pos (a b : pico_arp) : arp_compare a b > 0 ↔ b.ipv4 < a.ipv4 := by
  unfold arp_compare
  split
  · simp; omega
  · split
    · simp; omega
    · simp; omega

theorem deref_update (h : List pico_arp) (p q : Nat) (g : pico_arp → pico_arp) :
    deref (update h p g) q
      = if p = q ∧ p < h.length then g (deref h p) else deref h q := by
  unfold update
  generalize g (deref h p) = x
  unfold deref
  simp only [List.getD_eq_getElem?_getD, List.getElem?_set]
  by_cases hpq : p = q
  · subst hpq
    by_cases hl : p < h.length
    · simp [hl]
    · have : h[p]? = none := List.getElem?_eq_none (by omega)
      simp [hl, this]
  · simp [hpq]

theorem update_length (h : List pico_arp) (p : Nat) (g : pico_arp → pico_arp) :
    (update h p g).length = h.length := by
  simp [update]

theorem key_update (h : List pico_arp) (p q : Nat) (g : pico_arp → pico_arp)
    (hg : ∀ e, (g e).ipv4 = e.ipv4) :
    (deref (update h p g) q).ipv4 = (deref h q).ipv4 := by
  rw [deref_update]
  split
  · rename_i hpq; rw [hg, hpq.1]
  · rfl

theorem RB_FIND_congr (h k : List pico_arp) (tree : List Nat) (search : pico_arp)
    (hk : ∀ q, (deref h q).ipv4 = (deref k q).ipv4) :
    RB_FIND h tree search = RB_FIND k tree search := by
  rw [RB_FIND_eq, RB_FIND_eq]
  congr 1
  funext q
  rw [hk q]

theorem RB_INSERT_cons (h : List pico_arp) (q : Nat) (t : List Nat) (p : Nat) :
    RB_INSERT h (q :: t) p =
      if (deref h p).ipv4 < (deref h q).ipv4 then p :: q :: t
      else if (deref h q).ipv4 < (deref h p).ipv4 then q :: RB_INSERT h t p
      else p :: t := by
  simp only [RB_INSERT, arp_compare_neg, arp_compare_pos]

theorem RB_INSERT_congr (h k : List pico_arp) (tree : List Nat) (p : Nat)
    (hk : ∀ q, (deref h q).ipv4 = (deref k q).ipv4) :
    RB_INSERT h tree p = RB_INSERT k tree p := by
  induction tree with
  | nil => rfl
  | cons q t ih => rw [RB_INSERT_cons, RB_INSERT_cons, ih, hk p, hk q]

/-- A key that no node carries is linked in, and the lookup then finds it. -/
theorem RB_FIND_INSERT_absent (h : List pico_arp) (tree : List Nat) (p : Nat)
    (search : pico_arp) (hs : search.ipv4 = (deref h p).ipv4)
    (habs : ∀ q ∈ tree, (deref h q).ipv4 ≠ (deref h p).ipv4) :
    RB_FIND h (RB_INSERT h tree p) search = some p := by
  rw [RB_FIND_eq]
  induction tree with
  | nil => simp [RB_INSERT, hs]
  | cons q t ih =>
    have hq : (deref h q).ipv4 ≠ (deref h p).ipv4 := habs q (List.mem_cons_self _ _)
    have ht : ∀ r ∈ t, (deref h r).ipv4 ≠ (deref h p).ipv4 :=
      fun r hr => habs r (List.mem_cons_of_mem _ hr)
    rw [RB_INSERT_cons]
    split
    · simp [hs]
    · split
      · rw [List.find?_cons]
        have hq2 : (deref h q).ipv4 ≠ search.ipv4 := by rw [hs]; exact hq
        simp only [hq2, decide_False]
        exact ih ht
      · omega

/-- After `RB_INSERT` of `p` the lookup of the key of `p` finds `p`, whatever the
tree held. -/
theorem RB_FIND_INSERT (h : List pico_arp) (tree : List Nat) (p : Nat)
    (search : pico_arp) (hs : search.ipv4 = (deref h p).ipv4) :
    RB_FIND h (RB_INSERT h tree p) search = some p := by
  rw [RB_FIND_eq]
  induction tree with
  | nil => simp [RB_INSERT, hs]
  | cons q t ih =>
    rw [RB_INSERT_cons]
    split
    · simp [hs]
    · split
      · rename_i hlt
        rw [List.find?_cons]
        have hq2 : (deref h q).ipv4 ≠ search.ipv4 := by rw [hs]; omega
        simp only [hq2, decide_False]
        exact ih
      · simp [hs]

/-- The nodes of a well-ordered tree after `RB_INSERT` of `p`: the node `p` and
the nodes that carry another key. A node that carried the key of `p` is unlinked. -/
theorem RB_INSERT_mem_iff (h : List pico_arp) (tree : List Nat) (p q : Nat)
    (hsorted : tree.Pairwise (fun a b => (deref h a).ipv4 < (deref h b).ipv4)) :
    q ∈ RB_INSERT h tree p ↔
      q = p ∨ (q ∈ tree ∧ (deref h q).ipv4 ≠ (deref h p).ipv4) := by
  induction tree with
  | nil => simp [RB_INSERT]
  | cons r t ih =>
    rw [List.pairwise_cons] at hsorted
    rw [RB_INSERT_cons]
    split
    · rename_i hlt
      constructor
      · intro hq
        rcases List.mem_cons.1 hq with h1 | h1
        · exact Or.inl h1
        · refine Or.inr ⟨h1, ?_⟩
          rcases List.mem_cons.1 h1 with h2 | h2
          · rw [h2]; omega
          · have := hsorted.1 q h2
            omega
      · rintro (h1 | ⟨h1, _⟩)
        · rw [h1]; exact List.mem_cons_self _ _
        · exact List.mem_cons_of_mem _ h1
    · split
      · rename_i hgt
        rw [List.mem_cons, ih hsorted.2]
        constructor
        · rintro (h1 | h1 | ⟨h1, h2⟩)
          · refine Or.inr ⟨by rw [h1]; exact List.mem_cons_self _ _, ?_⟩
            rw [h1]; omega
          · exact Or.inl h1
          · exact Or.inr ⟨List.mem_cons_of_mem _ h1, h2⟩
        · rintro (h1 | ⟨h1, h2⟩)
          · exact Or.inr (Or.inl h1)
          · rcases List.mem_cons.1 h1 with h3 | h3
            · exact Or.inl h3
            · exact Or.inr (Or.inr ⟨h3, h2⟩)
      · rename_i hnlt hngt
        constructor
        · intro hq
          rcases List.mem_cons.1 hq with h1 | h1
          · exact Or.inl h1
          · refine Or.inr ⟨List.mem_cons_of_mem _ h1, ?_⟩
            have := hsorted.1 q h1
            omega
        · rintro (h1 | ⟨h1, h2⟩)
          · rw [h1]; exact List.mem_cons_self _ _
          · rcases List.mem_cons.1 h1 with h3 | h3
            · rw [h3] at h2
              omega
            · exact List.mem_cons_of_mem _ h3

/-- In a well-ordered tree the lookup of a node's key finds that node. -/
theorem RB_FIND_mem (h : List pico_arp) (tree : List Nat) (p : Nat) (search : pico_arp)
    (hs : search.ipv4 = (deref h p).ipv4)
    (hsorted : tree.Pairwise (fun a b => (deref h a).ipv4 < (deref h b).ipv4))
    (hp : p ∈ tree) :
    RB_FIND h tree search = some p := by
  rw [RB_FIND_eq]
  induction tree with
  | nil => cases hp
  | cons q t ih =>
    rw [List.pairwise_cons] at hsorted
    rcases List.mem_cons.1 hp with hpq | hpt
    · subst hpq
      simp [hs]
    · have hlt := hsorted.1 p hpt
      have hne : (deref h q).ipv4 ≠ search.ipv4 := by omega
      rw [List.find?_cons]
      simp only [hne, decide_False]
      exact ih hsorted.2 hpt

/-- Once a node of a well-ordered tree is unlinked, no node carries its key. -/
theorem RB_REMOVE_absent (h : List pico_arp) (tree : List Nat) (p : Nat)
    (hsorted : tree.Pairwise (fun a b => (deref h a).ipv4 < (deref h b).ipv4))
    (hp : p ∈ tree) :
    ∀ q ∈ RB_REMOVE tree p, (deref h q).ipv4 ≠ (deref h p).ipv4 := by
  unfold RB_REMOVE
  induction tree with
  | nil => cases hp
  | cons r t ih =>
    rw [List.pairwise_cons] at hsorted
    intro q hq
    by_cases hrp : r = p
    · subst hrp
      simp at hq
      have := hsorted.1 q hq
      omega
    · have hpt : p ∈ t := by
        rcases List.mem_cons.1 hp with h1 | h1
        · exact absurd h1.symm hrp
        · exact h1
      rw [List.erase_cons] at hq
      simp only [beq_iff_eq, hrp, if_false] at hq
      rcases List.mem_cons.1 hq with h1 | h1
      · subst h1
        have := hsorted.1 p hpt
        omega
      · exact ih hsorted.2 hpt q h1

theorem wf_sorted (s : ArpState) (hwf : wf s) :
    s.Arp_table.Pairwise (fun a b => (deref s.heap a).ipv4 < (deref s.heap b).ipv4) :=
  List.pairwise_map.1 hwf.2

/-! ## Resolving for send -/

theorem pico_arp_get_lookup (c : Env) (f : pico_frame) (s : ArpState) :
    (if c.route_get_gateway (c.ipv4_dst f) ≠ 0
      then pico_arp_get_entry s (c.route_get_gateway (c.ipv4_dst f))
      else pico_arp_get_entry s (c.ipv4_dst f))
    = pico_arp_get_entry s (resolve_target c f) := by
  unfold resolve_target
  split <;> rfl

theorem pico_arp_get_query (c : Env) (f : pico_frame) (s : ArpState) (d : Nat) :
    (if c.route_get_gateway (c.ipv4_dst f) ≠ 0
      then (pico_arp_query c d (c.route_get_gateway (c.ipv4_dst f)) s).2
      else (pico_arp_query c d (c.ipv4_dst f) s).2)
    = { s with trace := s.trace ++ query_events c d (resolve_target c f) } := by
  unfold resolve_target
  split <;> simp [pico_arp_query_state]

/-- The result of `pico_arp_get` on a miss below the retry ceiling. -/
theorem pico_arp_get_below (c : Env) (f : pico_frame) (s : ArpState)
    (hmiss : pico_arp_get_entry s (resolve_target c f) = none)
    (hlt : f.failure_count + 1 < 4) :
    pico_arp_get c f s =
      (none, { f with failure_count := f.failure_count + 1 },
       { s with
         pending := s.pending ++ [{ f with failure_count := f.failure_count + 1 }],
         pending_timer_on := if s.pending_timer_on = 0 then 1 else s.pending_timer_on,
         timers := s.timers ++
           (if s.pending_timer_on = 0 then [⟨PICO_ARP_RETRY, Callback.check_pending⟩] else []),
         trace := s.trace ++ (query_events c f.dev (resolve_target c f)
           ++ (if s.pending_timer_on = 0
               then [Event.timer_add PICO_ARP_RETRY Callback.check_pending] else [])) }) := by
  unfold pico_arp_get
  simp only [pico_arp_get_lookup, hmiss, hlt, if_true, pico_arp_get_query]
  by_cases hon : s.pending_timer_on = 0
  · simp [pico_enqueue, pico_timer_add, hon]
  · simp [pico_enqueue, pico_timer_add, hon]

/-- The result of `pico_arp_get` on a miss at the retry ceiling. -/
theorem pico_arp_get_ceiling (c : Env) (f : pico_frame) (s : ArpState)
    (hmiss : pico_arp_get_entry s (resolve_target c f) = none)
    (hge : 4 ≤ f.failure_count + 1) :
    pico_arp_get c f s =
      (none, { f with failure_count := f.failure_count + 1 },
       { s with trace := s.trace ++
          [Event.notify_dest_unreachable { f with failure_count := f.failure_count + 1 },
           Event.frame_discard { f with failure_count := f.failure_count + 1 }] }) := by
  have hlt : ¬ (f.failure_count + 1 < 4) := by omega
  unfold pico_arp_get
  simp only [pico_arp_get_lookup, hmiss, hlt, if_false]
  simp [pico_frame_discard, pico_notify_dest_unreachable, log]

/-- C1. When the lookup of the resolution target of `f` misses, `pico_arp_get`
returns no entry and hands back `f` with `failure_count` one higher. If the new
count is below 4, the calls it makes are those of one `pico_arp_query` on the
device of `f` for the target (one entry into the query), then the arming of the
drain timer when the flag was clear; `f` is appended once to `pending`, there is
no unreachable notification and `f` is not released. If the new count is 4 or
more, it makes exactly two calls, one unreachable notification and then one
release of `f`, and `pending` is as before: no query, no enqueue. -/
theorem pico_arp_get_miss (c : Env) (f : pico_frame) (s : ArpState)
    (hmiss : pico_arp_get_entry s (resolve_target c f) = none) :
    (pico_arp_get c f s).1 = none ∧
    (pico_arp_get c f s).2.1 = { f with failure_count := f.failure_count + 1 } ∧
    (pico_arp_get c f s).2.2.trace
      = s.trace ++ events_since s (pico_arp_get c f s).2.2 ∧
    (f.failure_count + 1 < 4 →
      events_since s (pico_arp_get c f s).2.2
        = query_events c f.dev (resolve_target c f)
          ++ (if s.pending_timer_on = 0
              then [Event.timer_add PICO_ARP_RETRY Callback.check_pending] else []) ∧
      (events_since s (pico_arp_get c f s).2.2).filter Event.is_query
        = [Event.arp_query f.dev (resolve_target c f)] ∧
      (pico_arp_get c f s).2.2.pending
        = s.pending ++ [{ f with failure_count := f.failure_count + 1 }] ∧
      (events_since s (pico_arp_get c f s).2.2).filter Event.is_notify = [] ∧
      Event.frame_discard { f with failure_count := f.failure_count + 1 }
        ∉ events_since s (pico_arp_get c f s).2.2) ∧
    (4 ≤ f.failure_count + 1 →
      events_since s (pico_arp_get c f s).2.2
        = [Event.notify_dest_unreachable { f with failure_count := f.failure_count + 1 },
           Event.frame_discard { f with failure_count := f.failure_count + 1 }] ∧
      (pico_arp_get c f s).2.2.pending = s.pending) := by
  by_cases hlt : f.failure_count + 1 < 4
  · rw [pico_arp_get_below c f s hmiss hlt]
    have hnd : Event.frame_discard { f with failure_count := f.failure_count + 1 }
        ∉ query_events c f.dev (resolve_target c f) := by
      intro hmem
      have := query_events_discard c f.dev (resolve_target c f) _ hmem
      simp at this
    refine ⟨rfl, rfl, ?_, fun _ => ⟨?_, ?_, rfl, ?_, ?_⟩, fun h4 => absurd hlt (by omega)⟩
    · simp [events_since]
    · simp [events_since]
    · by_cases hon : s.pending_timer_on = 0 <;>
        simp [events_since, hon, query_events_filter_query, Event.is_query]
    · by_cases hon : s.pending_timer_on = 0 <;>
        simp [events_since, hon, query_events_filter_notify, Event.is_notify]
    · by_cases hon : s.pending_timer_on = 0 <;>
        simp [events_since, hon, hnd]
  · have hge : 4 ≤ f.failure_count + 1 := by omega
    rw [pico_arp_get_ceiling c f s hmiss hge]
    refine ⟨rfl, rfl, ?_, fun h => absurd h hlt, fun _ => ⟨?_, rfl⟩⟩
    · simp [events_since]
    · simp [events_since]

/-- Witness of C1: with an empty cache, a first attempt (count 0 to 1) is queued
behind one query, and a fourth attempt (count 3 to 4) is notified and released. -/
theorem pico_arp_get_miss_witness :
    (pico_arp_get env1 (frame_out 0) ArpState.init).2.2.pending = [frame_out 1] ∧
    events_since ArpState.init (pico_arp_get env1 (frame_out 3) ArpState.init).2.2
      = [Event.notify_dest_unreachable (frame_out 4), Event.frame_discard (frame_out 4)] :=
  ⟨((pico_arp_get_miss env1 (frame_out 0) ArpState.init (by decide)).2.2.2.1 (by decide)).2.2.1,
   ((pico_arp_get_miss env1 (frame_out 3) ArpState.init (by decide)).2.2.2.2 (by decide)).1⟩

/-- The result of `pico_arp_get` on a hit. -/
theorem pico_arp_get_of_hit (c : Env) (f : pico_frame) (s : ArpState) (p : Nat)
    (hp : pico_arp_get_entry s (resolve_target c f) = some p) :
    pico_arp_get c f s = (some p, f, s) := by
  unfold pico_arp_get
  simp only [pico_arp_get_lookup, hp]

/-- C2. The entry `pico_arp_get` returns is the result of `pico_arp_get_entry` for
the gateway when the routing collaborator names a non-zero gateway for the
destination of `f`, and for the destination otherwise. When that lookup finds an
entry `p` (a node of the tree with that address, not stale), `pico_arp_get`
returns `p` and leaves the frame and the whole state as they were:
`failure_count`, cache, queue, flag, timers and trace are unchanged, so no query,
timer, notification or release happens. -/
theorem pico_arp_get_hit (c : Env) (f : pico_frame) (s : ArpState) :
    (c.route_get_gateway (c.ipv4_dst f) ≠ 0 →
      (pico_arp_get c f s).1 = pico_arp_get_entry s (c.route_get_gateway (c.ipv4_dst f))) ∧
    (c.route_get_gateway (c.ipv4_dst f) = 0 →
      (pico_arp_get c f s).1 = pico_arp_get_entry s (c.ipv4_dst f)) ∧
    (∀ p, pico_arp_get_entry s (resolve_target c f) = some p →
      pico_arp_get c f s = (some p, f, s) ∧
      events_since s (pico_arp_get c f s).2.2 = [] ∧
      p ∈ s.Arp_table ∧ (deref s.heap p).ipv4 = resolve_target c f ∧
      (deref s.heap p).arp_status ≠ PICO_ARP_STATUS_STALE) := by
  have hres : (pico_arp_get c f s).1 = pico_arp_get_entry s (resolve_target c f) := by
    unfold pico_arp_get
    simp only [pico_arp_get_lookup]
    cases pico_arp_get_entry s (resolve_target c f) with
    | none => simp only []; split <;> rfl
    | some p => rfl
  refine ⟨fun hg => ?_, fun hg => ?_, fun p hp => ?_⟩
  · rw [hres]; simp [resolve_target, hg]
  · rw [hres]; simp [resolve_target, hg]
  · have hget : pico_arp_get c f s = (some p, f, s) := pico_arp_get_of_hit c f s p hp
    have := pico_arp_get_entry_some s _ p hp
    refine ⟨hget, ?_, this.2.1, this.2.2.1, this.2.2.2⟩
    rw [hget]; simp [events_since]

/-- Witness of C2: the cache holds 10.0.0.2, reachable; a frame for 10.0.0.2 gets
that entry and nothing changes. -/
theorem pico_arp_get_hit_witness :
    pico_arp_get env1 (frame_out 0) (state_one PICO_ARP_STATUS_REACHABLE)
      = (some 0, frame_out 0, state_one PICO_ARP_STATUS_REACHABLE) :=
  ((pico_arp_get_hit env1 (frame_out 0) (state_one PICO_ARP_STATUS_REACHABLE)).2.2 0
    (by decide)).1

/-! ## The cache -/

/-- The heap after `pico_arp_add_entry`: the entry is reachable and stamped, the
other objects are as before. -/
theorem pico_arp_add_entry_deref (c : Env) (s : ArpState) (e q : Nat) :
    deref (pico_arp_add_entry c e s).heap q =
      if e = q ∧ e < s.heap.length then
        { deref s.heap e with arp_status := PICO_ARP_STATUS_REACHABLE, timestamp := c.now }
      else deref s.heap q := by
  simp only [pico_arp_add_entry, pico_timer_add, deref_update, update_length]
  by_cases h : e = q ∧ e < s.heap.length
  · obtain ⟨h1, h2⟩ := h
    subst h1
    simp only [h2, and_self, if_true]
  · simp only [h, if_false]

theorem pico_arp_add_entry_key (c : Env) (s : ArpState) (e q : Nat) :
    (deref (pico_arp_add_entry c e s).heap q).ipv4 = (deref s.heap q).ipv4 := by
  rw [pico_arp_add_entry_deref]
  split
  · rename_i h; rw [h.1]
  · rfl

theorem pico_arp_add_entry_table (c : Env) (s : ArpState) (e : Nat) :
    (pico_arp_add_entry c e s).Arp_table = RB_INSERT s.heap s.Arp_table e := by
  simp only [pico_arp_add_entry, pico_timer_add]
  apply RB_INSERT_congr
  intro q
  refine Eq.trans (key_update _ _ _ _ ?_) (key_update _ _ _ _ ?_) <;> intro _ <;> rfl

/-- After `pico_arp_add_entry` of an entry whose key no node carries, the lookup
of that key returns the entry. -/
theorem pico_arp_add_entry_get (c : Env) (s : ArpState) (e : Nat)
    (he : e < s.heap.length)
    (habs : ∀ q ∈ s.Arp_table, (deref s.heap q).ipv4 ≠ (deref s.heap e).ipv4) :
    pico_arp_get_entry (pico_arp_add_entry c e s) (deref s.heap e).ipv4 = some e := by
  have hfind : RB_FIND (pico_arp_add_entry c e s).heap (pico_arp_add_entry c e s).Arp_table
      { pico_arp.zero with ipv4 := (deref s.heap e).ipv4 } = some e := by
    rw [RB_FIND_congr _ s.heap _ _ (pico_arp_add_entry_key c s e), pico_arp_add_entry_table]
    exact RB_FIND_INSERT_absent _ _ _ _ rfl habs
  unfold pico_arp_get_entry
  rw [hfind]
  simp [pico_arp_add_entry_deref, he]

/-- In a well-ordered tree two nodes with the same key are the same node. -/
theorem key_inj (h : List pico_arp) (tree : List Nat) (p q : Nat)
    (hsorted : tree.Pairwise (fun a b => (deref h a).ipv4 < (deref h b).ipv4))
    (hp : p ∈ tree) (hq : q ∈ tree) (hkey : (deref h p).ipv4 = (deref h q).ipv4) :
    p = q := by
  induction tree with
  | nil => cases hp
  | cons r t ih =>
    rw [List.pairwise_cons] at hsorted
    rcases List.mem_cons.1 hp with h1 | h1 <;> rcases List.mem_cons.1 hq with h2 | h2
    · rw [h1, h2]
    · subst h1
      have := hsorted.1 q h2
      omega
    · subst h2
      have := hsorted.1 p h1
      omega
    · exact ih hsorted.2 h1 h2

/-- The scan of a well-ordered tree stops at the node of lowest key among those
that satisfy the test. -/
theorem find_first (h : List pico_arp) (tree : List Nat) (test : Nat → Bool) (E : Nat)
    (hsorted : tree.Pairwise (fun a b => (deref h a).ipv4 < (deref h b).ipv4))
    (hE : E ∈ tree) (hT : test E = true) :
    ∃ p, tree.find? test = some p ∧ p ∈ tree ∧ test p = true ∧
      ∀ q ∈ tree, test q = true → (deref h p).ipv4 ≤ (deref h q).ipv4 := by
  induction tree with
  | nil => cases hE
  | cons r t ih =>
    rw [List.pairwise_cons] at hsorted
    by_cases hr : test r = true
    · refine ⟨r, by simp [List.find?_cons, hr], List.mem_cons_self _ _, hr, fun q hq _ => ?_⟩
      rcases List.mem_cons.1 hq with h1 | h1
      · rw [h1]
      · exact Nat.le_of_lt (hsorted.1 q h1)
    · have hEt : E ∈ t := by
        rcases List.mem_cons.1 hE with h1 | h1
        · rw [h1] at hT; exact absurd hT hr
        · exact h1
      obtain ⟨p, hp1, hp2, hp3, hp4⟩ := ih hsorted.2 hEt
      refine ⟨p, ?_, List.mem_cons_of_mem _ hp2, hp3, fun q hq hq2 => ?_⟩
      · rw [List.find?_cons]
        simp only [Bool.not_eq_true] at hr
        rw [hr]
        exact hp1
      · rcases List.mem_cons.1 hq with h1 | h1
        · rw [h1] at hq2; exact absurd hq2 hr
        · exact hp4 q h1 hq2

/-- The hardware address of an object does not depend on the status field. -/
theorem deref_map_status (heap : List pico_arp) (g : pico_arp → ArpStatus) (q : Nat) :
    (deref (heap.map (fun a => { a with arp_status := g a })) q).eth = (deref heap q).eth := by
  unfold deref
  by_cases h : q < heap.length
  · rw [List.getD_eq_getElem _ _ (by simpa using h), List.getD_eq_getElem _ _ h]
    simp
  · rw [List.getD_eq_default _ _ (by simpa using h), List.getD_eq_default _ _ (by omega)]

/-- The lookup of the key of a node of a well-ordered tree: the node, unless it is
stale. -/
theorem pico_arp_get_entry_mem (s : ArpState) (E : Nat)
    (hsorted : s.Arp_table.Pairwise (fun a b => (deref s.heap a).ipv4 < (deref s.heap b).ipv4))
    (hE : E ∈ s.Arp_table) :
    pico_arp_get_entry s (deref s.heap E).ipv4 =
      if (deref s.heap E).arp_status ≠ PICO_ARP_STATUS_STALE then some E else none := by
  have hf : RB_FIND s.heap s.Arp_table { pico_arp.zero with ipv4 := (deref s.heap E).ipv4 }
      = some E := RB_FIND_mem s.heap s.Arp_table E _ rfl hsorted hE
  unfold pico_arp_get_entry
  rw [hf]

/-- C4, as the code has it. Let `E` be a node of the (well-ordered) tree whose
status is STALE. `pico_arp_get_entry` returns nothing for the address of `E`.
`pico_arp_get_entry_by_mac` for the hardware address of `E` returns the first node
in the order of the tree that has this hardware address: no node before it in the
tree has it, and it has the lowest address among the nodes that have it. The
status is not read: the result is the same whatever the status fields hold. The
result is `E` itself exactly when no node with a lower address has the hardware
address of `E`. -/
theorem stale_entry_lookup (s : ArpState) (E : Nat) (hwf : wf s)
    (hE : E ∈ s.Arp_table)
    (hstale : (deref s.heap E).arp_status = PICO_ARP_STATUS_STALE) :
    pico_arp_get_entry s (deref s.heap E).ipv4 = none ∧
    (∃ p, pico_arp_get_entry_by_mac s (deref s.heap E).eth = some p ∧
      p ∈ s.Arp_table ∧ (deref s.heap p).eth = (deref s.heap E).eth ∧
      (∃ l1 l2, s.Arp_table = l1 ++ p :: l2 ∧
        ∀ q ∈ l1, (deref s.heap q).eth ≠ (deref s.heap E).eth) ∧
      (∀ q ∈ s.Arp_table, (deref s.heap q).eth = (deref s.heap E).eth →
        (deref s.heap p).ipv4 ≤ (deref s.heap q).ipv4)) ∧
    (∀ g : pico_arp → ArpStatus,
      pico_arp_get_entry_by_mac
        { s with heap := s.heap.map (fun a => { a with arp_status := g a }) }
        (deref s.heap E).eth
      = pico_arp_get_entry_by_mac s (deref s.heap E).eth) ∧
    (pico_arp_get_entry_by_mac s (deref s.heap E).eth = some E ↔
      ∀ q ∈ s.Arp_table, (deref s.heap q).eth = (deref s.heap E).eth →
        (deref s.heap E).ipv4 ≤ (deref s.heap q).ipv4) := by
  have hsorted := wf_sorted s hwf
  have hscan := find_first s.heap s.Arp_table
    (fun search => decide ((deref s.heap search).eth = (deref s.heap E).eth)) E hsorted hE
    (by simp)
  obtain ⟨p, hp1, hp2, hp3, hp4⟩ := hscan
  have hp3 : (deref s.heap p).eth = (deref s.heap E).eth := by simpa using hp3
  have hp4 : ∀ q ∈ s.Arp_table, (deref s.heap q).eth = (deref s.heap E).eth →
      (deref s.heap p).ipv4 ≤ (deref s.heap q).ipv4 :=
    fun q hq hq2 => hp4 q hq (by simpa using hq2)
  have hpos : ∃ l1 l2, s.Arp_table = l1 ++ p :: l2 ∧
      ∀ q ∈ l1, (deref s.heap q).eth ≠ (deref s.heap E).eth := by
    obtain ⟨_, l1, l2, h1, h2⟩ := List.find?_eq_some.1 hp1
    exact ⟨l1, l2, h1, fun q hq => by simpa using h2 q hq⟩
  refine ⟨?_, ⟨p, hp1, hp2, hp3, hpos, hp4⟩, fun g => ?_, ⟨fun hres => ?_, fun hlow => ?_⟩⟩
  · rw [pico_arp_get_entry_mem s E hsorted hE]
    simp [hstale]
  · unfold pico_arp_get_entry_by_mac
    simp only [deref_map_status]
  · have hpE : p = E := by
      unfold pico_arp_get_entry_by_mac at hres
      rw [hp1] at hres
      exact Option.some.inj hres
    subst hpE
    exact hp4
  · have hle := hlow p hp2 hp3
    have hge := hp4 E hE rfl
    have hpE : p = E := key_inj s.heap s.Arp_table p E hsorted hp2 hE (by omega)
    rw [← hpE]
    rw [← hpE] at hp1
    exact hp1

/-- Witness of C4: the stale entry for 10.0.0.3 in a cache that also holds
10.0.0.2 at the same hardware address. -/
theorem stale_entry_lookup_witness :
    pico_arp_get_entry state_shared (deref state_shared.heap 1).ipv4 = none :=
  (stale_entry_lookup state_shared 1 (by decide) (by decide) (by decide)).1

/-- C4 fails as stated: 10.0.0.2 (reachable) and 10.0.0.3 (stale) are both at
bb:..:bb; the lookup of 10.0.0.3 returns nothing, and the reverse lookup of
bb:..:bb returns the node of 10.0.0.2, not the stale node. -/
theorem by_mac_returns_other_entry :
    wf state_shared ∧ 1 ∈ state_shared.Arp_table ∧
    (deref state_shared.heap 1).arp_status = PICO_ARP_STATUS_STALE ∧
    pico_arp_get_entry state_shared (deref state_shared.heap 1).ipv4 = none ∧
    pico_arp_get_entry_by_mac state_shared (deref state_shared.heap 1).eth = some 0 ∧
    pico_arp_get_entry_by_mac state_shared (deref state_shared.heap 1).eth ≠ some 1 := by
  decide

/-! ## Receiving a message -/

/-- The two blocks of `pico_arp_receive`: the state is the one the first block
leaves, with the calls of the second block appended to the trace. -/
theorem pico_arp_receive_state (c : Env) (f : pico_frame) (s : ArpState) (hdr : Nat)
    (h : f.net_hdr = some hdr) :
    (pico_arp_receive c f s).1 = (if (receive_learn c f hdr s).isSome then 0 else -1) ∧
    (pico_arp_receive c f s).2.2 =
      match receive_learn c f hdr s with
      | none => { s with trace := s.trace ++ [Event.frame_discard f] }
      | some s2 => { s2 with trace := s2.trace ++ reply_events c f hdr } := by
  unfold pico_arp_receive
  split
  · rename_i h0; rw [h0] at h; cases h
  · rename_i hdr0 h0
    rw [h0] at h
    cases h
    unfold receive_learn reply_events reply_frame reply_buffer
    dsimp only
    generalize RB_FIND s.heap s.Arp_table
      { pico_arp.zero with ipv4 := load32 f.buffer (hdr + OFF_SRC),
                           eth := load_mac f.buffer (hdr + OFF_S_MAC) } = found
    generalize load16 f.buffer (hdr + OFF_OPCODE) = op
    generalize load32 f.buffer (hdr + OFF_DST) = me
    cases found with
    | none =>
      cases hz : c.zalloc_ok
      · exact ⟨rfl, rfl⟩
      · dsimp only
        by_cases hop : op = PICO_ARP_REQUEST
        · by_cases hl : c.link_find me = some f.dev
          · simp only [hop, hl, if_true, ne_eq, not_true_eq_false, if_false]
            refine ⟨rfl, ?_⟩
            simp only [pico_frame_discard, log, List.append_assoc, List.cons_append,
              List.nil_append]
          · simp only [hop, hl, if_true, ne_eq, not_false_eq_true]
            exact ⟨rfl, rfl⟩
        · simp only [hop, if_false]
          exact ⟨rfl, rfl⟩
    | some p =>
      dsimp only
      by_cases hst : (deref s.heap p).arp_status = PICO_ARP_STATUS_STALE
      · simp only [hst, if_true]
        by_cases hop : op = PICO_ARP_REQUEST
        · by_cases hl : c.link_find me = some f.dev
          · simp only [hop, hl, if_true, ne_eq, not_true_eq_false, if_false]
            refine ⟨rfl, ?_⟩
            simp only [pico_frame_discard, log, List.append_assoc, List.cons_append,
              List.nil_append]
          · simp only [hop, hl, if_true, ne_eq, not_false_eq_true]
            exact ⟨rfl, rfl⟩
        · simp only [hop, if_false]
          exact ⟨rfl, rfl⟩
      · simp only [hst, if_false]
        by_cases hop : op = PICO_ARP_REQUEST
        · by_cases hl : c.link_find me = some f.dev
          · simp only [hop, hl, if_true, ne_eq, not_true_eq_false, if_false]
            refine ⟨rfl, ?_⟩
            simp only [pico_frame_discard, log, List.append_assoc, List.cons_append,
              List.nil_append]
          · simp only [hop, hl, if_true, ne_eq, not_false_eq_true]
            exact ⟨rfl, rfl⟩
        · simp only [hop, if_false]
          exact ⟨rfl, rfl⟩

theorem deref_append_lt (h l : List pico_arp) (q : Nat) (hq : q < h.length) :
    deref (h ++ l) q = deref h q := by
  unfold deref
  simp [List.getD_eq_getElem?_getD, List.getElem?_append_left hq]

theorem deref_append_length (h : List pico_arp) (x : pico_arp) :
    deref (h ++ [x]) h.length = x := by
  unfold deref
  simp [List.getD_eq_getElem?_getD]

theorem RB_FIND_none (h : List pico_arp) (tree : List Nat) (search : pico_arp)
    (habs : ∀ q ∈ tree, (deref h q).ipv4 ≠ search.ipv4) :
    RB_FIND h tree search = none := by
  rw [RB_FIND_eq, List.find?_eq_none]
  intro q hq
  simpa using habs q hq

theorem pico_arp_get_entry_congr (s t : ArpState) (dst : Nat)
    (hh : t.heap = s.heap) (ht : t.Arp_table = s.Arp_table) :
    pico_arp_get_entry t dst = pico_arp_get_entry s dst := by
  unfold pico_arp_get_entry
  rw [hh, ht]

/-- The first block of `pico_arp_receive` when no node carries the sender's
address and `pico_zalloc` succeeds: a new object is linked in. -/
theorem receive_learn_fresh (c : Env) (f : pico_frame) (hdr : Nat) (s : ArpState)
    (hwf : wf s) (hz : c.zalloc_ok = true)
    (habs : ∀ q ∈ s.Arp_table, (deref s.heap q).ipv4 ≠ load32 f.buffer (hdr + OFF_SRC)) :
    ∃ st, receive_learn c f hdr s = some st ∧
      pico_arp_get_entry st (load32 f.buffer (hdr + OFF_SRC)) = some s.heap.length ∧
      deref st.heap s.heap.length =
        { eth := load_mac f.buffer (hdr + OFF_S_MAC), ipv4 := load32 f.buffer (hdr + OFF_SRC),
          arp_status := PICO_ARP_STATUS_REACHABLE, timestamp := c.now, dev := f.dev } := by
  have hfind : RB_FIND s.heap s.Arp_table
      { pico_arp.zero with ipv4 := load32 f.buffer (hdr + OFF_SRC),
                           eth := load_mac f.buffer (hdr + OFF_S_MAC) } = none :=
    RB_FIND_none _ _ _ habs
  let h0 := s.heap ++ [{ pico_arp.zero with ipv4 := load32 f.buffer (hdr + OFF_SRC) }]
  let h1 := update h0 s.heap.length
    (fun e => { e with eth := load_mac f.buffer (hdr + OFF_S_MAC) })
  let h2 := update h1 s.heap.length (fun e => { e with dev := f.dev })
  have hlen : s.heap.length < h2.length := by
    simp [h2, h1, h0, update_length]
  have hnew : deref h2 s.heap.length =
      { eth := load_mac f.buffer (hdr + OFF_S_MAC), ipv4 := load32 f.buffer (hdr + OFF_SRC),
        arp_status := PICO_ARP_STATUS_REACHABLE, timestamp := 0, dev := f.dev } := by
    have hl0 : s.heap.length < h0.length := by simp [h0]
    have hl1 : s.heap.length < h1.length := by simp [h1, h0, update_length]
    simp only [h2, h1, deref_update, update_length, hl0, hl1, and_self, if_true]
    simp only [h0, deref_append_length]
    rfl
  have hold : ∀ q, q < s.heap.length → deref h2 q = deref s.heap q := by
    intro q hq
    have hne : ¬ (s.heap.length = q ∧ s.heap.length < h0.length) := by omega
    have hne1 : ¬ (s.heap.length = q ∧ s.heap.length < h1.length) := by omega
    simp only [h2, h1, deref_update, hne, hne1, if_false]
    exact deref_append_lt _ _ _ hq
  refine ⟨pico_arp_add_entry c s.heap.length { s with heap := h2 }, ?_, ?_, ?_⟩
  · unfold receive_learn
    rw [hfind]
    simp only [hz, if_true]
  · have := pico_arp_add_entry_get c { s with heap := h2 } s.heap.length hlen (by
      intro q hq
      show (deref h2 q).ipv4 ≠ (deref h2 s.heap.length).ipv4
      rw [hold q (hwf.1 q hq), hnew]
      exact habs q hq)
    have hk : (deref h2 s.heap.length).ipv4 = load32 f.buffer (hdr + OFF_SRC) := by rw [hnew]
    rw [← hk]
    exact this
  · rw [pico_arp_add_entry_deref]
    have : s.heap.length = s.heap.length ∧ s.heap.length < h2.length := ⟨rfl, hlen⟩
    simp only [this, and_self, if_true]
    show { deref h2 s.heap.length with arp_status := PICO_ARP_STATUS_REACHABLE,
                                       timestamp := c.now } = _
    rw [hnew]

/-- The first block of `pico_arp_receive` when the node that carries the sender's
address is stale: the node is unlinked, rewritten and linked in again. -/
theorem receive_learn_stale (c : Env) (f : pico_frame) (hdr : Nat) (s : ArpState) (p : Nat)
    (hwf : wf s) (hp : p ∈ s.Arp_table)
    (hkey : (deref s.heap p).ipv4 = load32 f.buffer (hdr + OFF_SRC))
    (hstale : (deref s.heap p).arp_status = PICO_ARP_STATUS_STALE) :
    ∃ st, receive_learn c f hdr s = some st ∧
      pico_arp_get_entry st (load32 f.buffer (hdr + OFF_SRC)) = some p ∧
      deref st.heap p =
        { eth := load_mac f.buffer (hdr + OFF_S_MAC), ipv4 := load32 f.buffer (hdr + OFF_SRC),
          arp_status := PICO_ARP_STATUS_REACHABLE, timestamp := c.now, dev := f.dev } := by
  have hsorted := wf_sorted s hwf
  have hfind : RB_FIND s.heap s.Arp_table
      { pico_arp.zero with ipv4 := load32 f.buffer (hdr + OFF_SRC),
                           eth := load_mac f.buffer (hdr + OFF_S_MAC) } = some p :=
    RB_FIND_mem _ _ _ _ hkey.symm hsorted hp
  have hpl : p < s.heap.length := hwf.1 p hp
  let h1 := update s.heap p (fun e => { e with eth := load_mac f.buffer (hdr + OFF_S_MAC) })
  let h2 := update h1 p (fun e => { e with dev := f.dev })
  have hlen : p < h2.length := by simp [h2, h1, update_length, hpl]
  have hkeys : ∀ q, (deref h2 q).ipv4 = (deref s.heap q).ipv4 := by
    intro q
    refine Eq.trans (key_update _ _ _ _ ?_) (key_update _ _ _ _ ?_) <;> intro _ <;> rfl
  have hnew : deref h2 p =
      { deref s.heap p with eth := load_mac f.buffer (hdr + OFF_S_MAC), dev := f.dev } := by
    have hl1 : p < h1.length := by simp [h1, update_length, hpl]
    simp only [h2, h1, deref_update, hpl, hl1, and_self, if_true]
  refine ⟨pico_arp_add_entry c p { s with Arp_table := RB_REMOVE s.Arp_table p, heap := h2 },
    ?_, ?_, ?_⟩
  · unfold receive_learn
    rw [hfind]
    simp only [hstale, if_true]
  · have := pico_arp_add_entry_get c
      { s with Arp_table := RB_REMOVE s.Arp_table p, heap := h2 } p hlen (by
      intro q hq
      show (deref h2 q).ipv4 ≠ (deref h2 p).ipv4
      rw [hkeys q, hkeys p]
      exact RB_REMOVE_absent s.heap s.Arp_table p hsorted hp q hq)
    have hk : (deref h2 p).ipv4 = load32 f.buffer (hdr + OFF_SRC) := by rw [hkeys p, hkey]
    rw [← hk]
    exact this
  · rw [pico_arp_add_entry_deref]
    have : p = p ∧ p < h2.length := ⟨rfl, hlen⟩
    simp only [this, and_self, if_true]
    show { deref h2 p with arp_status := PICO_ARP_STATUS_REACHABLE, timestamp := c.now } = _
    rw [hnew, ← hkey]

/-- C5. Let the cache be well-ordered and hold either no entry for `A` (and let
`pico_zalloc` succeed) or a stale entry for `A`, with any hardware address. After
`pico_arp_receive` of a message (a REPLY in particular) whose sender is `(A, M)`,
received on device `D`, the lookup of `A` returns an entry with address `A`,
hardware address `M`, owning interface `D` and status REACHABLE; and
`pico_arp_get`, for any frame whose resolution target is `A`, returns that entry
and leaves the frame and the state as they are: no request, no enqueue, no change
of `failure_count`. -/
theorem pico_arp_receive_then_get (c : Env) (f : pico_frame) (s : ArpState)
    (hdr A D : Nat) (M : Mac) (hwf : wf s) (hhdr : f.net_hdr = some hdr)
    (hA : load32 f.buffer (hdr + OFF_SRC) = A)
    (hM : load_mac f.buffer (hdr + OFF_S_MAC) = M) (hD : f.dev = D)
    (hprior : ((∀ q ∈ s.Arp_table, (deref s.heap q).ipv4 ≠ A) ∧ c.zalloc_ok = true) ∨
      (∃ q ∈ s.Arp_table, (deref s.heap q).ipv4 = A ∧
        (deref s.heap q).arp_status = PICO_ARP_STATUS_STALE)) :
    (pico_arp_receive c f s).1 = 0 ∧
    ∃ e, pico_arp_get_entry (pico_arp_receive c f s).2.2 A = some e ∧
      (deref (pico_arp_receive c f s).2.2.heap e).ipv4 = A ∧
      (deref (pico_arp_receive c f s).2.2.heap e).eth = M ∧
      (deref (pico_arp_receive c f s).2.2.heap e).dev = D ∧
      (deref (pico_arp_receive c f s).2.2.heap e).arp_status = PICO_ARP_STATUS_REACHABLE ∧
      ∀ (c2 : Env) (f2 : pico_frame), resolve_target c2 f2 = A →
        pico_arp_get c2 f2 (pico_arp_receive c f s).2.2
          = (some e, f2, (pico_arp_receive c f s).2.2) := by
  subst hA hM hD
  have hlearn : ∃ st e, receive_learn c f hdr s = some st ∧
      pico_arp_get_entry st (load32 f.buffer (hdr + OFF_SRC)) = some e ∧
      deref st.heap e =
        { eth := load_mac f.buffer (hdr + OFF_S_MAC), ipv4 := load32 f.buffer (hdr + OFF_SRC),
          arp_status := PICO_ARP_STATUS_REACHABLE, timestamp := c.now, dev := f.dev } := by
    rcases hprior with ⟨habs, hz⟩ | ⟨q, hq, hkey, hst⟩
    · obtain ⟨st, h1, h2, h3⟩ := receive_learn_fresh c f hdr s hwf hz habs
      exact ⟨st, _, h1, h2, h3⟩
    · obtain ⟨st, h1, h2, h3⟩ := receive_learn_stale c f hdr s q hwf hq hkey hst
      exact ⟨st, _, h1, h2, h3⟩
  obtain ⟨st, e, hst, hget, hent⟩ := hlearn
  obtain ⟨hret, hstate⟩ := pico_arp_receive_state c f s hdr hhdr
  rw [hst] at hret hstate
  simp only at hstate
  have hheap : (pico_arp_receive c f s).2.2.heap = st.heap := by rw [hstate]
  have htab : (pico_arp_receive c f s).2.2.Arp_table = st.Arp_table := by rw [hstate]
  have hget2 : pico_arp_get_entry (pico_arp_receive c f s).2.2 (load32 f.buffer (hdr + OFF_SRC))
      = some e := by
    rw [pico_arp_get_entry_congr st _ _ hheap htab]
    exact hget
  refine ⟨by simpa using hret, e, hget2, ?_, ?_, ?_, ?_, fun c2 f2 ht => ?_⟩
  · rw [hheap, hent]
  · rw [hheap, hent]
  · rw [hheap, hent]
  · rw [hheap, hent]
  · exact pico_arp_get_of_hit c2 f2 _ e (by rw [ht]; exact hget2)

/-- Witness of C5: a REPLY from 10.0.0.2 at bb:..:bb reaches first an empty cache,
then a cache whose entry for 10.0.0.2 is stale. -/
theorem pico_arp_receive_then_get_witness :
    (pico_arp_receive env1 reply_bb ArpState.init).1 = 0 ∧
    (pico_arp_receive env1 reply_cc (state_one PICO_ARP_STATUS_STALE)).1 = 0 :=
  ⟨(pico_arp_receive_then_get env1 reply_bb ArpState.init 14 ip2 1 macBB
      (by decide) (by decide) (by decide) (by decide) (by decide)
      (Or.inl (by decide))).1,
   (pico_arp_receive_then_get env1 reply_cc (state_one PICO_ARP_STATUS_STALE) 14 ip2 1 macCC
      (by decide) (by decide) (by decide) (by decide) (by decide)
      (Or.inr ⟨0, by decide, by decide, by decide⟩)).1⟩

theorem reply_events_no_timer (c : Env) (f : pico_frame) (hdr : Nat) :
    (reply_events c f hdr).filter Event.is_timer_add = [] := by
  unfold reply_events
  split
  · split <;> simp [Event.is_timer_add]
  · simp [Event.is_timer_add]

/-- C6. Let the cache be well-ordered and hold a REACHABLE entry `p` for `A`, with
hardware address `M`. `pico_arp_receive` of any message whose sender address is
`A`, whatever its opcode and its sender hardware address (one different from `M`
in particular), returns 0 and changes nothing but the trace: the heap (so the
hardware address, owning interface, status and timestamp of `p`), the tree, the
queue, the flag and the timers are as before, and none of the calls it makes is
a `pico_timer_add`. -/
theorem pico_arp_receive_reachable (c : Env) (f : pico_frame) (s : ArpState)
    (hdr A p : Nat) (M : Mac) (hwf : wf s) (hp : p ∈ s.Arp_table)
    (hA : (deref s.heap p).ipv4 = A) (hM : (deref s.heap p).eth = M)
    (hreach : (deref s.heap p).arp_status = PICO_ARP_STATUS_REACHABLE)
    (hhdr : f.net_hdr = some hdr) (hsrc : load32 f.buffer (hdr + OFF_SRC) = A) :
    (pico_arp_receive c f s).1 = 0 ∧
    (pico_arp_receive c f s).2.2 = { s with trace := s.trace ++ reply_events c f hdr } ∧
    (pico_arp_receive c f s).2.2.heap = s.heap ∧
    (pico_arp_receive c f s).2.2.Arp_table = s.Arp_table ∧
    (pico_arp_receive c f s).2.2.timers = s.timers ∧
    (deref (pico_arp_receive c f s).2.2.heap p).eth = M ∧
    events_since s (pico_arp_receive c f s).2.2 = reply_events c f hdr ∧
    (events_since s (pico_arp_receive c f s).2.2).filter Event.is_timer_add = [] := by
  have hfind : RB_FIND s.heap s.Arp_table
      { pico_arp.zero with ipv4 := load32 f.buffer (hdr + OFF_SRC),
                           eth := load_mac f.buffer (hdr + OFF_S_MAC) } = some p :=
    RB_FIND_mem _ _ _ _ (by rw [hsrc, hA]) (wf_sorted s hwf) hp
  have hlearn : receive_learn c f hdr s = some s := by
    unfold receive_learn
    rw [hfind]
    simp [hreach]
  obtain ⟨hret, hstate⟩ := pico_arp_receive_state c f s hdr hhdr
  rw [hlearn] at hret hstate
  simp only at hstate
  have hev : events_since s (pico_arp_receive c f s).2.2 = reply_events c f hdr := by
    rw [hstate]; simp [events_since]
  refine ⟨by simpa using hret, hstate, ?_, ?_, ?_, ?_, hev, ?_⟩
  · rw [hstate]
  · rw [hstate]
  · rw [hstate]
  · rw [hstate]; exact hM
  · rw [hev]; exact reply_events_no_timer c f hdr

/-- Witness of C6: the cache holds 10.0.0.2 at bb:..:bb, reachable, and a REPLY
from 10.0.0.2 at cc:..:cc arrives. -/
theorem pico_arp_receive_reachable_witness :
    load_mac reply_cc.buffer (14 + OFF_S_MAC) ≠ macBB ∧
    (pico_arp_receive env1 reply_cc (state_one PICO_ARP_STATUS_REACHABLE)).2.2.heap
      = (state_one PICO_ARP_STATUS_REACHABLE).heap :=
  ⟨by decide,
   (pico_arp_receive_reachable env1 reply_cc (state_one PICO_ARP_STATUS_REACHABLE) 14 ip2 0 macBB
      (by decide) (by decide) (by decide) (by decide) (by decide) (by decide)
      (by decide)).2.2.1⟩

theorem pico_arp_add_entry_trace (c : Env) (e : Nat) (s : ArpState) :
    (pico_arp_add_entry c e s).trace
      = s.trace ++ [Event.timer_add PICO_ARP_TIMEOUT (Callback.arp_expire e)] := by
  simp [pico_arp_add_entry, pico_timer_add]

/-- The calls of the first block of `pico_arp_receive`: none, or one
`pico_timer_add`. -/
theorem receive_learn_trace (c : Env) (f : pico_frame) (hdr : Nat) (s st : ArpState)
    (h : receive_learn c f hdr s = some st) :
    st.trace = s.trace ∨
    ∃ e, st.trace = s.trace ++ [Event.timer_add PICO_ARP_TIMEOUT (Callback.arp_expire e)] := by
  unfold receive_learn at h
  split at h
  · split at h
    · cases h
      exact Or.inr ⟨_, pico_arp_add_entry_trace _ _ _⟩
    · cases h
  · split at h
    · cases h
      exact Or.inr ⟨_, pico_arp_add_entry_trace _ _ _⟩
    · cases h
      exact Or.inl rfl

/-- C8. For a REQUEST whose target address is not owned by the receiving
interface (`pico_ipv4_link_find` of the target gives another device, or none),
none of the calls `pico_arp_receive` makes is a send on a device: no reply, no
transmitted bytes. -/
theorem pico_arp_receive_not_owner (c : Env) (f : pico_frame) (s : ArpState) (hdr : Nat)
    (hhdr : f.net_hdr = some hdr)
    (hop : load16 f.buffer (hdr + OFF_OPCODE) = PICO_ARP_REQUEST)
    (hl : c.link_find (load32 f.buffer (hdr + OFF_DST)) ≠ some f.dev) :
    (pico_arp_receive c f s).2.2.trace
      = s.trace ++ events_since s (pico_arp_receive c f s).2.2 ∧
    (events_since s (pico_arp_receive c f s).2.2).filter Event.is_dev_send = [] ∧
    ∀ d bytes, Event.dev_send d bytes ∉ events_since s (pico_arp_receive c f s).2.2 := by
  have hrep : reply_events c f hdr = [Event.frame_discard f] := by
    unfold reply_events
    simp [hop, hl]
  obtain ⟨_, hstate⟩ := pico_arp_receive_state c f s hdr hhdr
  have hex : ∃ l, (pico_arp_receive c f s).2.2.trace = s.trace ++ l ∧
      l.filter Event.is_dev_send = [] := by
    cases hlearn : receive_learn c f hdr s with
    | none =>
      rw [hlearn] at hstate
      simp only at hstate
      exact ⟨[Event.frame_discard f], by rw [hstate], by simp [Event.is_dev_send]⟩
    | some st =>
      rw [hlearn] at hstate
      simp only at hstate
      rcases receive_learn_trace c f hdr s st hlearn with ht | ⟨e, ht⟩
      · exact ⟨[Event.frame_discard f], by rw [hstate, hrep, ht], by simp [Event.is_dev_send]⟩
      · exact ⟨[Event.timer_add PICO_ARP_TIMEOUT (Callback.arp_expire e), Event.frame_discard f],
          by rw [hstate, hrep, ht]; simp, by simp [Event.is_dev_send]⟩
  obtain ⟨l, hl1, hl2⟩ := hex
  have hev : events_since s (pico_arp_receive c f s).2.2 = l := events_since_append _ _ _ hl1
  rw [hev]
  refine ⟨hl1, hl2, fun d bytes hmem => ?_⟩
  have : Event.dev_send d bytes ∈ l.filter Event.is_dev_send :=
    List.mem_filter.2 ⟨hmem, rfl⟩
  rw [hl2] at this
  cases this

/-- Witness of C8: a REQUEST for 10.0.0.3 reaches the host that owns 10.0.0.1. -/
theorem pico_arp_receive_not_owner_witness :
    (events_since ArpState.init
      (pico_arp_receive env1 request_for_ip3 ArpState.init).2.2).filter Event.is_dev_send = [] :=
  (pico_arp_receive_not_owner env1 request_for_ip3 ArpState.init 14
    (by decide) (by decide) (by decide)).2.1

/-! ## Staleness -/

/-- The state `arp_expire` leaves: the entry is marked, and the calls of one
`pico_arp_query` for the device and the address of the entry are appended. -/
theorem arp_expire_state (c : Env) (s : ArpState) (E : Nat) :
    arp_expire c E s =
      { s with
        heap := update s.heap E (fun e => { e with arp_status := PICO_ARP_STATUS_STALE }),
        trace := s.trace ++
          query_events c
            (deref (update s.heap E
              (fun e => { e with arp_status := PICO_ARP_STATUS_STALE })) E).dev
            (deref (update s.heap E
              (fun e => { e with arp_status := PICO_ARP_STATUS_STALE })) E).ipv4 } := by
  unfold arp_expire
  simp only [pico_arp_query_state]

/-- C10. Let `E` be a node of the (well-ordered) tree, with address `A`, on
interface `D`. After `arp_expire` for `E`: the status of `E` is STALE; the lookup
of `A` returns nothing; the calls made are those of one `pico_arp_query` on `D`
for `A` (one entry into the query); the hardware address, address, interface and
timestamp of `E`, every other object, the tree and so the keys of the cache are
as before. -/
theorem arp_expire_entry (c : Env) (s : ArpState) (E A D : Nat) (hwf : wf s)
    (hE : E ∈ s.Arp_table)
    (hA : (deref s.heap E).ipv4 = A) (hD : (deref s.heap E).dev = D) :
    (deref (arp_expire c E s).heap E).arp_status = PICO_ARP_STATUS_STALE ∧
    pico_arp_get_entry (arp_expire c E s) A = none ∧
    (arp_expire c E s).trace = s.trace ++ events_since s (arp_expire c E s) ∧
    events_since s (arp_expire c E s) = query_events c D A ∧
    (events_since s (arp_expire c E s)).filter Event.is_query = [Event.arp_query D A] ∧
    (arp_expire c E s).Arp_table = s.Arp_table ∧
    (arp_expire c E s).timers = s.timers ∧
    deref (arp_expire c E s).heap E
      = { deref s.heap E with arp_status := PICO_ARP_STATUS_STALE } ∧
    (∀ q, q ≠ E → deref (arp_expire c E s).heap q = deref s.heap q) ∧
    (∀ q, (deref (arp_expire c E s).heap q).ipv4 = (deref s.heap q).ipv4) := by
  subst hA hD
  have hEl : E < s.heap.length := hwf.1 E hE
  have hnew : deref (update s.heap E
      (fun e => { e with arp_status := PICO_ARP_STATUS_STALE })) E
      = { deref s.heap E with arp_status := PICO_ARP_STATUS_STALE } := by
    rw [deref_update]
    simp only [hEl, and_self, if_true]
  have hkeys : ∀ q, (deref (update s.heap E
      (fun e => { e with arp_status := PICO_ARP_STATUS_STALE })) q).ipv4
      = (deref s.heap q).ipv4 := fun q => key_update _ _ _ _ (fun _ => rfl)
  have hst := arp_expire_state c s E
  rw [hnew] at hst
  have hheap : (arp_expire c E s).heap = update s.heap E
      (fun e => { e with arp_status := PICO_ARP_STATUS_STALE }) := by rw [hst]
  have htab : (arp_expire c E s).Arp_table = s.Arp_table := by rw [hst]
  have htrace : (arp_expire c E s).trace
      = s.trace ++ query_events c (deref s.heap E).dev (deref s.heap E).ipv4 := by rw [hst]
  have hev : events_since s (arp_expire c E s)
      = query_events c (deref s.heap E).dev (deref s.heap E).ipv4 :=
    events_since_append _ _ _ htrace
  have hsorted : (arp_expire c E s).Arp_table.Pairwise
      (fun a b => (deref (arp_expire c E s).heap a).ipv4
        < (deref (arp_expire c E s).heap b).ipv4) := by
    rw [htab, hheap]
    simp only [hkeys]
    exact wf_sorted s hwf
  refine ⟨?_, ?_, ?_, hev, ?_, htab, ?_, ?_, ?_, ?_⟩
  · rw [hheap, hnew]
  · have := pico_arp_get_entry_mem (arp_expire c E s) E hsorted (by rw [htab]; exact hE)
    rw [hheap, hnew] at this
    simpa using this
  · rw [hev, htrace]
  · rw [hev]; exact query_events_filter_query c _ _
  · rw [hst]
  · rw [hheap, hnew]
  · intro q hq
    rw [hheap, deref_update]
    simp [Ne.symm hq]
  · intro q
    rw [hheap]
    exact hkeys q

/-- Witness of C10: the timer of the entry for 10.0.0.2 fires. -/
theorem arp_expire_entry_witness :
    pico_arp_get_entry (arp_expire env1 0 (state_one PICO_ARP_STATUS_REACHABLE)) ip2 = none ∧
    (events_since (state_one PICO_ARP_STATUS_REACHABLE)
      (arp_expire env1 0 (state_one PICO_ARP_STATUS_REACHABLE))).filter Event.is_query
      = [Event.arp_query 1 ip2] :=
  ⟨(arp_expire_entry env1 (state_one PICO_ARP_STATUS_REACHABLE) 0 ip2 1
      (by decide) (by decide) (by decide) (by decide)).2.1,
   (arp_expire_entry env1 (state_one PICO_ARP_STATUS_REACHABLE) 0 ip2 1
      (by decide) (by decide) (by decide) (by decide)).2.2.2.2.1⟩

/-! ## Lemmas on buffers -/

theorem getD_set (l : List Nat) (i j x : Nat) :
    (l.set i x).getD j 0 = if i = j ∧ i < l.length then x else l.getD j 0 := by
  simp only [List.getD_eq_getElem?_getD, List.getElem?_set]
  by_cases hij : i = j
  · subst hij
    by_cases hl : i < l.length
    · simp [hl]
    · have : l[i]? = none := List.getElem?_eq_none (by omega)
      simp [hl, this]
  · simp [hij]

theorem memcpy_length (b : List Nat) (off : Nat) (l : List Nat) :
    (memcpy b off l).length = b.length := by
  induction l generalizing b off with
  | nil => rfl
  | cons x xs ih => simp [memcpy, ih]

theorem getD_memcpy (b : List Nat) (off : Nat) (l : List Nat) (i : Nat) :
    (memcpy b off l).getD i 0 =
      if off ≤ i ∧ i < off + l.length ∧ i < b.length then l.getD (i - off) 0
      else b.getD i 0 := by
  induction l generalizing b off with
  | nil =>
    have : ¬ (off ≤ i ∧ i < off + ([] : List Nat).length ∧ i < b.length) := by
      simp only [List.length_nil]; omega
    rw [if_neg this]; rfl
  | cons x xs ih =>
    simp only [memcpy, ih, List.length_set, getD_set, List.length_cons]
    by_cases h1 : off + 1 ≤ i ∧ i < off + 1 + xs.length ∧ i < b.length
    · have h2 : off ≤ i ∧ i < off + (xs.length + 1) ∧ i < b.length := by omega
      rw [if_pos h1, if_pos h2]
      have : i - off = (i - (off + 1)) + 1 := by omega
      rw [this, List.getD_cons_succ]
    · rw [if_neg h1]
      by_cases h3 : off = i ∧ off < b.length
      · have h2 : off ≤ i ∧ i < off + (xs.length + 1) ∧ i < b.length := by omega
        rw [if_pos h3, if_pos h2]
        have : i - off = 0 := by omega
        rw [this]; rfl
      · have h2 : ¬ (off ≤ i ∧ i < off + (xs.length + 1) ∧ i < b.length) := by omega
        rw [if_neg h3, if_neg h2]

theorem length_rd (b : List Nat) (off n : Nat) : (rd b off n).length = n := by
  simp [rd]

theorem getD_rd (b : List Nat) (off n k : Nat) :
    (rd b off n).getD k 0 = if k < n then b.getD (off + k) 0 else 0 := by
  unfold rd
  by_cases h : k < n
  · simp [List.getD_eq_getElem?_getD, h]
  · have : ((List.range n).map (fun i => b.getD (off + i) 0))[k]? = none :=
      List.getElem?_eq_none (by simp; omega)
    simp only [List.getD_eq_getElem?_getD] at this ⊢
    rw [this, if_neg h]; rfl

theorem rd_congr (b c : List Nat) (off n : Nat)
    (h : ∀ i, i < n → b.getD (off + i) 0 = c.getD (off + i) 0) :
    rd b off n = rd c off n := by
  unfold rd
  apply List.map_congr_left
  intro i hi
  exact h i (List.mem_range.1 hi)

theorem rd_memcpy_disjoint (b : List Nat) (off : Nat) (l : List Nat) (off2 n : Nat)
    (h : off2 + n ≤ off ∨ off + l.length ≤ off2) :
    rd (memcpy b off l) off2 n = rd b off2 n := by
  apply rd_congr
  intro i hi
  rw [getD_memcpy]
  have : ¬ (off ≤ off2 + i ∧ off2 + i < off + l.length ∧ off2 + i < b.length) := by omega
  rw [if_neg this]

theorem rd_memcpy_same (b : List Nat) (off : Nat) (l : List Nat) (n : Nat)
    (hl : l.length = n) (hb : off + n ≤ b.length) :
    rd (memcpy b off l) off n = l := by
  apply List.ext_getElem
  · rw [length_rd, hl]
  · intro i h1 h2
    have hi : i < n := by rw [length_rd] at h1; exact h1
    simp only [rd, List.getElem_map, List.getElem_range]
    rw [getD_memcpy]
    have : off ≤ off + i ∧ off + i < off + l.length ∧ off + i < b.length := by omega
    rw [if_pos this]
    simp [List.getD_eq_getElem?_getD, h2]

theorem rd_rd (b : List Nat) (off n k m : Nat) (h : k + m ≤ n) :
    rd (rd b off n) k m = rd b (off + k) m := by
  unfold rd
  apply List.map_congr_left
  intro i hi
  have hi := List.mem_range.1 hi
  have := getD_rd b off n (k + i)
  unfold rd at this
  rw [this, if_pos (by omega), Nat.add_assoc]

theorem be_bytes_length (n v : Nat) : (be_bytes n v).length = n := by
  induction n with
  | zero => rfl
  | succ k ih => simp [be_bytes, ih]

theorem Mac.bytes_length (m : Mac) : m.bytes.length = 6 := rfl

theorem Mac.ofBytes_bytes (m : Mac) : Mac.ofBytes m.bytes = m := rfl

theorem be_word_bytes1 (v : Nat) : be_word (be_bytes 1 v) = v % 256 := by
  simp [be_word, be_bytes]

theorem be_word_bytes2 (v : Nat) : be_word (be_bytes 2 v) = v % 65536 := by
  simp [be_word, be_bytes]
  omega

theorem be_word_bytes4 (v : Nat) : be_word (be_bytes 4 v) = v % 4294967296 := by
  simp [be_word, be_bytes]
  omega

theorem load32_lt (b : List Nat) (off : Nat) : load32 b off < 4294967296 := by
  simp [load32, rd, be_word, List.range_succ]
  omega

theorem load16_lt (b : List Nat) (off : Nat) : load16 b off < 65536 := by
  simp [load16, rd, be_word, List.range_succ]
  omega

/-! ## The reply to a request -/

/-- The fields of the 42 bytes `pico_arp_receive` hands to the device, for a frame
whose link-layer header is at `dl`, followed by the message, inside the buffer. -/
theorem reply_buffer_fields (c : Env) (f : pico_frame) (dl : Nat)
    (hdl : f.datalink_hdr = dl)
    (hlen : dl + (PICO_SIZE_ETHHDR + PICO_SIZE_ARPHDR) ≤ f.buffer.length) :
    load16 (rd (reply_buffer c f (dl + PICO_SIZE_ETHHDR)) dl
        (PICO_SIZE_ETHHDR + PICO_SIZE_ARPHDR)) (PICO_SIZE_ETHHDR + OFF_OPCODE)
      = PICO_ARP_REPLY ∧
    load_mac (rd (reply_buffer c f (dl + PICO_SIZE_ETHHDR)) dl
        (PICO_SIZE_ETHHDR + PICO_SIZE_ARPHDR)) (PICO_SIZE_ETHHDR + OFF_S_MAC)
      = c.dev_mac f.dev ∧
    load32 (rd (reply_buffer c f (dl + PICO_SIZE_ETHHDR)) dl
        (PICO_SIZE_ETHHDR + PICO_SIZE_ARPHDR)) (PICO_SIZE_ETHHDR + OFF_SRC)
      = load32 f.buffer (dl + PICO_SIZE_ETHHDR + OFF_DST) ∧
    load_mac (rd (reply_buffer c f (dl + PICO_SIZE_ETHHDR)) dl
        (PICO_SIZE_ETHHDR + PICO_SIZE_ARPHDR)) (PICO_SIZE_ETHHDR + OFF_D_MAC)
      = load_mac f.buffer (dl + PICO_SIZE_ETHHDR + OFF_S_MAC) ∧
    load32 (rd (reply_buffer c f (dl + PICO_SIZE_ETHHDR)) dl
        (PICO_SIZE_ETHHDR + PICO_SIZE_ARPHDR)) (PICO_SIZE_ETHHDR + OFF_DST)
      = load32 f.buffer (dl + PICO_SIZE_ETHHDR + OFF_SRC) ∧
    load16 (rd (reply_buffer c f (dl + PICO_SIZE_ETHHDR)) dl
        (PICO_SIZE_ETHHDR + PICO_SIZE_ARPHDR)) (PICO_SIZE_ETHHDR + OFF_HTYPE)
      = load16 f.buffer (dl + PICO_SIZE_ETHHDR + OFF_HTYPE) ∧
    load16 (rd (reply_buffer c f (dl + PICO_SIZE_ETHHDR)) dl
        (PICO_SIZE_ETHHDR + PICO_SIZE_ARPHDR)) (PICO_SIZE_ETHHDR + OFF_PTYPE)
      = load16 f.buffer (dl + PICO_SIZE_ETHHDR + OFF_PTYPE) ∧
    load8 (rd (reply_buffer c f (dl + PICO_SIZE_ETHHDR)) dl
        (PICO_SIZE_ETHHDR + PICO_SIZE_ARPHDR)) (PICO_SIZE_ETHHDR + OFF_HSIZE)
      = load8 f.buffer (dl + PICO_SIZE_ETHHDR + OFF_HSIZE) ∧
    load8 (rd (reply_buffer c f (dl + PICO_SIZE_ETHHDR)) dl
        (PICO_SIZE_ETHHDR + PICO_SIZE_ARPHDR)) (PICO_SIZE_ETHHDR + OFF_PSIZE)
      = load8 f.buffer (dl + PICO_SIZE_ETHHDR + OFF_PSIZE) ∧
    load_mac (rd (reply_buffer c f (dl + PICO_SIZE_ETHHDR)) dl
        (PICO_SIZE_ETHHDR + PICO_SIZE_ARPHDR)) OFF_ETH_DADDR
      = load_mac f.buffer (dl + OFF_ETH_SADDR) ∧
    load_mac (rd (reply_buffer c f (dl + PICO_SIZE_ETHHDR)) dl
        (PICO_SIZE_ETHHDR + PICO_SIZE_ARPHDR)) OFF_ETH_SADDR
      = c.dev_mac f.dev := by
  simp only [PICO_SIZE_ETHHDR, PICO_SIZE_ARPHDR, PICO_SIZE_ETH, Nat.reduceAdd] at hlen
  simp only [reply_buffer, load8, load16, load32, load_mac, store16, store32, hdl,
    OFF_HTYPE, OFF_PTYPE, OFF_HSIZE, OFF_PSIZE, OFF_OPCODE, OFF_D_MAC, OFF_S_MAC, OFF_SRC,
    OFF_DST, OFF_ETH_DADDR, OFF_ETH_SADDR, PICO_SIZE_ETHHDR, PICO_SIZE_ARPHDR, PICO_SIZE_ETH,
    Nat.add_assoc, Nat.reduceAdd, Nat.add_zero]
  have hw : be_word (be_bytes 4 (be_word (rd f.buffer (dl + 38) 4)))
      = be_word (rd f.buffer (dl + 38) 4) := by
    rw [be_word_bytes4]
    exact Nat.mod_eq_of_lt (load32_lt f.buffer (dl + 38))
  have hw2 : be_word (be_bytes 4 (be_word (rd f.buffer (dl + 28) 4)))
      = be_word (rd f.buffer (dl + 28) 4) := by
    rw [be_word_bytes4]
    exact Nat.mod_eq_of_lt (load32_lt f.buffer (dl + 28))
  refine ⟨?_, ?_, ?_, ?_, ?_, ?_, ?_, ?_, ?_, ?_, ?_⟩ <;>
    rw [rd_rd _ _ _ _ _ (by omega)] <;>
    simp (disch := first
      | omega
      | (simp only [length_rd, memcpy_length, be_bytes_length, Mac.bytes_length]; done)
      | (simp only [length_rd, memcpy_length, be_bytes_length, Mac.bytes_length]; omega))
      only [rd_memcpy_disjoint, rd_memcpy_same, Nat.add_assoc, Nat.reduceAdd, Nat.add_zero,
        Mac.ofBytes_bytes, hw, hw2, be_word_bytes2, PICO_ARP_REPLY, Nat.reduceMod]

theorem RB_FIND_isSome (h : List pico_arp) (tree : List Nat) (search : pico_arp)
    (hpres : ∃ q ∈ tree, (deref h q).ipv4 = search.ipv4) :
    (RB_FIND h tree search).isSome = true := by
  rw [RB_FIND_eq, List.find?_isSome]
  obtain ⟨q, hq, hk⟩ := hpres
  exact ⟨q, hq, by simpa using hk⟩

/-- The first block of `pico_arp_receive` gives a state when the sender has a node
in the tree or `pico_zalloc` succeeds; its calls hold no send. -/
theorem receive_learn_ok (c : Env) (f : pico_frame) (hdr : Nat) (s : ArpState)
    (halloc : c.zalloc_ok = true ∨
      ∃ q ∈ s.Arp_table, (deref s.heap q).ipv4 = load32 f.buffer (hdr + OFF_SRC)) :
    ∃ st l, receive_learn c f hdr s = some st ∧ st.trace = s.trace ++ l ∧
      l.filter Event.is_dev_send = [] := by
  have hsome : ∃ st, receive_learn c f hdr s = some st := by
    unfold receive_learn
    split
    · rename_i hnone
      rcases halloc with hz | hpres
      · rw [if_pos hz]
        exact ⟨_, rfl⟩
      · have := RB_FIND_isSome s.heap s.Arp_table
          { pico_arp.zero with ipv4 := load32 f.buffer (hdr + OFF_SRC),
                               eth := load_mac f.buffer (hdr + OFF_S_MAC) } hpres
        rw [hnone] at this
        cases this
    · split
      · exact ⟨_, rfl⟩
      · exact ⟨_, rfl⟩
  obtain ⟨st, hst⟩ := hsome
  rcases receive_learn_trace c f hdr s st hst with ht | ⟨e, ht⟩
  · exact ⟨st, [], hst, by simp [ht], rfl⟩
  · exact ⟨st, _, hst, ht, by simp [Event.is_dev_send]⟩

/-- C7, as the code has it. Take an inbound REQUEST: a frame whose buffer holds, at
`dl`, the link-layer header followed by the 28-byte message, with opcode REQUEST
and a target address that `pico_ipv4_link_find` maps to the device of the frame.
Let the allocation of the cache entry not fail (the sender has a node in the tree,
or `pico_zalloc` succeeds). Then `pico_arp_receive` returns 0 and calls the send
primitive once, on that device, with 14 + 28 bytes in which: the opcode is REPLY;
the sender hardware address is the device's; the sender address is the request's
target address; the target hardware address and address are the request's sender
hardware address and address; hardware type, protocol type and the two lengths
are the request's; the link-layer destination is the request's link-layer source
and the link-layer source is the device's hardware address. -/
theorem pico_arp_receive_request (c : Env) (f : pico_frame) (s : ArpState) (dl : Nat)
    (hdl : f.datalink_hdr = dl) (hhdr : f.net_hdr = some (dl + PICO_SIZE_ETHHDR))
    (hlen : dl + (PICO_SIZE_ETHHDR + PICO_SIZE_ARPHDR) ≤ f.buffer.length)
    (hop : load16 f.buffer (dl + PICO_SIZE_ETHHDR + OFF_OPCODE) = PICO_ARP_REQUEST)
    (hown : c.link_find (load32 f.buffer (dl + PICO_SIZE_ETHHDR + OFF_DST)) = some f.dev)
    (halloc : c.zalloc_ok = true ∨
      ∃ q ∈ s.Arp_table,
        (deref s.heap q).ipv4 = load32 f.buffer (dl + PICO_SIZE_ETHHDR + OFF_SRC)) :
    (pico_arp_receive c f s).1 = 0 ∧
    (pico_arp_receive c f s).2.2.trace
      = s.trace ++ events_since s (pico_arp_receive c f s).2.2 ∧
    ∃ sent,
      (events_since s (pico_arp_receive c f s).2.2).filter Event.is_dev_send
        = [Event.dev_send f.dev sent] ∧
      sent.length = PICO_SIZE_ETHHDR + 28 ∧
      load16 sent (PICO_SIZE_ETHHDR + OFF_OPCODE) = PICO_ARP_REPLY ∧
      load_mac sent (PICO_SIZE_ETHHDR + OFF_S_MAC) = c.dev_mac f.dev ∧
      load32 sent (PICO_SIZE_ETHHDR + OFF_SRC)
        = load32 f.buffer (dl + PICO_SIZE_ETHHDR + OFF_DST) ∧
      load_mac sent (PICO_SIZE_ETHHDR + OFF_D_MAC)
        = load_mac f.buffer (dl + PICO_SIZE_ETHHDR + OFF_S_MAC) ∧
      load32 sent (PICO_SIZE_ETHHDR + OFF_DST)
        = load32 f.buffer (dl + PICO_SIZE_ETHHDR + OFF_SRC) ∧
      load16 sent (PICO_SIZE_ETHHDR + OFF_HTYPE)
        = load16 f.buffer (dl + PICO_SIZE_ETHHDR + OFF_HTYPE) ∧
      load16 sent (PICO_SIZE_ETHHDR + OFF_PTYPE)
        = load16 f.buffer (dl + PICO_SIZE_ETHHDR + OFF_PTYPE) ∧
      load8 sent (PICO_SIZE_ETHHDR + OFF_HSIZE)
        = load8 f.buffer (dl + PICO_SIZE_ETHHDR + OFF_HSIZE) ∧
      load8 sent (PICO_SIZE_ETHHDR + OFF_PSIZE)
        = load8 f.buffer (dl + PICO_SIZE_ETHHDR + OFF_PSIZE) ∧
      load_mac sent OFF_ETH_DADDR = load_mac f.buffer (dl + OFF_ETH_SADDR) ∧
      load_mac sent OFF_ETH_SADDR = c.dev_mac f.dev := by
  obtain ⟨st, l, hst, htr, hl⟩ := receive_learn_ok c f (dl + PICO_SIZE_ETHHDR) s halloc
  obtain ⟨hret, hstate⟩ := pico_arp_receive_state c f s (dl + PICO_SIZE_ETHHDR) hhdr
  rw [hst] at hret hstate
  simp only at hstate
  have hrep : reply_events c f (dl + PICO_SIZE_ETHHDR) =
      [Event.dev_send f.dev
          (rd (reply_buffer c f (dl + PICO_SIZE_ETHHDR)) dl
            (PICO_SIZE_ETHHDR + PICO_SIZE_ARPHDR)),
       Event.frame_discard (reply_frame c f (dl + PICO_SIZE_ETHHDR))] := by
    unfold reply_events
    simp only [hop, hown, hdl, if_true, ne_eq, not_true_eq_false, if_false]
  have htrace : (pico_arp_receive c f s).2.2.trace
      = s.trace ++ (l ++ reply_events c f (dl + PICO_SIZE_ETHHDR)) := by
    rw [hstate]
    simp [htr]
  have hev := events_since_append _ _ _ htrace
  obtain ⟨h1, h2, h3, h4, h5, h6, h7, h8, h9, h10, h11⟩ := reply_buffer_fields c f dl hdl hlen
  refine ⟨by simpa using hret, by rw [hev, htrace], _, ?_, ?_,
    h1, h2, h3, h4, h5, h6, h7, h8, h9, h10, h11⟩
  · rw [hev, hrep, List.filter_append, hl]
    simp [Event.is_dev_send]
  · rw [length_rd]
    rfl

/-- Witness of C7: a REQUEST for 10.0.0.1 reaches the host that owns it. -/
theorem pico_arp_receive_request_witness :
    (pico_arp_receive env1 request_for_ip1 ArpState.init).1 = 0 :=
  (pico_arp_receive_request env1 request_for_ip1 ArpState.init 0
    (by decide) (by decide) (by decide) (by decide) (by decide) (Or.inl (by decide))).1

/-- C7 fails as stated: a REQUEST for 10.0.0.1 reaches the host that owns it, the
sender is not in the cache and `pico_zalloc` fails; `pico_arp_receive` returns -1
and the only call it makes is the release of the frame: nothing is sent. -/
theorem pico_arp_receive_request_nomem :
    request_for_ip1.net_hdr = some 14 ∧
    load16 request_for_ip1.buffer (14 + OFF_OPCODE) = PICO_ARP_REQUEST ∧
    env_nomem.link_find (load32 request_for_ip1.buffer (14 + OFF_DST))
      = some request_for_ip1.dev ∧
    (pico_arp_receive env_nomem request_for_ip1 ArpState.init).1 = -1 ∧
    events_since ArpState.init (pico_arp_receive env_nomem request_for_ip1 ArpState.init).2.2
      = [Event.frame_discard request_for_ip1] ∧
    (events_since ArpState.init
      (pico_arp_receive env_nomem request_for_ip1 ArpState.init).2.2).filter Event.is_dev_send
      = [] := by
  decide

/-! ## The request -/

/-- The result of `pico_arp_query` when a source address is found and the frame is
allocated. -/
theorem pico_arp_query_sent (c : Env) (dev dst src : Nat) (buf : List Nat) (s : ArpState)
    (hsrc : c.source_find dst = some src)
    (halloc : c.frame_alloc (PICO_SIZE_ETHHDR + PICO_SIZE_ARPHDR) = some buf) :
    (pico_arp_query c dev dst s).1
      = c.dev_send dev (rd (query_buffer c dev dst src buf) 0
          (PICO_SIZE_ETHHDR + PICO_SIZE_ARPHDR)) ∧
    (pico_arp_query c dev dst s).2.trace
      = s.trace ++
        [Event.arp_query dev dst, Event.frame_alloc (PICO_SIZE_ETHHDR + PICO_SIZE_ARPHDR),
         Event.dev_send dev (rd (query_buffer c dev dst src buf) 0
           (PICO_SIZE_ETHHDR + PICO_SIZE_ARPHDR)),
         Event.frame_discard
           { buffer := query_buffer c dev dst src buf, datalink_hdr := 0, net_hdr := none,
             start := 0, len := PICO_SIZE_ETHHDR + PICO_SIZE_ARPHDR, dev := 0,
             failure_count := 0 }] := by
  unfold pico_arp_query
  simp only [hsrc, halloc]
  refine ⟨rfl, ?_⟩
  simp only [pico_frame_discard, log, List.append_assoc, List.cons_append, List.nil_append]
  rfl

/-- The fields of the 42 bytes `pico_arp_query` hands to the device. -/
theorem query_buffer_fields (c : Env) (dev dst src : Nat) (buf : List Nat)
    (hbuf : buf.length = PICO_SIZE_ETHHDR + PICO_SIZE_ARPHDR)
    (hS : src < 4294967296) (hT : dst < 4294967296) :
    load_mac (rd (query_buffer c dev dst src buf) 0 (PICO_SIZE_ETHHDR + PICO_SIZE_ARPHDR))
        OFF_ETH_DADDR = PICO_ETHADDR_ALL ∧
    load_mac (rd (query_buffer c dev dst src buf) 0 (PICO_SIZE_ETHHDR + PICO_SIZE_ARPHDR))
        OFF_ETH_SADDR = c.dev_mac dev ∧
    load16 (rd (query_buffer c dev dst src buf) 0 (PICO_SIZE_ETHHDR + PICO_SIZE_ARPHDR))
        OFF_ETH_PROTO = PICO_IDETH_ARP ∧
    load16 (rd (query_buffer c dev dst src buf) 0 (PICO_SIZE_ETHHDR + PICO_SIZE_ARPHDR))
        (PICO_SIZE_ETHHDR + OFF_HTYPE) = PICO_ARP_HTYPE_ETH ∧
    load16 (rd (query_buffer c dev dst src buf) 0 (PICO_SIZE_ETHHDR + PICO_SIZE_ARPHDR))
        (PICO_SIZE_ETHHDR + OFF_PTYPE) = PICO_IDETH_IPV4 ∧
    load8 (rd (query_buffer c dev dst src buf) 0 (PICO_SIZE_ETHHDR + PICO_SIZE_ARPHDR))
        (PICO_SIZE_ETHHDR + OFF_HSIZE) = 6 ∧
    load8 (rd (query_buffer c dev dst src buf) 0 (PICO_SIZE_ETHHDR + PICO_SIZE_ARPHDR))
        (PICO_SIZE_ETHHDR + OFF_PSIZE) = 4 ∧
    load16 (rd (query_buffer c dev dst src buf) 0 (PICO_SIZE_ETHHDR + PICO_SIZE_ARPHDR))
        (PICO_SIZE_ETHHDR + OFF_OPCODE) = PICO_ARP_REQUEST ∧
    load_mac (rd (query_buffer c dev dst src buf) 0 (PICO_SIZE_ETHHDR + PICO_SIZE_ARPHDR))
        (PICO_SIZE_ETHHDR + OFF_S_MAC) = c.dev_mac dev ∧
    load32 (rd (query_buffer c dev dst src buf) 0 (PICO_SIZE_ETHHDR + PICO_SIZE_ARPHDR))
        (PICO_SIZE_ETHHDR + OFF_SRC) = src ∧
    load32 (rd (query_buffer c dev dst src buf) 0 (PICO_SIZE_ETHHDR + PICO_SIZE_ARPHDR))
        (PICO_SIZE_ETHHDR + OFF_DST) = dst := by
  simp only [PICO_SIZE_ETHHDR, PICO_SIZE_ARPHDR, PICO_SIZE_ETH, Nat.reduceAdd] at hbuf
  simp only [query_buffer, load8, load16, load32, load_mac, store8, store16, store32,
    OFF_HTYPE, OFF_PTYPE, OFF_HSIZE, OFF_PSIZE, OFF_OPCODE, OFF_D_MAC, OFF_S_MAC, OFF_SRC,
    OFF_DST, OFF_ETH_DADDR, OFF_ETH_SADDR, OFF_ETH_PROTO, PICO_SIZE_ETHHDR, PICO_SIZE_ARPHDR,
    PICO_SIZE_ETH, PICO_SIZE_IP4, Nat.add_assoc, Nat.reduceAdd, Nat.add_zero, Nat.zero_add]
  have hwS : be_word (be_bytes 4 src) = src := by
    rw [be_word_bytes4]; exact Nat.mod_eq_of_lt hS
  have hwT : be_word (be_bytes 4 dst) = dst := by
    rw [be_word_bytes4]; exact Nat.mod_eq_of_lt hT
  refine ⟨?_, ?_, ?_, ?_, ?_, ?_, ?_, ?_, ?_, ?_, ?_⟩ <;>
    rw [rd_rd _ _ _ _ _ (by omega)] <;>
    simp (disch := first
      | omega
      | (simp only [length_rd, memcpy_length, be_bytes_length, Mac.bytes_length]; done)
      | (simp only [length_rd, memcpy_length, be_bytes_length, Mac.bytes_length]; omega))
      only [rd_memcpy_disjoint, rd_memcpy_same, Nat.add_assoc, Nat.reduceAdd, Nat.add_zero,
        Nat.zero_add, Mac.ofBytes_bytes, hwS, hwT, be_word_bytes1, be_word_bytes2,
        PICO_ARP_REQUEST, PICO_ARP_HTYPE_ETH, PICO_IDETH_IPV4, PICO_IDETH_ARP, Nat.reduceMod]

/-- C9. Let the device have hardware address `H`, let source selection give `S`
for the target `T` and let the frame of 14 + 28 bytes be allocated (`S` and `T`
being 32-bit values). `pico_arp_query` calls the send primitive once, on that
device, with 14 + 28 bytes, and returns what the send returns. In those bytes the
link-layer destination is ff:ff:ff:ff:ff:ff and the link-layer source is `H`;
the message, read through the layout of `pico_arp_hdr`, has opcode REQUEST, sender
hardware address `H`, sender address `S`, target address `T`, hardware length 6
and protocol length 4 (and the Ethernet and IPv4 types). -/
theorem pico_arp_query_request (c : Env) (dev T S : Nat) (H : Mac) (buf : List Nat)
    (s : ArpState) (hH : c.dev_mac dev = H)
    (hsrc : c.source_find T = some S)
    (halloc : c.frame_alloc (PICO_SIZE_ETHHDR + PICO_SIZE_ARPHDR) = some buf)
    (hbuf : buf.length = PICO_SIZE_ETHHDR + PICO_SIZE_ARPHDR)
    (hS : S < 4294967296) (hT : T < 4294967296) :
    (pico_arp_query c dev T s).2.trace
      = s.trace ++ events_since s (pico_arp_query c dev T s).2 ∧
    ∃ sent,
      (events_since s (pico_arp_query c dev T s).2).filter Event.is_dev_send
        = [Event.dev_send dev sent] ∧
      (pico_arp_query c dev T s).1 = c.dev_send dev sent ∧
      sent.length = 14 + 28 ∧
      load_mac sent OFF_ETH_DADDR = ⟨0xff, 0xff, 0xff, 0xff, 0xff, 0xff⟩ ∧
      load_mac sent OFF_ETH_SADDR = H ∧
      load16 sent OFF_ETH_PROTO = PICO_IDETH_ARP ∧
      load16 sent (14 + OFF_HTYPE) = PICO_ARP_HTYPE_ETH ∧
      load16 sent (14 + OFF_PTYPE) = PICO_IDETH_IPV4 ∧
      load8 sent (14 + OFF_HSIZE) = 6 ∧
      load8 sent (14 + OFF_PSIZE) = 4 ∧
      load16 sent (14 + OFF_OPCODE) = PICO_ARP_REQUEST ∧
      load_mac sent (14 + OFF_S_MAC) = H ∧
      load32 sent (14 + OFF_SRC) = S ∧
      load32 sent (14 + OFF_DST) = T := by
  subst hH
  obtain ⟨hret, htrace⟩ := pico_arp_query_sent c dev T S buf s hsrc halloc
  have hev := events_since_append _ _ _ htrace
  obtain ⟨h1, h2, h3, h4, h5, h6, h7, h8, h9, h10, h11⟩ :=
    query_buffer_fields c dev T S buf hbuf hS hT
  refine ⟨by rw [hev, htrace], _, ?_, hret, ?_, h1, h2, h3, h4, h5, h6, h7, h8, h9, h10, h11⟩
  · rw [hev]
    simp [Event.is_dev_send]
  · rw [length_rd]
    rfl

/-- Witness of C9: the host at 10.0.0.1, aa:..:aa, asks for 10.0.0.2. -/
theorem pico_arp_query_request_witness :
    (pico_arp_query env1 1 ip2 ArpState.init).1 = 42 ∧
    ∃ sent,
      (events_since ArpState.init (pico_arp_query env1 1 ip2 ArpState.init).2).filter
        Event.is_dev_send = [Event.dev_send 1 sent] ∧
      load32 sent (14 + OFF_SRC) = ip1 ∧ load32 sent (14 + OFF_DST) = ip2 :=
  ⟨by decide,
   match pico_arp_query_request env1 1 ip2 ip1 macAA (List.replicate 42 0) ArpState.init
      (by decide) (by decide) (by decide) (by decide) (by decide) (by decide) with
   | ⟨_, sent, h1, _, _, _, _, _, _, _, _, _, _, _, h13, h14⟩ => ⟨sent, h1, h13, h14⟩⟩

/-! ## The representation invariant

The tree stays well-ordered under the operations that touch the cache. -/

theorem wf_init : wf ArpState.init := by
  decide

theorem RB_INSERT_mem (h : List pico_arp) (tree : List Nat) (p q : Nat)
    (hq : q ∈ RB_INSERT h tree p) : q = p ∨ q ∈ tree := by
  induction tree with
  | nil => simp [RB_INSERT] at hq; exact Or.inl hq
  | cons r t ih =>
    rw [RB_INSERT_cons] at hq
    split at hq
    · rcases List.mem_cons.1 hq with h1 | h1
      · exact Or.inl h1
      · exact Or.inr h1
    · split at hq
      · rcases List.mem_cons.1 hq with h1 | h1
        · exact Or.inr (h1 ▸ List.mem_cons_self _ _)
        · rcases ih h1 with h2 | h2
          · exact Or.inl h2
          · exact Or.inr (List.mem_cons_of_mem _ h2)
      · rcases List.mem_cons.1 hq with h1 | h1
        · exact Or.inl h1
        · exact Or.inr (List.mem_cons_of_mem _ h1)

theorem RB_INSERT_sorted (h : List pico_arp) (tree : List Nat) (p : Nat)
    (hsorted : tree.Pairwise (fun a b => (deref h a).ipv4 < (deref h b).ipv4)) :
    (RB_INSERT h tree p).Pairwise (fun a b => (deref h a).ipv4 < (deref h b).ipv4) := by
  induction tree with
  | nil => simp [RB_INSERT]
  | cons r t ih =>
    rw [List.pairwise_cons] at hsorted
    rw [RB_INSERT_cons]
    split
    · rename_i hlt
      refine List.pairwise_cons.2 ⟨fun a ha => ?_, List.pairwise_cons.2 hsorted⟩
      rcases List.mem_cons.1 ha with h1 | h1
      · rw [h1]; exact hlt
      · exact Nat.lt_trans hlt (hsorted.1 a h1)
    · split
      · rename_i hgt
        refine List.pairwise_cons.2 ⟨fun a ha => ?_, ih hsorted.2⟩
        rcases RB_INSERT_mem h t p a ha with h1 | h1
        · rw [h1]; exact hgt
        · exact hsorted.1 a h1
      · refine List.pairwise_cons.2 ⟨fun a ha => ?_, hsorted.2⟩
        have := hsorted.1 a ha
        omega

/-- The invariant in terms of the keys: it is kept when the nodes stay allocated
and keep their keys. -/
theorem wf_of_keys (s t : ArpState) (hwf : wf s)
    (hlen : s.heap.length ≤ t.heap.length)
    (hkeys : ∀ q, q < s.heap.length → (deref t.heap q).ipv4 = (deref s.heap q).ipv4)
    (hsub : t.Arp_table.Sublist s.Arp_table) : wf t := by
  refine ⟨fun p hp => Nat.lt_of_lt_of_le (hwf.1 p (hsub.subset hp)) hlen, ?_⟩
  apply List.pairwise_map.2
  have hs : t.Arp_table.Pairwise
      (fun a b => (deref s.heap a).ipv4 < (deref s.heap b).ipv4) :=
    (wf_sorted s hwf).sublist hsub
  refine List.Pairwise.imp_of_mem ?_ hs
  intro a b ha hb hab
  rw [hkeys a (hwf.1 a (hsub.subset ha)), hkeys b (hwf.1 b (hsub.subset hb))]
  exact hab

theorem wf_pico_arp_add_entry (c : Env) (e : Nat) (s : ArpState) (hwf : wf s)
    (he : e < s.heap.length) : wf (pico_arp_add_entry c e s) := by
  have hlen : (pico_arp_add_entry c e s).heap.length = s.heap.length := by
    simp [pico_arp_add_entry, pico_timer_add, update_length]
  refine ⟨fun p hp => ?_, ?_⟩
  · rw [hlen]
    rw [pico_arp_add_entry_table] at hp
    rcases RB_INSERT_mem _ _ _ _ hp with h1 | h1
    · rw [h1]; exact he
    · exact hwf.1 p h1
  · apply List.pairwise_map.2
    simp only [pico_arp_add_entry_key]
    rw [pico_arp_add_entry_table]
    exact RB_INSERT_sorted _ _ _ (wf_sorted s hwf)

/-- C3. Let `e` be an allocated entry with address `A` and hardware address `M`.
For every cache state, also one that already holds a node keyed by `A` with
another hardware address, after `pico_arp_add_entry` the lookup of `A` returns
`e`, whose hardware address is `M` and whose status is REACHABLE; every other
object is as before. A node that carried `A` is removed and `e` is inserted: a
well-ordered tree stays well ordered, and its nodes are then `e` and the nodes
that carry another address. -/
theorem pico_arp_add_entry_lookup (c : Env) (s : ArpState) (e A : Nat) (M : Mac)
    (he : e < s.heap.length)
    (hA : (deref s.heap e).ipv4 = A) (hM : (deref s.heap e).eth = M) :
    pico_arp_get_entry (pico_arp_add_entry c e s) A = some e ∧
    (deref (pico_arp_add_entry c e s).heap e).eth = M ∧
    (deref (pico_arp_add_entry c e s).heap e).ipv4 = A ∧
    (deref (pico_arp_add_entry c e s).heap e).arp_status = PICO_ARP_STATUS_REACHABLE ∧
    (∀ q, q ≠ e → deref (pico_arp_add_entry c e s).heap q = deref s.heap q) ∧
    (wf s →
      wf (pico_arp_add_entry c e s) ∧
      ∀ q, q ∈ (pico_arp_add_entry c e s).Arp_table ↔
        q = e ∨ (q ∈ s.Arp_table ∧ (deref s.heap q).ipv4 ≠ A)) := by
  subst hA hM
  have hfind : RB_FIND (pico_arp_add_entry c e s).heap (pico_arp_add_entry c e s).Arp_table
      { pico_arp.zero with ipv4 := (deref s.heap e).ipv4 } = some e := by
    rw [RB_FIND_congr _ s.heap _ _ (pico_arp_add_entry_key c s e), pico_arp_add_entry_table]
    exact RB_FIND_INSERT _ _ _ _ rfl
  refine ⟨?_, ?_, ?_, ?_, fun q hq => ?_, fun hwf => ⟨wf_pico_arp_add_entry c e s hwf he,
    fun q => ?_⟩⟩
  · unfold pico_arp_get_entry
    rw [hfind]
    simp [pico_arp_add_entry_deref, he]
  · simp [pico_arp_add_entry_deref, he]
  · simp [pico_arp_add_entry_deref, he]
  · simp [pico_arp_add_entry_deref, he]
  · rw [pico_arp_add_entry_deref]
    simp [Ne.symm hq]
  · rw [pico_arp_add_entry_table]
    exact RB_INSERT_mem_iff _ _ _ _ (wf_sorted s hwf)

/-- Witness of C3: the cache holds 10.0.0.2 at bb:..:bb and an entry for 10.0.0.2
at cc:..:cc is added; the lookup of 10.0.0.2 returns the new entry, at cc:..:cc,
and the old node is no longer in the tree. -/
theorem pico_arp_add_entry_lookup_witness :
    wf state_dup ∧
    pico_arp_get_entry (pico_arp_add_entry env1 1 state_dup) ip2 = some 1 ∧
    (deref (pico_arp_add_entry env1 1 state_dup).heap 1).eth = macCC ∧
    (deref (pico_arp_add_entry env1 1 state_dup).heap 1).arp_status
      = PICO_ARP_STATUS_REACHABLE ∧
    (0 ∈ (pico_arp_add_entry env1 1 state_dup).Arp_table ↔
      0 = 1 ∨ (0 ∈ state_dup.Arp_table ∧ (deref state_dup.heap 0).ipv4 ≠ ip2)) :=
  ⟨by decide,
   (pico_arp_add_entry_lookup env1 state_dup 1 ip2 macCC
      (by decide) (by decide) (by decide)).1,
   (pico_arp_add_entry_lookup env1 state_dup 1 ip2 macCC
      (by decide) (by decide) (by decide)).2.1,
   (pico_arp_add_entry_lookup env1 state_dup 1 ip2 macCC
      (by decide) (by decide) (by decide)).2.2.2.1,
   ((pico_arp_add_entry_lookup env1 state_dup 1 ip2 macCC
      (by decide) (by decide) (by decide)).2.2.2.2.2 (by decide)).2 0⟩

theorem wf_arp_expire (c : Env) (E : Nat) (s : ArpState) (hwf : wf s) :
    wf (arp_expire c E s) := by
  rw [arp_expire_state]
  refine wf_of_keys s _ hwf ?_ ?_ ?_
  · simp [update_length]
  · intro q _
    dsimp only
    refine key_update _ _ _ _ ?_
    intro _
    rfl
  · exact List.Sublist.refl _

theorem wf_receive_learn (c : Env) (f : pico_frame) (hdr : Nat) (s st : ArpState)
    (hwf : wf s) (h : receive_learn c f hdr s = some st) : wf st := by
  unfold receive_learn at h
  split at h
  · split at h
    · cases h
      apply wf_pico_arp_add_entry
      · refine wf_of_keys s _ hwf ?_ ?_ (List.Sublist.refl _)
        · simp [update_length]
        · intro q hq
          dsimp only
          refine Eq.trans (key_update _ _ _ _ ?_) (Eq.trans (key_update _ _ _ _ ?_) ?_)
          · intro _; rfl
          · intro _; rfl
          · rw [deref_append_lt _ _ _ hq]
      · simp [update_length]
    · cases h
  · rename_i p hfind
    split at h
    · cases h
      apply wf_pico_arp_add_entry
      · refine wf_of_keys s _ hwf ?_ ?_ ?_
        · simp [update_length]
        · intro q _
          dsimp only
          refine Eq.trans (key_update _ _ _ _ ?_) (key_update _ _ _ _ ?_) <;> intro _ <;> rfl
        · exact List.erase_sublist _ _
      · simp only [update_length]
        exact hwf.1 p (RB_FIND_some _ _ _ _ hfind).1
    · cases h
      exact hwf

theorem wf_pico_arp_receive (c : Env) (f : pico_frame) (s : ArpState) (hwf : wf s) :
    wf (pico_arp_receive c f s).2.2 := by
  cases hh : f.net_hdr with
  | none =>
    have : (pico_arp_receive c f s).2.2 = pico_frame_discard f s := by
      unfold pico_arp_receive
      simp only [hh]
    rw [this]
    exact hwf
  | some hdr =>
    obtain ⟨_, hstate⟩ := pico_arp_receive_state c f s hdr hh
    cases hl : receive_learn c f hdr s with
    | none =>
      rw [hl] at hstate
      rw [hstate]
      exact hwf
    | some st =>
      rw [hl] at hstate
      rw [hstate]
      exact wf_receive_learn c f hdr s st hwf hl

theorem wf_pico_arp_get (c : Env) (f : pico_frame) (s : ArpState) (hwf : wf s) :
    wf (pico_arp_get c f s).2.2 := by
  cases hm : pico_arp_get_entry s (resolve_target c f) with
  | some p =>
    rw [pico_arp_get_of_hit c f s p hm]
    exact hwf
  | none =>
    by_cases hlt : f.failure_count + 1 < 4
    · rw [pico_arp_get_below c f s hm hlt]
      exact hwf
    · rw [pico_arp_get_ceiling c f s hm (by omega)]
      exact hwf

/-! ## The result of a query -/

/-- The result of `pico_arp_query` when no source address is found. -/
theorem pico_arp_query_nosrc (c : Env) (dev dst : Nat) (s : ArpState)
    (hsrc : c.source_find dst = none) :
    pico_arp_query c dev dst s =
      (-1, { s with trace := s.trace ++
        [Event.arp_query dev dst, Event.frame_alloc (PICO_SIZE_ETHHDR + PICO_SIZE_ARPHDR)] }) := by
  unfold pico_arp_query
  simp only [hsrc]
  simp [log]

/-- C12. If source selection finds no source for the target, `pico_arp_query`
returns -1 and its only calls are the allocation of the frame (after the entry
into the query): no send on a device, no timer, no second query. If a source is
found and the frame is allocated, it calls the send primitive of the device
exactly once and returns the value that call returns. -/
theorem pico_arp_query_result (c : Env) (dev T : Nat) (s : ArpState) :
    (c.source_find T = none →
      (pico_arp_query c dev T s).1 = -1 ∧
      events_since s (pico_arp_query c dev T s).2
        = [Event.arp_query dev T, Event.frame_alloc (PICO_SIZE_ETHHDR + PICO_SIZE_ARPHDR)] ∧
      (events_since s (pico_arp_query c dev T s).2).filter Event.is_dev_send = [] ∧
      (pico_arp_query c dev T s).2.timers = s.timers ∧
      (pico_arp_query c dev T s).2.pending = s.pending) ∧
    (∀ S buf, c.source_find T = some S →
      c.frame_alloc (PICO_SIZE_ETHHDR + PICO_SIZE_ARPHDR) = some buf →
      ∃ sent,
        (events_since s (pico_arp_query c dev T s).2).filter Event.is_dev_send
          = [Event.dev_send dev sent] ∧
        (pico_arp_query c dev T s).1 = c.dev_send dev sent) := by
  refine ⟨fun hsrc => ?_, fun S buf hsrc halloc => ?_⟩
  · rw [pico_arp_query_nosrc c dev T s hsrc]
    refine ⟨rfl, ?_, ?_, rfl, rfl⟩
    · simp [events_since]
    · simp [events_since, Event.is_dev_send]
  · obtain ⟨hret, htrace⟩ := pico_arp_query_sent c dev T S buf s hsrc halloc
    have hev := events_since_append _ _ _ htrace
    refine ⟨_, ?_, hret⟩
    rw [hev]
    simp [Event.is_dev_send]

/-- Witness of C12: the host without an address for the first part, the host at
10.0.0.1 for the second. -/
theorem pico_arp_query_result_witness :
    (pico_arp_query env_nosrc 1 ip2 ArpState.init).1 = -1 ∧
    ∃ sent,
      (events_since ArpState.init (pico_arp_query env1 1 ip2 ArpState.init).2).filter
        Event.is_dev_send = [Event.dev_send 1 sent] ∧
      (pico_arp_query env1 1 ip2 ArpState.init).1 = env1.dev_send 1 sent :=
  ⟨((pico_arp_query_result env_nosrc 1 ip2 ArpState.init).1 (by decide)).1,
   (pico_arp_query_result env1 1 ip2 ArpState.init).2 ip1 (List.replicate 42 0)
      (by decide) (by decide)⟩

/-- C13, the code at the failing input. The host has no source address for
10.0.0.2 and the frame is allocated: `pico_arp_query` returns -1 after the entry
into the query and the allocation, and never releases the frame. On the host
that has a source address, the same call ends with the release of the frame it
filled. -/
theorem pico_arp_query_leak :
    env_nosrc.source_find ip2 = none ∧
    (env_nosrc.frame_alloc (PICO_SIZE_ETHHDR + PICO_SIZE_ARPHDR)).isSome = true ∧
    (pico_arp_query env_nosrc 1 ip2 ArpState.init).1 = -1 ∧
    (pico_arp_query env_nosrc 1 ip2 ArpState.init).2.trace
      = [Event.arp_query 1 ip2, Event.frame_alloc 42] ∧
    ((pico_arp_query env_nosrc 1 ip2 ArpState.init).2.trace.filter Event.is_discard).length = 0 ∧
    ((pico_arp_query env1 1 ip2 ArpState.init).2.trace.filter Event.is_discard).length = 1 := by
  decide

/-! ## Draining the queue -/

/-- The result of `check_pending` on an empty queue. -/
theorem check_pending_empty (c : Env) (s : ArpState) (hq : s.pending = []) :
    check_pending c s = { s with pending_timer_on := 0 } := by
  unfold check_pending
  rw [hq]

/-- The result of `check_pending` on a queue with head `f`. -/
theorem check_pending_cons (c : Env) (s : ArpState) (f : pico_frame)
    (rest : List pico_frame) (hq : s.pending = f :: rest) :
    check_pending c s =
      pico_timer_add PICO_ARP_RETRY Callback.check_pending
        (if (send_head c f rest s).1 > 0 then pico_frame_discard f (send_head c f rest s).2
         else (send_head c f rest s).2) := by
  unfold check_pending send_head
  rw [hq]

/-- C14, as the code has it. On a queue with head `f`, `check_pending` dequeues
`f` and nothing else, hands `f` to the send path (called with the rest of the
queue), releases `f` when the result of the send is positive and does not release
it when the result is zero or negative, and then arms the drain timer once, with
the interval 300, whatever the result. -/
theorem check_pending_head (c : Env) (s : ArpState) (f : pico_frame)
    (rest : List pico_frame) (hq : s.pending = f :: rest) :
    (log (Event.ethernet_send f) { s with pending := rest }).pending = rest ∧
    (log (Event.ethernet_send f) { s with pending := rest }).trace
      = s.trace ++ [Event.ethernet_send f] ∧
    (check_pending c s).trace
      = (send_head c f rest s).2.trace
        ++ (if (send_head c f rest s).1 > 0 then [Event.frame_discard f] else [])
        ++ [Event.timer_add PICO_ARP_RETRY Callback.check_pending] ∧
    (check_pending c s).timers
      = (send_head c f rest s).2.timers ++ [⟨PICO_ARP_RETRY, Callback.check_pending⟩] ∧
    (check_pending c s).pending = (send_head c f rest s).2.pending ∧
    (check_pending c s).pending_timer_on = (send_head c f rest s).2.pending_timer_on ∧
    (check_pending c s).heap = (send_head c f rest s).2.heap ∧
    (check_pending c s).Arp_table = (send_head c f rest s).2.Arp_table := by
  rw [check_pending_cons c s f rest hq]
  refine ⟨rfl, rfl, ?_, ?_, ?_, ?_, ?_, ?_⟩ <;>
    by_cases hpos : (send_head c f rest s).1 > 0 <;>
    simp [hpos, pico_timer_add, pico_frame_discard, log]

/-- Witness of C14: one frame is queued and the send path reports 1. -/
theorem check_pending_head_witness :
    (check_pending env1 state_queued).trace
      = [Event.ethernet_send (frame_out 1), Event.frame_discard (frame_out 1),
         Event.timer_add PICO_ARP_RETRY Callback.check_pending] ∧
    (check_pending env1 state_queued).pending = [] :=
  ⟨(check_pending_head env1 state_queued (frame_out 1) [] (by decide)).2.2.1,
   (check_pending_head env1 state_queued (frame_out 1) [] (by decide)).2.2.2.2.1⟩

/-- C14 fails as stated: one frame is queued and the send path reports 0;
`check_pending` dequeues the frame, calls the send path and arms the timer, and
does not release the frame. -/
theorem check_pending_no_release :
    state_queued.pending = [frame_out 1] ∧
    (env_unsent.ethernet_send (frame_out 1) state_queued).1 = 0 ∧
    (check_pending env_unsent state_queued).pending = [] ∧
    (check_pending env_unsent state_queued).trace
      = [Event.ethernet_send (frame_out 1),
         Event.timer_add PICO_ARP_RETRY Callback.check_pending] ∧
    (check_pending env_unsent state_queued).trace.filter Event.is_discard = [] := by
  decide

/-! ## The frame after a message is received -/

/-- The result of `pico_arp_receive` on a frame without a network header. -/
theorem pico_arp_receive_nohdr (c : Env) (f : pico_frame) (s : ArpState)
    (h : f.net_hdr = none) :
    pico_arp_receive c f s
      = (-1, f, { s with trace := s.trace ++ [Event.frame_discard f] }) := by
  unfold pico_arp_receive
  split
  · rfl
  · rename_i hdr0 h0
    rw [h0] at h
    cases h

/-- The frame as `pico_arp_receive` leaves it: rewritten into the reply when the
first block gives a state and the message is a REQUEST for an address of this
device, untouched otherwise. -/
theorem pico_arp_receive_frame (c : Env) (f : pico_frame) (s : ArpState) (hdr : Nat)
    (h : f.net_hdr = some hdr) :
    (pico_arp_receive c f s).2.1 =
      if (receive_learn c f hdr s).isSome = true ∧
          load16 f.buffer (hdr + OFF_OPCODE) = PICO_ARP_REQUEST ∧
          c.link_find (load32 f.buffer (hdr + OFF_DST)) = some f.dev
      then reply_frame c f hdr else f := by
  unfold pico_arp_receive
  split
  · rename_i h0; rw [h0] at h; cases h
  · rename_i hdr0 h0
    rw [h0] at h
    cases h
    unfold receive_learn reply_frame reply_buffer
    dsimp only
    generalize RB_FIND s.heap s.Arp_table
      { pico_arp.zero with ipv4 := load32 f.buffer (hdr + OFF_SRC),
                           eth := load_mac f.buffer (hdr + OFF_S_MAC) } = found
    generalize load16 f.buffer (hdr + OFF_OPCODE) = op
    generalize load32 f.buffer (hdr + OFF_DST) = me
    cases found with
    | none =>
      cases hz : c.zalloc_ok
      · simp
      · dsimp only
        by_cases hop : op = PICO_ARP_REQUEST
        · by_cases hl : c.link_find me = some f.dev
          · simp only [hop, hl, if_true, ne_eq, not_true_eq_false, if_false, and_self,
              Option.isSome_some]
            try rfl
          · simp only [hop, hl, if_true, ne_eq, not_false_eq_true, and_false, if_false]
            try rfl
        · simp only [hop, if_false, false_and, and_false]
          try rfl
    | some p =>
      dsimp only
      by_cases hst : (deref s.heap p).arp_status = PICO_ARP_STATUS_STALE
      · simp only [hst, if_true]
        by_cases hop : op = PICO_ARP_REQUEST
        · by_cases hl : c.link_find me = some f.dev
          · simp only [hop, hl, if_true, ne_eq, not_true_eq_false, if_false, and_self,
              Option.isSome_some]
            try rfl
          · simp only [hop, hl, if_true, ne_eq, not_false_eq_true, and_false, if_false]
            try rfl
        · simp only [hop, if_false, false_and, and_false]
          try rfl
      · simp only [hst, if_false]
        by_cases hop : op = PICO_ARP_REQUEST
        · by_cases hl : c.link_find me = some f.dev
          · simp only [hop, hl, if_true, ne_eq, not_true_eq_false, if_false, and_self,
              Option.isSome_some]
            try rfl
          · simp only [hop, hl, if_true, ne_eq, not_false_eq_true, and_false, if_false]
            try rfl
        · simp only [hop, if_false, false_and, and_false]
          try rfl

theorem RB_FIND_eq_none_iff (h : List pico_arp) (tree : List Nat) (search : pico_arp) :
    RB_FIND h tree search = none ↔ ∀ q ∈ tree, (deref h q).ipv4 ≠ search.ipv4 := by
  rw [RB_FIND_eq, List.find?_eq_none]
  simp

/-- The first block of `pico_arp_receive` gives no state exactly when the sender
has no node in the tree and `pico_zalloc` fails. -/
theorem receive_learn_eq_none_iff (c : Env) (f : pico_frame) (hdr : Nat) (s : ArpState) :
    receive_learn c f hdr s = none ↔
      (∀ q ∈ s.Arp_table, (deref s.heap q).ipv4 ≠ load32 f.buffer (hdr + OFF_SRC)) ∧
      c.zalloc_ok = false := by
  have hiff := RB_FIND_eq_none_iff s.heap s.Arp_table
    { pico_arp.zero with ipv4 := load32 f.buffer (hdr + OFF_SRC),
                         eth := load_mac f.buffer (hdr + OFF_S_MAC) }
  unfold receive_learn
  split
  · rename_i hnone
    have habs := hiff.1 hnone
    cases hz : c.zalloc_ok
    · simp only [Bool.false_eq_true, if_false, true_iff]
      exact ⟨habs, trivial⟩
    · simp
  · rename_i p hsome
    have hne : ¬ ∀ q ∈ s.Arp_table, (deref s.heap q).ipv4 ≠ load32 f.buffer (hdr + OFF_SRC) := by
      intro hall
      rw [hiff.2 hall] at hsome
      cases hsome
    split <;> simp [hne]

/-- The result of `pico_arp_receive` when the first block gives no state. -/
theorem pico_arp_receive_learn_none (c : Env) (f : pico_frame) (s : ArpState) (hdr : Nat)
    (h : f.net_hdr = some hdr) (hl : receive_learn c f hdr s = none) :
    pico_arp_receive c f s
      = (-1, f, { s with trace := s.trace ++ [Event.frame_discard f] }) := by
  obtain ⟨hret, hstate⟩ := pico_arp_receive_state c f s hdr h
  have hframe := pico_arp_receive_frame c f s hdr h
  rw [hl] at hret hstate hframe
  simp only [Option.isSome_none, Bool.false_eq_true, if_false, false_and] at hret hstate hframe
  exact Prod.ext hret (Prod.ext hframe hstate)

/-- C11, as the code has it. For a frame whose network header pointer is absent,
`pico_arp_receive` returns -1 and its only effect is the release of the frame:
the cache is as before and nothing is sent. The length of the message is never
looked at: for a frame with a header pointer, whatever the number of bytes behind
it, `pico_arp_receive` returns -1 exactly when the sender has no entry in the
cache and `pico_zalloc` fails, and 0 otherwise. -/
theorem pico_arp_receive_malformed (c : Env) (f : pico_frame) (s : ArpState) :
    (f.net_hdr = none →
      pico_arp_receive c f s
        = (-1, f, { s with trace := s.trace ++ [Event.frame_discard f] }) ∧
      (pico_arp_receive c f s).2.2.heap = s.heap ∧
      (pico_arp_receive c f s).2.2.Arp_table = s.Arp_table ∧
      (pico_arp_receive c f s).2.2.timers = s.timers ∧
      events_since s (pico_arp_receive c f s).2.2 = [Event.frame_discard f]) ∧
    (∀ hdr, f.net_hdr = some hdr →
      ((pico_arp_receive c f s).1 = -1 ↔
        ((∀ q ∈ s.Arp_table, (deref s.heap q).ipv4 ≠ load32 f.buffer (hdr + OFF_SRC)) ∧
          c.zalloc_ok = false)) ∧
      ((pico_arp_receive c f s).1 = -1 ∨ (pico_arp_receive c f s).1 = 0)) := by
  refine ⟨fun h => ?_, fun hdr h => ?_⟩
  · rw [pico_arp_receive_nohdr c f s h]
    refine ⟨rfl, rfl, rfl, rfl, ?_⟩
    simp [events_since]
  · obtain ⟨hret, _⟩ := pico_arp_receive_state c f s hdr h
    rw [hret, ← receive_learn_eq_none_iff]
    cases hl : receive_learn c f hdr s <;> simp

/-- Witness of C11: the REPLY from 10.0.0.2 without a header pointer. -/
theorem pico_arp_receive_malformed_witness :
    pico_arp_receive env1 frame_nohdr ArpState.init
      = (-1, frame_nohdr,
          { ArpState.init with trace := ArpState.init.trace ++ [Event.frame_discard frame_nohdr] }) :=
  ((pico_arp_receive_malformed env1 frame_nohdr ArpState.init).1 (by decide)).1

/-- C11 fails as stated: the REPLY from 10.0.0.2 at bb:..:bb is cut to 27 bytes,
one short of the layout; `pico_arp_receive` returns 0, links an entry for
10.0.0.2 in the cache and arms its timer. -/
theorem pico_arp_receive_short_payload :
    short_reply.net_hdr = some 14 ∧
    short_reply.buffer.length - 14 = 27 ∧
    27 < PICO_SIZE_ARPHDR ∧
    (pico_arp_receive env1 short_reply ArpState.init).1 = 0 ∧
    (pico_arp_receive env1 short_reply ArpState.init).2.2.Arp_table = [0] ∧
    (pico_arp_receive env1 short_reply ArpState.init).2.2.heap
      = [{ eth := macBB, ipv4 := ip2, arp_status := PICO_ARP_STATUS_REACHABLE,
           timestamp := 7, dev := 1 }] ∧
    (pico_arp_receive env1 short_reply ArpState.init).2.2.timers
      = [⟨PICO_ARP_TIMEOUT, Callback.arp_expire 0⟩] := by
  decide

/-- C15. When the sender of an inbound message has no entry in the cache and
`pico_zalloc` fails, `pico_arp_receive` returns -1, leaves the frame as it is and
its only call is the release of the frame: heap, tree, queue, flag and timers are
as before, no timer is armed and nothing is sent. -/
theorem pico_arp_receive_alloc_failure (c : Env) (f : pico_frame) (s : ArpState)
    (hdr : Nat) (hhdr : f.net_hdr = some hdr)
    (habs : ∀ q ∈ s.Arp_table, (deref s.heap q).ipv4 ≠ load32 f.buffer (hdr + OFF_SRC))
    (hz : c.zalloc_ok = false) :
    pico_arp_receive c f s
      = (-1, f, { s with trace := s.trace ++ [Event.frame_discard f] }) ∧
    (pico_arp_receive c f s).2.2.heap = s.heap ∧
    (pico_arp_receive c f s).2.2.Arp_table = s.Arp_table ∧
    (pico_arp_receive c f s).2.2.timers = s.timers ∧
    events_since s (pico_arp_receive c f s).2.2 = [Event.frame_discard f] ∧
    (events_since s (pico_arp_receive c f s).2.2).filter Event.is_timer_add = [] ∧
    (events_since s (pico_arp_receive c f s).2.2).filter Event.is_dev_send = [] := by
  have hl : receive_learn c f hdr s = none :=
    (receive_learn_eq_none_iff c f hdr s).2 ⟨habs, hz⟩
  rw [pico_arp_receive_learn_none c f s hdr hhdr hl]
  have hev : events_since s { s with trace := s.trace ++ [Event.frame_discard f] }
      = [Event.frame_discard f] := by simp [events_since]
  refine ⟨rfl, rfl, rfl, rfl, hev, ?_, ?_⟩
  · show (events_since s { s with trace := s.trace ++ [Event.frame_discard f] }).filter _ = []
    rw [hev]; rfl
  · show (events_since s { s with trace := s.trace ++ [Event.frame_discard f] }).filter _ = []
    rw [hev]; rfl

/-- Witness of C15: a REPLY from 10.0.0.2 reaches an empty cache when `pico_zalloc`
fails. -/
theorem pico_arp_receive_alloc_failure_witness :
    pico_arp_receive env_nomem reply_bb ArpState.init
      = (-1, reply_bb,
          { ArpState.init with trace := ArpState.init.trace ++ [Event.frame_discard reply_bb] }) :=
  (pico_arp_receive_alloc_failure env_nomem reply_bb ArpState.init 14
    (by decide) (by decide) (by decide)).1

/-- The calls of `pico_arp_receive`, in order: at most one `pico_timer_add` (from
`pico_arp_add_entry`), then, when the message is a REQUEST that is answered, the
send on the device, then the release of the frame as the function leaves it. -/
theorem pico_arp_receive_calls (c : Env) (f : pico_frame) (s : ArpState) :
    ∃ l m,
      (pico_arp_receive c f s).2.2.trace
        = s.trace ++ (l ++ m ++ [Event.frame_discard (pico_arp_receive c f s).2.1]) ∧
      (l = [] ∨ ∃ e, l = [Event.timer_add PICO_ARP_TIMEOUT (Callback.arp_expire e)]) ∧
      ((m = [] ∧ (pico_arp_receive c f s).2.1 = f) ∨
        ∃ hdr, f.net_hdr = some hdr ∧
          (receive_learn c f hdr s).isSome = true ∧
          load16 f.buffer (hdr + OFF_OPCODE) = PICO_ARP_REQUEST ∧
          c.link_find (load32 f.buffer (hdr + OFF_DST)) = some f.dev ∧
          m = [Event.dev_send f.dev
                (rd (reply_buffer c f hdr) f.datalink_hdr
                  (PICO_SIZE_ETHHDR + PICO_SIZE_ARPHDR))] ∧
          (pico_arp_receive c f s).2.1 = reply_frame c f hdr) := by
  cases hh : f.net_hdr with
  | none =>
    rw [pico_arp_receive_nohdr c f s hh]
    exact ⟨[], [], rfl, Or.inl rfl, Or.inl ⟨rfl, rfl⟩⟩
  | some hdr =>
    cases hl : receive_learn c f hdr s with
    | none =>
      rw [pico_arp_receive_learn_none c f s hdr hh hl]
      exact ⟨[], [], rfl, Or.inl rfl, Or.inl ⟨rfl, rfl⟩⟩
    | some st =>
      obtain ⟨_, hstate⟩ := pico_arp_receive_state c f s hdr hh
      have hframe := pico_arp_receive_frame c f s hdr hh
      rw [hl] at hstate hframe
      simp only [Option.isSome_some, true_and] at hstate hframe
      have htr : (pico_arp_receive c f s).2.2.trace = st.trace ++ reply_events c f hdr := by
        rw [hstate]
      have hlearn : ∃ l, st.trace = s.trace ++ l ∧
          (l = [] ∨ ∃ e, l = [Event.timer_add PICO_ARP_TIMEOUT (Callback.arp_expire e)]) := by
        rcases receive_learn_trace c f hdr s st hl with ht | ⟨e, ht⟩
        · exact ⟨[], by simp [ht], Or.inl rfl⟩
        · exact ⟨_, ht, Or.inr ⟨e, rfl⟩⟩
      obtain ⟨l, hl1, hl2⟩ := hlearn
      by_cases hop : load16 f.buffer (hdr + OFF_OPCODE) = PICO_ARP_REQUEST
      · by_cases hown : c.link_find (load32 f.buffer (hdr + OFF_DST)) = some f.dev
        · have hf : (pico_arp_receive c f s).2.1 = reply_frame c f hdr := by
            rw [hframe]; simp only [hop, hown, and_self, if_true]
          have hrep : reply_events c f hdr =
              [Event.dev_send f.dev
                  (rd (reply_buffer c f hdr) f.datalink_hdr
                    (PICO_SIZE_ETHHDR + PICO_SIZE_ARPHDR)),
               Event.frame_discard (reply_frame c f hdr)] := by
            unfold reply_events
            simp only [hop, hown, if_true, ne_eq, not_true_eq_false, if_false]
          refine ⟨l, _, ?_, hl2, Or.inr ⟨hdr, rfl, by rw [hl]; rfl, hop, hown, rfl, hf⟩⟩
          rw [htr, hrep, hl1, hf]
          simp
        · have hf : (pico_arp_receive c f s).2.1 = f := by
            rw [hframe]; simp only [hop, hown, and_false, if_false]
          have hrep : reply_events c f hdr = [Event.frame_discard f] := by
            unfold reply_events
            simp only [hop, hown, if_true, ne_eq, not_false_eq_true]
          refine ⟨l, [], ?_, hl2, Or.inl ⟨rfl, hf⟩⟩
          rw [htr, hrep, hl1, hf]
          simp
      · have hf : (pico_arp_receive c f s).2.1 = f := by
          rw [hframe]; simp only [hop, false_and, if_false]
        have hrep : reply_events c f hdr = [Event.frame_discard f] := by
          unfold reply_events
          simp only [hop, if_false]
        refine ⟨l, [], ?_, hl2, Or.inl ⟨rfl, hf⟩⟩
        rw [htr, hrep, hl1, hf]
        simp

/-- C16. For every frame and every state, exactly one of the calls of
`pico_arp_receive` is a release, it is the last call, and it releases the frame
the function was given (as the function leaves it: untouched, or rewritten into
the reply). This covers every branch: absent header, failed allocation, REPLY,
REQUEST for an address of another interface, answered REQUEST. On the branch of
the answered REQUEST the call just before the release is the send on the device,
and no call before that is a send or a release. -/
theorem pico_arp_receive_release (c : Env) (f : pico_frame) (s : ArpState) :
    (pico_arp_receive c f s).2.2.trace
      = s.trace ++ events_since s (pico_arp_receive c f s).2.2 ∧
    (events_since s (pico_arp_receive c f s).2.2).filter Event.is_discard
      = [Event.frame_discard (pico_arp_receive c f s).2.1] ∧
    (∃ l, events_since s (pico_arp_receive c f s).2.2
      = l ++ [Event.frame_discard (pico_arp_receive c f s).2.1]) ∧
    ((pico_arp_receive c f s).2.1 = f ∨
      ∃ hdr, f.net_hdr = some hdr ∧ (pico_arp_receive c f s).2.1 = reply_frame c f hdr) ∧
    (∀ hdr, f.net_hdr = some hdr →
      load16 f.buffer (hdr + OFF_OPCODE) = PICO_ARP_REQUEST →
      c.link_find (load32 f.buffer (hdr + OFF_DST)) = some f.dev →
      (c.zalloc_ok = true ∨
        ∃ q ∈ s.Arp_table, (deref s.heap q).ipv4 = load32 f.buffer (hdr + OFF_SRC)) →
      ∃ l sent,
        events_since s (pico_arp_receive c f s).2.2
          = l ++ [Event.dev_send f.dev sent, Event.frame_discard (reply_frame c f hdr)] ∧
        (pico_arp_receive c f s).2.1 = reply_frame c f hdr ∧
        l.filter Event.is_dev_send = [] ∧ l.filter Event.is_discard = []) := by
  obtain ⟨l, m, htrace, hl, hm⟩ := pico_arp_receive_calls c f s
  have hev := events_since_append _ _ _ htrace
  have hlf : l.filter Event.is_discard = [] := by
    rcases hl with h | ⟨e, h⟩ <;> rw [h] <;> rfl
  have hmf : m.filter Event.is_discard = [] := by
    rcases hm with ⟨h, _⟩ | ⟨_, _, _, _, _, h, _⟩ <;> rw [h] <;> rfl
  refine ⟨by rw [hev, htrace], ?_, ⟨l ++ m, hev⟩, ?_, fun hdr hh hop hown halloc => ?_⟩
  · rw [hev, List.filter_append, List.filter_append, hlf, hmf]
    rfl
  · rcases hm with ⟨_, h⟩ | ⟨hdr, hh, _, _, _, _, h⟩
    · exact Or.inl h
    · exact Or.inr ⟨hdr, hh, h⟩
  · obtain ⟨st, l0, hst, htr, hl0⟩ := receive_learn_ok c f hdr s halloc
    obtain ⟨_, hstate⟩ := pico_arp_receive_state c f s hdr hh
    have hframe := pico_arp_receive_frame c f s hdr hh
    rw [hst] at hstate hframe
    simp only [Option.isSome_some, true_and, hop, hown, and_self, if_true] at hstate hframe
    have hrep : reply_events c f hdr =
        [Event.dev_send f.dev
            (rd (reply_buffer c f hdr) f.datalink_hdr (PICO_SIZE_ETHHDR + PICO_SIZE_ARPHDR)),
         Event.frame_discard (reply_frame c f hdr)] := by
      unfold reply_events
      simp only [hop, hown, if_true, ne_eq, not_true_eq_false, if_false]
    have htrace2 : (pico_arp_receive c f s).2.2.trace
        = s.trace ++ (l0 ++ reply_events c f hdr) := by
      rw [hstate]; simp [htr]
    have hev2 := events_since_append _ _ _ htrace2
    have hl0d : l0.filter Event.is_discard = [] := by
      rcases receive_learn_trace c f hdr s st hst with ht | ⟨e, ht⟩
      · have : l0 = [] := by
          have h2 := htr.symm.trans ht
          simpa using h2
        rw [this]; rfl
      · have : l0 = [Event.timer_add PICO_ARP_TIMEOUT (Callback.arp_expire e)] := by
          have h2 := htr.symm.trans ht
          exact List.append_cancel_left h2
        rw [this]; rfl
    exact ⟨l0, _, by rw [hev2, hrep], hframe, hl0, hl0d⟩

/-- Witness of C16: the answered REQUEST for 10.0.0.1. -/
theorem pico_arp_receive_release_witness :
    ∃ l sent,
      events_since ArpState.init (pico_arp_receive env1 request_for_ip1 ArpState.init).2.2
        = l ++ [Event.dev_send request_for_ip1.dev sent,
                Event.frame_discard (reply_frame env1 request_for_ip1 14)] ∧
      (pico_arp_receive env1 request_for_ip1 ArpState.init).2.1
        = reply_frame env1 request_for_ip1 14 ∧
      l.filter Event.is_dev_send = [] ∧ l.filter Event.is_discard = [] :=
  (pico_arp_receive_release env1 request_for_ip1 ArpState.init).2.2.2.2 14
    (by decide) (by decide) (by decide) (Or.inl (by decide))

/-! ## One entry per address -/

theorem wf_cache_reachable (s : ArpState) (h : CacheReachable s) : wf s := by
  induction h with
  | init => exact wf_init
  | add_new c e0 _ ih =>
    apply wf_pico_arp_add_entry
    · refine wf_of_keys _ _ ih ?_ ?_ (List.Sublist.refl _)
      · simp
      · intro q hq
        dsimp only
        rw [deref_append_lt _ _ _ hq]
    · simp
  | add_old c p _ hp ih => exact wf_pico_arp_add_entry c p _ ih hp
  | receive c f _ ih => exact wf_pico_arp_receive c f _ ih
  | expire c e _ _ ih => exact wf_arp_expire c e _ ih

/-- In a well-ordered tree at most one node carries a given key. -/
theorem countP_key_le_one (h : List pico_arp) (tree : List Nat) (A : Nat)
    (hsorted : tree.Pairwise (fun a b => (deref h a).ipv4 < (deref h b).ipv4)) :
    tree.countP (fun p => decide ((deref h p).ipv4 = A)) ≤ 1 := by
  induction tree with
  | nil => simp
  | cons r t ih =>
    rw [List.pairwise_cons] at hsorted
    rw [List.countP_cons]
    by_cases hr : (deref h r).ipv4 = A
    · have hz : t.countP (fun p => decide ((deref h p).ipv4 = A)) = 0 := by
        rw [List.countP_eq_zero]
        intro q hq
        have := hsorted.1 q hq
        simp only [decide_eq_true_eq]
        omega
      rw [hz]
      simp [hr]
    · have := ih hsorted.2
      simp only [hr, decide_False, Bool.false_eq_true, if_false]
      omega

/-- C18. `arp_compare` depends on the two addresses only and orders them as
numbers: it is -1, 0 or 1 as the first address is below, equal to or above the
second; it returns 0 exactly when the addresses are equal, it is antisymmetric
and it is transitive. After every sequence of `pico_arp_add_entry`,
`pico_arp_receive` and `arp_expire` from the empty cache, the nodes of the tree
are allocated objects, their addresses ascend strictly, and so at most one node
carries a given address. -/
theorem arp_tree_keys :
    (∀ a b : pico_arp, arp_compare a b = 0 ↔ a.ipv4 = b.ipv4) ∧
    (∀ a b : pico_arp, arp_compare a b = -1 ↔ a.ipv4 < b.ipv4) ∧
    (∀ a b : pico_arp, arp_compare a b = 1 ↔ b.ipv4 < a.ipv4) ∧
    (∀ a b : pico_arp, arp_compare b a = - arp_compare a b) ∧
    (∀ a b c : pico_arp, arp_compare a b < 0 → arp_compare b c < 0 → arp_compare a c < 0) ∧
    (∀ a b c : pico_arp, arp_compare a b ≤ 0 → arp_compare b c ≤ 0 → arp_compare a c ≤ 0) ∧
    (∀ a b a2 b2 : pico_arp, a.ipv4 = a2.ipv4 → b.ipv4 = b2.ipv4 →
      arp_compare a b = arp_compare a2 b2) ∧
    (∀ s, CacheReachable s →
      wf s ∧
      (∀ A, s.Arp_table.countP (fun p => decide ((deref s.heap p).ipv4 = A)) ≤ 1) ∧
      (∀ p ∈ s.Arp_table, ∀ q ∈ s.Arp_table,
        (deref s.heap p).ipv4 = (deref s.heap q).ipv4 → p = q)) := by
  have hval : ∀ a b : pico_arp,
      (a.ipv4 < b.ipv4 ∧ arp_compare a b = -1) ∨
      (a.ipv4 = b.ipv4 ∧ arp_compare a b = 0) ∨
      (b.ipv4 < a.ipv4 ∧ arp_compare a b = 1) := by
    intro a b
    unfold arp_compare
    by_cases h1 : a.ipv4 < b.ipv4
    · exact Or.inl ⟨h1, by simp [h1]⟩
    · by_cases h2 : a.ipv4 > b.ipv4
      · exact Or.inr (Or.inr ⟨h2, by simp [h1, h2]⟩)
      · exact Or.inr (Or.inl ⟨by omega, by simp [h1, h2]⟩)
  refine ⟨fun a b => ?_, fun a b => ?_, fun a b => ?_, fun a b => ?_, fun a b c => ?_,
    fun a b c => ?_, fun a b a2 b2 ha hb => ?_, fun s hs => ?_⟩
  · rcases hval a b with ⟨h, e⟩ | ⟨h, e⟩ | ⟨h, e⟩ <;> rw [e] <;> constructor <;> intro h2 <;>
      omega
  · rcases hval a b with ⟨h, e⟩ | ⟨h, e⟩ | ⟨h, e⟩ <;> rw [e] <;> constructor <;> intro h2 <;>
      omega
  · rcases hval a b with ⟨h, e⟩ | ⟨h, e⟩ | ⟨h, e⟩ <;> rw [e] <;> constructor <;> intro h2 <;>
      omega
  · rcases hval a b with ⟨h, e⟩ | ⟨h, e⟩ | ⟨h, e⟩ <;>
      rcases hval b a with ⟨h2, e2⟩ | ⟨h2, e2⟩ | ⟨h2, e2⟩ <;> rw [e, e2] <;>
      omega
  · intro h1 h2
    rcases hval a b with ⟨hab, e⟩ | ⟨hab, e⟩ | ⟨hab, e⟩ <;>
      rcases hval b c with ⟨hbc, e2⟩ | ⟨hbc, e2⟩ | ⟨hbc, e2⟩ <;>
      rcases hval a c with ⟨hac, e3⟩ | ⟨hac, e3⟩ | ⟨hac, e3⟩ <;>
      rw [e] at h1 <;> rw [e2] at h2 <;> rw [e3] <;> omega
  · intro h1 h2
    rcases hval a b with ⟨hab, e⟩ | ⟨hab, e⟩ | ⟨hab, e⟩ <;>
      rcases hval b c with ⟨hbc, e2⟩ | ⟨hbc, e2⟩ | ⟨hbc, e2⟩ <;>
      rcases hval a c with ⟨hac, e3⟩ | ⟨hac, e3⟩ | ⟨hac, e3⟩ <;>
      rw [e] at h1 <;> rw [e2] at h2 <;> rw [e3] <;> omega
  · unfold arp_compare
    rw [ha, hb]
  · have hwf := wf_cache_reachable s hs
    exact ⟨hwf, fun A => countP_key_le_one _ _ A (wf_sorted s hwf),
      fun p hp q hq hk => key_inj _ _ p q (wf_sorted s hwf) hp hq hk⟩

/-- Witness of C18: the cache after a REPLY from 10.0.0.2 and a second entry for
10.0.0.2 handed to `pico_arp_add_entry`. -/
theorem arp_tree_keys_witness :
    ∀ A, (pico_arp_add_entry env1 1
        { (pico_arp_receive env1 reply_bb ArpState.init).2.2 with
          heap := (pico_arp_receive env1 reply_bb ArpState.init).2.2.heap
            ++ [entry ip2 macCC PICO_ARP_STATUS_REACHABLE] }).Arp_table.countP
      (fun p => decide ((deref (pico_arp_add_entry env1 1
        { (pico_arp_receive env1 reply_bb ArpState.init).2.2 with
          heap := (pico_arp_receive env1 reply_bb ArpState.init).2.2.heap
            ++ [entry ip2 macCC PICO_ARP_STATUS_REACHABLE] }).heap p).ipv4 = A)) ≤ 1 :=
  (arp_tree_keys.2.2.2.2.2.2.2 _
    (CacheReachable.add_new env1 (entry ip2 macCC PICO_ARP_STATUS_REACHABLE)
      (CacheReachable.receive env1 reply_bb CacheReachable.init))).2.1

/-! ## Lemmas on runs -/

theorem countP_erase_of_neg (l : List Timer) (t : Timer) (test : Timer → Bool)
    (ht : test t = false) : (l.erase t).countP test = l.countP test := by
  induction l with
  | nil => rfl
  | cons a r ih =>
    rw [List.erase_cons]
    by_cases hat : a = t
    · subst hat
      simp [List.countP_cons, ht]
    · simp only [beq_iff_eq, hat, if_false, List.countP_cons, ih]

theorem countP_erase_of_pos (l : List Timer) (t : Timer) (test : Timer → Bool)
    (hmem : t ∈ l) (ht : test t = true) :
    (l.erase t).countP test + 1 = l.countP test := by
  induction l with
  | nil => cases hmem
  | cons a r ih =>
    rw [List.erase_cons]
    by_cases hat : a = t
    · subst hat
      simp [List.countP_cons, ht]
    · have hr : t ∈ r := by
        rcases List.mem_cons.1 hmem with h | h
        · exact absurd h.symm hat
        · exact h
      have := ih hr
      simp only [beq_iff_eq, hat, if_false, List.countP_cons]
      omega

/-- What a call of `pico_arp_get` does to the state: the cache is as before, the
trace and the queue grow at the end, and either flag and timers are as before (and
the flag was set if the queue grew), or the flag was clear, is now 1, and one
drain timer is armed. -/
theorem pico_arp_get_effect (c : Env) (f : pico_frame) (s : ArpState) :
    (pico_arp_get c f s).2.2.heap = s.heap ∧
    (pico_arp_get c f s).2.2.Arp_table = s.Arp_table ∧
    (∃ l, (pico_arp_get c f s).2.2.trace = s.trace ++ l) ∧
    (∃ l, (pico_arp_get c f s).2.2.pending = s.pending ++ l) ∧
    (((pico_arp_get c f s).2.2.pending_timer_on = s.pending_timer_on ∧
        (pico_arp_get c f s).2.2.timers = s.timers ∧
        ((pico_arp_get c f s).2.2.pending ≠ s.pending → s.pending_timer_on ≠ 0)) ∨
      (s.pending_timer_on = 0 ∧ (pico_arp_get c f s).2.2.pending_timer_on = 1 ∧
        (pico_arp_get c f s).2.2.timers
          = s.timers ++ [⟨PICO_ARP_RETRY, Callback.check_pending⟩])) := by
  cases hm : pico_arp_get_entry s (resolve_target c f) with
  | some p =>
    rw [pico_arp_get_of_hit c f s p hm]
    exact ⟨rfl, rfl, ⟨[], by simp⟩, ⟨[], by simp⟩, Or.inl ⟨rfl, rfl, fun h => absurd rfl h⟩⟩
  | none =>
    by_cases hlt : f.failure_count + 1 < 4
    · rw [pico_arp_get_below c f s hm hlt]
      refine ⟨rfl, rfl, ⟨_, rfl⟩, ⟨_, rfl⟩, ?_⟩
      by_cases hon : s.pending_timer_on = 0
      · exact Or.inr ⟨hon, by simp [hon], by simp [hon]⟩
      · exact Or.inl ⟨by simp [hon], by simp [hon], fun _ => hon⟩
    · rw [pico_arp_get_ceiling c f s hm (by omega)]
      exact ⟨rfl, rfl, ⟨_, rfl⟩, ⟨[], by simp⟩, Or.inl ⟨rfl, rfl, fun h => absurd rfl h⟩⟩

/-- Calls of `pico_arp_get` while the flag is set leave flag and timers alone. -/
theorem GetSteps_flag_on (s t : ArpState) (h : GetSteps s t) (hon : s.pending_timer_on = 1) :
    t.pending_timer_on = 1 ∧ t.timers = s.timers := by
  induction h with
  | refl => exact ⟨hon, rfl⟩
  | step c f _ ih =>
    obtain ⟨ih1, ih2⟩ := ih hon
    obtain ⟨_, _, _, _, heff⟩ := pico_arp_get_effect c f _
    rcases heff with ⟨h1, h2, _⟩ | ⟨h1, _, _⟩
    · exact ⟨h1.trans ih1, h2.trans ih2⟩
    · rw [ih1] at h1
      cases h1

/-- Calls of `pico_arp_get` leave the cache and the staleness timers alone; the
trace and the queue grow at the end. -/
theorem GetSteps_cache (s t : ArpState) (h : GetSteps s t) :
    t.heap = s.heap ∧ t.Arp_table = s.Arp_table ∧
    (∀ e, expire_timers t e = expire_timers s e) ∧
    (∃ l, t.trace = s.trace ++ l) ∧ (∃ l, t.pending = s.pending ++ l) := by
  induction h with
  | refl => exact ⟨rfl, rfl, fun _ => rfl, ⟨[], by simp⟩, ⟨[], by simp⟩⟩
  | step c f _ ih =>
    obtain ⟨ih1, ih2, ih3, ⟨l1, ih4⟩, ⟨l2, ih5⟩⟩ := ih
    obtain ⟨h1, h2, ⟨l3, h3⟩, ⟨l4, h4⟩, heff⟩ := pico_arp_get_effect c f _
    refine ⟨h1.trans ih1, h2.trans ih2, fun e => ?_, ⟨l1 ++ l3, by rw [h3, ih4]; simp⟩,
      ⟨l2 ++ l4, by rw [h4, ih5]; simp⟩⟩
    rw [← ih3 e]
    unfold expire_timers
    rcases heff with ⟨_, h5, _⟩ | ⟨_, _, h5⟩
    · rw [h5]
    · rw [h5, List.countP_append]
      simp [Timer.is_expire]

theorem pico_arp_add_entry_queue (c : Env) (e : Nat) (s : ArpState) :
    (pico_arp_add_entry c e s).pending = s.pending ∧
    (pico_arp_add_entry c e s).pending_timer_on = s.pending_timer_on ∧
    (pico_arp_add_entry c e s).timers
      = s.timers ++ [⟨PICO_ARP_TIMEOUT, Callback.arp_expire e⟩] := by
  simp [pico_arp_add_entry, pico_timer_add]

/-- The first block of `pico_arp_receive` leaves the queue and the flag alone and
arms at most one timer, a staleness timer. -/
theorem receive_learn_queue (c : Env) (f : pico_frame) (hdr : Nat) (s st : ArpState)
    (h : receive_learn c f hdr s = some st) :
    st.pending = s.pending ∧ st.pending_timer_on = s.pending_timer_on ∧
    (st.timers = s.timers ∨
      ∃ e, st.timers = s.timers ++ [⟨PICO_ARP_TIMEOUT, Callback.arp_expire e⟩]) := by
  unfold receive_learn at h
  split at h
  · split at h
    · cases h
      exact ⟨(pico_arp_add_entry_queue c _ _).1, (pico_arp_add_entry_queue c _ _).2.1,
        Or.inr ⟨_, (pico_arp_add_entry_queue c _ _).2.2⟩⟩
    · cases h
  · split at h
    · cases h
      exact ⟨(pico_arp_add_entry_queue c _ _).1, (pico_arp_add_entry_queue c _ _).2.1,
        Or.inr ⟨_, (pico_arp_add_entry_queue c _ _).2.2⟩⟩
    · cases h
      exact ⟨rfl, rfl, Or.inl rfl⟩

/-- `pico_arp_receive` leaves the queue and the flag alone and arms at most one
timer, a staleness timer. -/
theorem pico_arp_receive_queue (c : Env) (f : pico_frame) (s : ArpState) :
    (pico_arp_receive c f s).2.2.pending = s.pending ∧
    (pico_arp_receive c f s).2.2.pending_timer_on = s.pending_timer_on ∧
    ((pico_arp_receive c f s).2.2.timers = s.timers ∨
      ∃ e, (pico_arp_receive c f s).2.2.timers
        = s.timers ++ [⟨PICO_ARP_TIMEOUT, Callback.arp_expire e⟩]) := by
  cases hh : f.net_hdr with
  | none =>
    rw [pico_arp_receive_nohdr c f s hh]
    exact ⟨rfl, rfl, Or.inl rfl⟩
  | some hdr =>
    cases hl : receive_learn c f hdr s with
    | none =>
      rw [pico_arp_receive_learn_none c f s hdr hh hl]
      exact ⟨rfl, rfl, Or.inl rfl⟩
    | some st =>
      obtain ⟨_, hstate⟩ := pico_arp_receive_state c f s hdr hh
      rw [hl] at hstate
      rw [hstate]
      exact receive_learn_queue c f hdr s st hl

theorem drain_timers_append_expire (l : List Timer) (e : Nat) :
    (l ++ [Timer.mk PICO_ARP_TIMEOUT (Callback.arp_expire e)]).countP Timer.is_drain
      = l.countP Timer.is_drain := by
  rw [List.countP_append]
  simp [Timer.is_drain]

theorem drain_inv_get (c : Env) (f : pico_frame) (s : ArpState) (h : drain_inv s) :
    drain_inv (pico_arp_get c f s).2.2 := by
  obtain ⟨h1, h2, h3⟩ := h
  obtain ⟨_, _, _, ⟨l, hl⟩, heff⟩ := pico_arp_get_effect c f s
  unfold drain_inv drain_timers at *
  rcases heff with ⟨e1, e2, e3⟩ | ⟨e1, e2, e3⟩
  · rw [e1, e2]
    refine ⟨h1, h2, fun hne => ?_⟩
    by_cases hsame : (pico_arp_get c f s).2.2.pending = s.pending
    · rw [hsame] at hne
      exact h3 hne
    · have := e3 hsame
      omega
  · rw [e2, e3, List.countP_append]
    have h0 : s.timers.countP Timer.is_drain = 0 := by omega
    rw [h0]
    refine ⟨by simp [Timer.is_drain], by simp [Timer.is_drain], fun _ => rfl⟩

/-- The fields of the state `check_pending` leaves on a queue with head `f`, from
the state the send path leaves. -/
theorem check_pending_cons_fields (c : Env) (s : ArpState) (f : pico_frame)
    (rest : List pico_frame) (hq : s.pending = f :: rest) :
    (check_pending c s).timers
      = (send_head c f rest s).2.timers ++ [Timer.mk PICO_ARP_RETRY Callback.check_pending] ∧
    (check_pending c s).pending_timer_on = (send_head c f rest s).2.pending_timer_on ∧
    (check_pending c s).pending = (send_head c f rest s).2.pending ∧
    (check_pending c s).heap = (send_head c f rest s).2.heap ∧
    (check_pending c s).Arp_table = (send_head c f rest s).2.Arp_table ∧
    (∃ l, (check_pending c s).trace = (send_head c f rest s).2.trace ++ l) := by
  rw [check_pending_cons c s f rest hq]
  by_cases hpos : (send_head c f rest s).1 > 0
  · rw [if_pos hpos]
    exact ⟨rfl, rfl, rfl, rfl, rfl,
      ⟨[Event.frame_discard f, Event.timer_add PICO_ARP_RETRY Callback.check_pending],
        by simp [pico_timer_add, pico_frame_discard, log]⟩⟩
  · rw [if_neg hpos]
    exact ⟨rfl, rfl, rfl, rfl, rfl, ⟨_, rfl⟩⟩

theorem drain_inv_fire_check_pending (c : Env) (t : Timer) (s : ArpState)
    (h : drain_inv s) (ht : t ∈ s.timers) (hcb : t.cb = Callback.check_pending)
    (hsend : send_path c) : drain_inv (fire_check_pending c t s) := by
  obtain ⟨h1, h2, _⟩ := h
  unfold drain_timers at h1 h2
  have hpos := countP_erase_of_pos s.timers t Timer.is_drain ht (by simp [Timer.is_drain, hcb])
  have hcount : (s.timers.erase t).countP Timer.is_drain = 0 := by omega
  have hflag : s.pending_timer_on = 1 := by omega
  unfold fire_check_pending
  by_cases hq : s.pending = []
  · rw [check_pending_empty c { s with timers := s.timers.erase t } hq]
    unfold drain_inv drain_timers
    refine ⟨by simp [hcount], by simp [hcount], fun hne => absurd hq hne⟩
  · obtain ⟨f, rest, hq⟩ := List.exists_cons_of_ne_nil hq
    obtain ⟨e1, e2, _, _, _, _⟩ :=
      check_pending_cons_fields c { s with timers := s.timers.erase t } f rest hq
    have hsteps : GetSteps _ (send_head c f rest { s with timers := s.timers.erase t }).2 :=
      hsend f _
    obtain ⟨g1, g2⟩ := GetSteps_flag_on _ _ hsteps hflag
    unfold drain_inv drain_timers
    rw [e1, e2, g1, g2]
    simp only [log, List.countP_append, hcount]
    refine ⟨by simp [Timer.is_drain], by simp [Timer.is_drain], fun _ => trivial⟩

theorem drain_inv_receive (c : Env) (f : pico_frame) (s : ArpState) (h : drain_inv s) :
    drain_inv (pico_arp_receive c f s).2.2 := by
  obtain ⟨h1, h2, h3⟩ := h
  obtain ⟨e1, e2, e3⟩ := pico_arp_receive_queue c f s
  unfold drain_inv drain_timers at *
  rw [e1, e2]
  rcases e3 with e3 | ⟨e, e3⟩
  · rw [e3]
    exact ⟨h1, h2, h3⟩
  · rw [e3, drain_timers_append_expire]
    exact ⟨h1, h2, h3⟩

theorem drain_inv_fire_arp_expire (c : Env) (t : Timer) (e : Nat) (s : ArpState)
    (h : drain_inv s) (hcb : t.cb = Callback.arp_expire e) :
    drain_inv (fire_arp_expire c t e s) := by
  obtain ⟨h1, h2, h3⟩ := h
  unfold fire_arp_expire
  rw [arp_expire_state]
  unfold drain_inv drain_timers at *
  have hneg := countP_erase_of_neg s.timers t Timer.is_drain (by simp [Timer.is_drain, hcb])
  dsimp only
  rw [hneg]
  exact ⟨h1, h2, h3⟩

/-- Every reachable state satisfies the invariant of the drain timer. -/
theorem reachable_drain_inv (s : ArpState) (h : Reachable s) : drain_inv s := by
  induction h with
  | init => exact ⟨rfl, by decide, fun hne => absurd rfl hne⟩
  | get c f _ ih => exact drain_inv_get c f _ ih
  | drain c t _ ht hcb hsend ih => exact drain_inv_fire_check_pending c t _ ih ht hcb hsend
  | receive c f _ ih => exact drain_inv_receive c f _ ih
  | expire c t e _ _ hcb ih => exact drain_inv_fire_arp_expire c t e _ ih hcb

/-- C17. In every state the module reaches, the number of outstanding
`check_pending` timers is the value of `pending_timer_on`, and it is at most one.
On an empty queue `check_pending` clears the flag and arms nothing; on a queue
with a head it arms exactly one timer after the send path has run. So when a
drain timer fires in a reachable state, no drain timer is left and the flag is 0
if the queue was empty, and one drain timer is outstanding and the flag is 1 if
it was not. -/
theorem drain_timer_invariant :
    (∀ s, Reachable s →
      (drain_timers s : Int) = s.pending_timer_on ∧ drain_timers s ≤ 1) ∧
    (∀ (c : Env) (s : ArpState), s.pending = [] →
      check_pending c s = { s with pending_timer_on := 0 }) ∧
    (∀ (c : Env) (s : ArpState) (f : pico_frame) (rest : List pico_frame),
      s.pending = f :: rest →
      (check_pending c s).timers
        = (send_head c f rest s).2.timers ++ [Timer.mk PICO_ARP_RETRY Callback.check_pending] ∧
      (check_pending c s).pending_timer_on = (send_head c f rest s).2.pending_timer_on) ∧
    (∀ (c : Env) (t : Timer) (s : ArpState), Reachable s → t ∈ s.timers →
      t.cb = Callback.check_pending → send_path c →
      (s.pending = [] →
        drain_timers (fire_check_pending c t s) = 0 ∧
        (fire_check_pending c t s).pending_timer_on = 0) ∧
      (s.pending ≠ [] →
        drain_timers (fire_check_pending c t s) = 1 ∧
        (fire_check_pending c t s).pending_timer_on = 1)) := by
  refine ⟨fun s hs => ?_, fun c s hq => check_pending_empty c s hq, fun c s f rest hq => ?_,
    fun c t s hs ht hcb hsend => ?_⟩
  · obtain ⟨h1, h2, _⟩ := reachable_drain_inv s hs
    exact ⟨h1, h2⟩
  · obtain ⟨e1, e2, _⟩ := check_pending_cons_fields c s f rest hq
    exact ⟨e1, e2⟩
  · obtain ⟨h1, h2, _⟩ := reachable_drain_inv _ (Reachable.drain c t hs ht hcb hsend)
    refine ⟨fun hq => ?_, fun hq => ?_⟩
    · have hflag : (fire_check_pending c t s).pending_timer_on = 0 := by
        unfold fire_check_pending
        rw [check_pending_empty c { s with timers := s.timers.erase t } hq]
      rw [hflag] at h1
      exact ⟨by omega, hflag⟩
    · obtain ⟨f, rest, hq⟩ := List.exists_cons_of_ne_nil hq
      obtain ⟨e1, _⟩ :=
        check_pending_cons_fields c { s with timers := s.timers.erase t } f rest hq
      have hge : 1 ≤ drain_timers (fire_check_pending c t s) := by
        unfold drain_timers fire_check_pending
        rw [e1, List.countP_append]
        simp [Timer.is_drain]
      exact ⟨by omega, by omega⟩

/-- Witness of C17: the state after a first failed resolve on the empty cache. -/
theorem drain_timer_invariant_witness :
    (drain_timers (pico_arp_get env1 (frame_out 0) ArpState.init).2.2 : Int)
      = (pico_arp_get env1 (frame_out 0) ArpState.init).2.2.pending_timer_on ∧
    drain_timers (pico_arp_get env1 (frame_out 0) ArpState.init).2.2 ≤ 1 :=
  drain_timer_invariant.1 _ (Reachable.get env1 (frame_out 0) Reachable.init)

/-- Firing the drain timer once for each element of `cs`, at most as many times as
the queue holds frames: each firing finds a drain timer outstanding, and the
frames at the head of the queue are handed to the send path, in order. -/
theorem drain_run_visits (cs : List Env) :
    ∀ s, Reachable s → (∀ c ∈ cs, send_path c) → cs.length ≤ s.pending.length →
      ∃ t, drain_run cs s = some t ∧ Reachable t ∧
        ∃ m, t.trace = s.trace ++ m ∧
          ∀ g ∈ s.pending.take cs.length, Event.ethernet_send g ∈ m := by
  induction cs with
  | nil =>
    intro s hs _ _
    exact ⟨s, rfl, hs, [], by simp, by simp⟩
  | cons c cs ih =>
    intro s hs hsend hlen
    have hne : s.pending ≠ [] := by
      intro h0
      rw [h0] at hlen
      simp at hlen
    obtain ⟨f, rest, hq⟩ := List.exists_cons_of_ne_nil hne
    obtain ⟨h1, h2, h3⟩ := reachable_drain_inv s hs
    have hflag := h3 hne
    have hpos : 0 < s.timers.countP Timer.is_drain := by
      unfold drain_timers at h1
      omega
    obtain ⟨t, ht⟩ : ∃ t, s.timers.find? Timer.is_drain = some t := by
      cases hfind : s.timers.find? Timer.is_drain with
      | some t => exact ⟨t, rfl⟩
      | none =>
        rw [List.find?_eq_none] at hfind
        obtain ⟨a, ha, hpa⟩ := List.countP_pos_iff.1 hpos
        exact absurd hpa (hfind a ha)
    have htmem : t ∈ s.timers := List.mem_of_find?_eq_some ht
    have htcb : t.cb = Callback.check_pending := by
      have := List.find?_some ht
      simpa [Timer.is_drain] using this
    have hc : send_path c := hsend c (List.mem_cons_self _ _)
    have hreach := Reachable.drain c t hs htmem htcb hc
    obtain ⟨_, _, e3, _, _, ⟨l1, e6⟩⟩ :=
      check_pending_cons_fields c { s with timers := s.timers.erase t } f rest hq
    have hsteps : GetSteps _ (send_head c f rest { s with timers := s.timers.erase t }).2 :=
      hc f _
    obtain ⟨_, _, _, ⟨l2, g4⟩, ⟨l3, g5⟩⟩ := GetSteps_cache _ _ hsteps
    have hpend : (fire_check_pending c t s).pending = rest ++ l3 := by
      unfold fire_check_pending
      rw [e3, g5]
      rfl
    have htrace : (fire_check_pending c t s).trace
        = s.trace ++ ([Event.ethernet_send f] ++ l2 ++ l1) := by
      unfold fire_check_pending
      rw [e6, g4]
      simp [log]
    have hlen2 : cs.length ≤ rest.length := by
      rw [hq] at hlen
      simp at hlen
      exact hlen
    obtain ⟨u, hu1, hu2, m, hm1, hm2⟩ := ih (fire_check_pending c t s) hreach
      (fun c2 hc2 => hsend c2 (List.mem_cons_of_mem _ hc2))
      (by rw [hpend, List.length_append]; omega)
    refine ⟨u, ?_, hu2, [Event.ethernet_send f] ++ l2 ++ l1 ++ m, ?_, ?_⟩
    · show (match s.timers.find? Timer.is_drain with
        | none => none
        | some t => drain_run cs (fire_check_pending c t s)) = some u
      rw [ht]
      exact hu1
    · rw [hm1, htrace]
      simp
    · intro g hg
      rw [hq, List.length_cons, List.take_succ_cons] at hg
      rcases List.mem_cons.1 hg with h | h
      · rw [h]
        simp
      · have : g ∈ (fire_check_pending c t s).pending.take cs.length := by
          rw [hpend, List.take_append_of_le_length hlen2]
          exact h
        have := hm2 g this
        simp [this]

/-- C19. In every state the module reaches, if the queue holds a frame then
`pending_timer_on` is 1 and exactly one drain timer is outstanding. Every queued
frame is then visited: when the drain timer fires as many times as the queue
holds frames (with a send path that comes back into the module through
`pico_arp_get` only), each firing finds a drain timer outstanding and every frame
of the queue is handed to the send path by one of these `check_pending`. -/
theorem no_stranded_frames (s : ArpState) (h : Reachable s) :
    (s.pending ≠ [] →
      s.pending_timer_on = 1 ∧ drain_timers s = 1 ∧
      ∃ t ∈ s.timers, t.cb = Callback.check_pending) ∧
    (∀ cs : List Env, (∀ c ∈ cs, send_path c) → cs.length = s.pending.length →
      ∃ t, drain_run cs s = some t ∧ Reachable t ∧
        ∃ m, t.trace = s.trace ++ m ∧ ∀ g ∈ s.pending, Event.ethernet_send g ∈ m) := by
  obtain ⟨h1, h2, h3⟩ := reachable_drain_inv s h
  refine ⟨fun hne => ?_, fun cs hsend hlen => ?_⟩
  · have hflag := h3 hne
    have hcount : drain_timers s = 1 := by omega
    have hpos : 0 < s.timers.countP Timer.is_drain := by
      unfold drain_timers at hcount
      omega
    obtain ⟨a, ha, hpa⟩ := List.countP_pos_iff.1 hpos
    exact ⟨hflag, hcount, a, ha, by simpa [Timer.is_drain] using hpa⟩
  · obtain ⟨t, ht1, ht2, m, hm1, hm2⟩ := drain_run_visits cs s h hsend (by omega)
    refine ⟨t, ht1, ht2, m, hm1, fun g hg => hm2 g ?_⟩
    rw [hlen, List.take_length]
    exact hg

/-- Witness of C19: one frame is queued after a first failed resolve; one firing
of the drain timer visits it. -/
theorem no_stranded_frames_witness :
    (pico_arp_get env1 (frame_out 0) ArpState.init).2.2.pending_timer_on = 1 ∧
    ∃ t, drain_run [env1] (pico_arp_get env1 (frame_out 0) ArpState.init).2.2 = some t ∧
      Reachable t ∧
      ∃ m, t.trace = (pico_arp_get env1 (frame_out 0) ArpState.init).2.2.trace ++ m ∧
        ∀ g ∈ (pico_arp_get env1 (frame_out 0) ArpState.init).2.2.pending,
          Event.ethernet_send g ∈ m :=
  ⟨((no_stranded_frames _ (Reachable.get env1 (frame_out 0) Reachable.init)).1
      (by decide)).1,
   (no_stranded_frames _ (Reachable.get env1 (frame_out 0) Reachable.init)).2 [env1]
      (fun c hc => by
        rw [List.mem_singleton.1 hc]
        intro f s
        exact GetSteps.refl s)
      (by decide)⟩

/-! ## Staleness timers -/

theorem mem_RB_INSERT_of_mem (h : List pico_arp) (tree : List Nat) (p q : Nat)
    (hq : q ∈ tree) (hne : (deref h q).ipv4 ≠ (deref h p).ipv4) :
    q ∈ RB_INSERT h tree p := by
  induction tree with
  | nil => cases hq
  | cons r t ih =>
    rw [RB_INSERT_cons]
    split
    · exact List.mem_cons_of_mem _ hq
    · split
      · rcases List.mem_cons.1 hq with h1 | h1
        · rw [h1]; exact List.mem_cons_self _ _
        · exact List.mem_cons_of_mem _ (ih h1)
      · rcases List.mem_cons.1 hq with h1 | h1
        · rw [h1] at hne
          omega
        · exact List.mem_cons_of_mem _ h1

theorem mem_RB_INSERT_self (h : List pico_arp) (tree : List Nat) (p : Nat)
    (habs : ∀ q ∈ tree, (deref h q).ipv4 ≠ (deref h p).ipv4) : p ∈ RB_INSERT h tree p := by
  have := RB_FIND_INSERT_absent h tree p (deref h p) rfl habs
  exact (RB_FIND_some _ _ _ _ this).1

/-- The invariant of the staleness timers reads the heap, the tree and the
staleness timers only. -/
theorem expire_inv_congr (s t : ArpState) (h : expire_inv s)
    (hh : t.heap = s.heap) (ht : t.Arp_table = s.Arp_table)
    (hc : ∀ e, expire_timers t e = expire_timers s e) : expire_inv t := by
  obtain ⟨h1, h2, h3⟩ := h
  unfold expire_inv wf at *
  rw [hh, ht]
  exact ⟨h1, h2, fun p => by rw [hc p]; exact h3 p⟩

/-- `pico_arp_add_entry` of an allocated entry whose key no node carries and that
has no timer yet gives the invariant, when it holds of the other entries. -/
theorem expire_inv_add_entry (c : Env) (n : Nat) (s : ArpState)
    (hwf : wf s) (hn : n < s.heap.length)
    (habs : ∀ q ∈ s.Arp_table, (deref s.heap q).ipv4 ≠ (deref s.heap n).ipv4)
    (hmem : ∀ p, p < s.heap.length → p ≠ n → p ∈ s.Arp_table)
    (htim : ∀ p, p ≠ n → expire_timers s p =
      if p < s.heap.length ∧ (deref s.heap p).arp_status = PICO_ARP_STATUS_REACHABLE
      then 1 else 0)
    (htn : expire_timers s n = 0) :
    expire_inv (pico_arp_add_entry c n s) := by
  have hlen : (pico_arp_add_entry c n s).heap.length = s.heap.length := by
    simp [pico_arp_add_entry, pico_timer_add, update_length]
  have htimers := (pico_arp_add_entry_queue c n s).2.2
  refine ⟨wf_pico_arp_add_entry c n s hwf hn, fun p hp => ?_, fun p => ?_⟩
  · rw [pico_arp_add_entry_table]
    rw [hlen] at hp
    by_cases hpn : p = n
    · rw [hpn]
      exact mem_RB_INSERT_self _ _ _ habs
    · exact mem_RB_INSERT_of_mem _ _ _ _ (hmem p hp hpn) (habs p (hmem p hp hpn))
  · unfold expire_timers
    rw [htimers, List.countP_append, hlen, pico_arp_add_entry_deref]
    by_cases hpn : p = n
    · subst hpn
      unfold expire_timers at htn
      rw [htn]
      simp [Timer.is_expire, hn]
    · have h1 := htim p hpn
      unfold expire_timers at h1
      rw [h1]
      have hne : ¬ (n = p ∧ n < s.heap.length) := fun h => hpn h.1.symm
      have hne2 : ¬ (Callback.arp_expire n = Callback.arp_expire p) := by
        intro h
        injection h with h
        exact hpn h.symm
      simp [Timer.is_expire, hne, hne2]

theorem expire_inv_get (c : Env) (f : pico_frame) (s : ArpState) (h : expire_inv s) :
    expire_inv (pico_arp_get c f s).2.2 := by
  obtain ⟨g1, g2, g3, _⟩ := GetSteps_cache s _ (GetSteps.step c f (GetSteps.refl s))
  exact expire_inv_congr s _ h g1 g2 g3

theorem expire_timers_erase_drain (s : ArpState) (t : Timer) (e : Nat)
    (hcb : t.cb = Callback.check_pending) :
    (s.timers.erase t).countP (Timer.is_expire e) = s.timers.countP (Timer.is_expire e) :=
  countP_erase_of_neg s.timers t (Timer.is_expire e) (by simp [Timer.is_expire, hcb])

theorem expire_inv_fire_check_pending (c : Env) (t : Timer) (s : ArpState)
    (h : expire_inv s) (hcb : t.cb = Callback.check_pending) (hsend : send_path c) :
    expire_inv (fire_check_pending c t s) := by
  unfold fire_check_pending
  by_cases hq : s.pending = []
  · rw [check_pending_empty c { s with timers := s.timers.erase t } hq]
    exact expire_inv_congr s _ h rfl rfl (fun e => expire_timers_erase_drain s t e hcb)
  · obtain ⟨f, rest, hq⟩ := List.exists_cons_of_ne_nil hq
    obtain ⟨e1, _, _, e4, e5, _⟩ :=
      check_pending_cons_fields c { s with timers := s.timers.erase t } f rest hq
    have hsteps : GetSteps _ (send_head c f rest { s with timers := s.timers.erase t }).2 :=
      hsend f _
    obtain ⟨g1, g2, g3, _⟩ := GetSteps_cache _ _ hsteps
    refine expire_inv_congr s _ h (e4.trans g1) (e5.trans g2) (fun e => ?_)
    have := g3 e
    unfold expire_timers at this ⊢
    rw [e1, List.countP_append, this]
    simp only [log]
    rw [expire_timers_erase_drain s t e hcb]
    simp [Timer.is_expire]

theorem expire_inv_fire_arp_expire (c : Env) (t : Timer) (e : Nat) (s : ArpState)
    (h : expire_inv s) (ht : t ∈ s.timers) (hcb : t.cb = Callback.arp_expire e) :
    expire_inv (fire_arp_expire c t e s) := by
  obtain ⟨hwf, hmem, htim⟩ := h
  have hpos := countP_erase_of_pos s.timers t (Timer.is_expire e) ht
    (by simp [Timer.is_expire, hcb])
  have he := htim e
  unfold expire_timers at he
  have hvalid : e < s.heap.length ∧
      (deref s.heap e).arp_status = PICO_ARP_STATUS_REACHABLE := by
    by_contra hno
    rw [if_neg hno] at he
    omega
  rw [if_pos hvalid] at he
  have hzero : (s.timers.erase t).countP (Timer.is_expire e) = 0 := by omega
  unfold fire_arp_expire
  rw [arp_expire_state]
  refine ⟨?_, ?_, ?_⟩
  · have := wf_arp_expire c e s hwf
    rw [arp_expire_state] at this
    exact this
  · intro p hp
    simp only [update_length] at hp
    exact hmem p hp
  · intro p
    unfold expire_timers
    simp only [update_length, deref_update]
    by_cases hpe : p = e
    · subst hpe
      rw [hzero]
      simp [hvalid.1]
    · have hneg : (s.timers.erase t).countP (Timer.is_expire p)
          = s.timers.countP (Timer.is_expire p) := by
        apply countP_erase_of_neg
        have hne2 : ¬ (Callback.arp_expire e = Callback.arp_expire p) := by
          intro h
          injection h with h
          exact hpe h.symm
        simp [Timer.is_expire, hcb, hne2]
      rw [hneg]
      have := htim p
      unfold expire_timers at this
      rw [this]
      have hne : ¬ (e = p ∧ e < s.heap.length) := fun h => hpe h.1.symm
      simp only [hne, if_false]

/-- The heap after a new object is appended and written twice through its
pointer. -/
theorem fresh_heap_facts (h : List pico_arp) (x : pico_arp) (g1 g2 : pico_arp → pico_arp) :
    (update (update (h ++ [x]) h.length g1) h.length g2).length = h.length + 1 ∧
    (∀ q, q < h.length →
      deref (update (update (h ++ [x]) h.length g1) h.length g2) q = deref h q) ∧
    deref (update (update (h ++ [x]) h.length g1) h.length g2) h.length = g2 (g1 x) := by
  have hl0 : h.length < (h ++ [x]).length := by simp
  have hl1 : h.length < (update (h ++ [x]) h.length g1).length := by
    rw [update_length]; exact hl0
  refine ⟨by simp [update_length], fun q hq => ?_, ?_⟩
  · have hne : ¬ (h.length = q ∧ h.length < (update (h ++ [x]) h.length g1).length) := by
      omega
    have hne0 : ¬ (h.length = q ∧ h.length < (h ++ [x]).length) := by omega
    rw [deref_update, if_neg hne, deref_update, if_neg hne0]
    exact deref_append_lt _ _ _ hq
  · rw [deref_update, if_pos ⟨rfl, hl1⟩, deref_update, if_pos ⟨rfl, hl0⟩, deref_append_length]

/-- The heap after an allocated object is written twice through its pointer. -/
theorem reuse_heap_facts (h : List pico_arp) (p : Nat) (g1 g2 : pico_arp → pico_arp) :
    (update (update h p g1) p g2).length = h.length ∧
    (∀ q, q ≠ p → deref (update (update h p g1) p g2) q = deref h q) ∧
    (p < h.length → deref (update (update h p g1) p g2) p = g2 (g1 (deref h p))) := by
  refine ⟨by simp [update_length], fun q hq => ?_, fun hp => ?_⟩
  · have hne : ¬ (p = q ∧ p < (update h p g1).length) := fun hh => hq hh.1.symm
    have hne0 : ¬ (p = q ∧ p < h.length) := fun hh => hq hh.1.symm
    rw [deref_update, if_neg hne, deref_update, if_neg hne0]
  · have hl1 : p < (update h p g1).length := by rw [update_length]; exact hp
    rw [deref_update, if_pos ⟨rfl, hl1⟩, deref_update, if_pos ⟨rfl, hp⟩]

/-- The invariant after a new object (the heap `h2` holds it at the end) is handed
to `pico_arp_add_entry`, when no node carries its key. -/
theorem expire_inv_fresh (c : Env) (s : ArpState) (h2 : List pico_arp)
    (h : expire_inv s) (f1 : h2.length = s.heap.length + 1)
    (f2 : ∀ q, q < s.heap.length → deref h2 q = deref s.heap q)
    (habs : ∀ q ∈ s.Arp_table, (deref s.heap q).ipv4 ≠ (deref h2 s.heap.length).ipv4) :
    expire_inv (pico_arp_add_entry c s.heap.length { s with heap := h2 }) := by
  obtain ⟨hwf, hmem, htim⟩ := h
  apply expire_inv_add_entry
  · refine wf_of_keys s _ hwf ?_ ?_ (List.Sublist.refl _)
    · dsimp only; omega
    · intro q hq
      dsimp only
      rw [f2 q hq]
  · dsimp only; omega
  · intro q hq
    dsimp only
    rw [f2 q (hwf.1 q hq)]
    exact habs q hq
  · intro p hp hpn
    dsimp only at hp
    exact hmem p (by omega)
  · intro p hpn
    have := htim p
    unfold expire_timers at this ⊢
    dsimp only
    rw [this, f1]
    by_cases hp : p < s.heap.length
    · rw [f2 p hp]
      have hp2 : p < s.heap.length + 1 := by omega
      simp only [hp, hp2, true_and]
    · have hp2 : ¬ p < s.heap.length + 1 := by omega
      simp only [hp, hp2, false_and]
  · have := htim s.heap.length
    unfold expire_timers at this ⊢
    dsimp only
    rw [this]
    simp

/-- The invariant after a stale node `p` is unlinked, rewritten (the heap `h2`)
and handed to `pico_arp_add_entry`. -/
theorem expire_inv_reuse (c : Env) (s : ArpState) (p : Nat) (h2 : List pico_arp)
    (h : expire_inv s) (hp : p ∈ s.Arp_table)
    (hstale : (deref s.heap p).arp_status = PICO_ARP_STATUS_STALE)
    (f1 : h2.length = s.heap.length)
    (f2 : ∀ q, q ≠ p → deref h2 q = deref s.heap q)
    (hkeys : ∀ q, (deref h2 q).ipv4 = (deref s.heap q).ipv4) :
    expire_inv (pico_arp_add_entry c p
      { s with Arp_table := RB_REMOVE s.Arp_table p, heap := h2 }) := by
  obtain ⟨hwf, hmem, htim⟩ := h
  have hpl : p < s.heap.length := hwf.1 p hp
  apply expire_inv_add_entry
  · refine wf_of_keys s _ hwf ?_ ?_ (List.erase_sublist _ _)
    · dsimp only; omega
    · intro q _
      dsimp only
      exact hkeys q
  · dsimp only; omega
  · intro q hq
    dsimp only
    rw [hkeys q, hkeys p]
    exact RB_REMOVE_absent s.heap s.Arp_table p (wf_sorted s hwf) hp q hq
  · intro q hq hqp
    dsimp only at hq ⊢
    unfold RB_REMOVE
    rw [List.mem_erase_of_ne hqp]
    exact hmem q (by omega)
  · intro q hqp
    have := htim q
    unfold expire_timers at this ⊢
    dsimp only
    rw [this, f1, f2 q hqp]
  · have := htim p
    unfold expire_timers at this ⊢
    dsimp only
    rw [this]
    simp [hstale]

theorem expire_inv_receive_learn (c : Env) (f : pico_frame) (hdr : Nat) (s st : ArpState)
    (h : expire_inv s) (hl : receive_learn c f hdr s = some st) : expire_inv st := by
  unfold receive_learn at hl
  split at hl
  · rename_i hnone
    split at hl
    · cases hl
      obtain ⟨f1, f2, f3⟩ := fresh_heap_facts s.heap
        { pico_arp.zero with ipv4 := load32 f.buffer (hdr + OFF_SRC) }
        (fun e => { e with eth := load_mac f.buffer (hdr + OFF_S_MAC) })
        (fun e => { e with dev := f.dev })
      have habs := (RB_FIND_eq_none_iff _ _ _).1 hnone
      refine expire_inv_fresh c s _ h f1 f2 (fun q hq => ?_)
      rw [f3]
      exact habs q hq
    · cases hl
  · rename_i p hsome
    split at hl
    · rename_i hstale
      cases hl
      obtain ⟨hp, _⟩ := RB_FIND_some _ _ _ _ hsome
      obtain ⟨f1, f2, _⟩ := reuse_heap_facts s.heap p
        (fun e => { e with eth := load_mac f.buffer (hdr + OFF_S_MAC) })
        (fun e => { e with dev := f.dev })
      refine expire_inv_reuse c s p _ h hp hstale f1 f2 (fun q => ?_)
      refine Eq.trans (key_update _ _ _ _ ?_) (key_update _ _ _ _ ?_) <;> intro _ <;> rfl
    · cases hl
      exact h

theorem expire_inv_receive (c : Env) (f : pico_frame) (s : ArpState) (h : expire_inv s) :
    expire_inv (pico_arp_receive c f s).2.2 := by
  cases hh : f.net_hdr with
  | none =>
    rw [pico_arp_receive_nohdr c f s hh]
    exact expire_inv_congr s _ h rfl rfl (fun _ => rfl)
  | some hdr =>
    cases hl : receive_learn c f hdr s with
    | none =>
      rw [pico_arp_receive_learn_none c f s hdr hh hl]
      exact expire_inv_congr s _ h rfl rfl (fun _ => rfl)
    | some st =>
      obtain ⟨_, hstate⟩ := pico_arp_receive_state c f s hdr hh
      rw [hl] at hstate
      rw [hstate]
      exact expire_inv_congr st _ (expire_inv_receive_learn c f hdr s st h hl) rfl rfl
        (fun _ => rfl)

/-- Every reachable state satisfies the invariant of the staleness timers. -/
theorem reachable_expire_inv (s : ArpState) (h : Reachable s) : expire_inv s := by
  induction h with
  | init =>
    refine ⟨wf_init, fun p hp => ?_, fun p => ?_⟩
    · simp [ArpState.init] at hp
    · simp [expire_timers, ArpState.init]
  | get c f _ ih => exact expire_inv_get c f _ ih
  | drain c t _ _ hcb hsend ih => exact expire_inv_fire_check_pending c t _ ih hcb hsend
  | receive c f _ ih => exact expire_inv_receive c f _ ih
  | expire c t e _ ht hcb ih => exact expire_inv_fire_arp_expire c t e _ ih ht hcb

/-- C20. In every state the module reaches (`pico_arp_add_entry` being called
from `pico_arp_receive` only), each node of the tree that is REACHABLE has exactly
one outstanding `arp_expire` timer and each node that is STALE has none. So an
outstanding `arp_expire` timer always belongs to a REACHABLE node of the tree and
is the only timer of that node: it was armed when the node was last made
REACHABLE. When it fires, the node becomes STALE and has no timer left. -/
theorem staleness_timer_invariant (s : ArpState) (h : Reachable s) :
    (∀ p ∈ s.Arp_table,
      ((deref s.heap p).arp_status = PICO_ARP_STATUS_REACHABLE → expire_timers s p = 1) ∧
      ((deref s.heap p).arp_status = PICO_ARP_STATUS_STALE → expire_timers s p = 0)) ∧
    (∀ t ∈ s.timers, ∀ e, t.cb = Callback.arp_expire e →
      e ∈ s.Arp_table ∧
      (deref s.heap e).arp_status = PICO_ARP_STATUS_REACHABLE ∧
      expire_timers s e = 1 ∧
      ∀ c, (deref (fire_arp_expire c t e s).heap e).arp_status = PICO_ARP_STATUS_STALE ∧
        expire_timers (fire_arp_expire c t e s) e = 0) := by
  obtain ⟨hwf, hmem, htim⟩ := reachable_expire_inv s h
  refine ⟨fun p hp => ⟨fun hr => ?_, fun hst => ?_⟩, fun t ht e hcb => ?_⟩
  · rw [htim p, if_pos ⟨hwf.1 p hp, hr⟩]
  · rw [htim p]
    simp [hst]
  · have hpos : 0 < expire_timers s e := by
      unfold expire_timers
      rw [List.countP_pos_iff]
      exact ⟨t, ht, by simp [Timer.is_expire, hcb]⟩
    have hvalid : e < s.heap.length ∧
        (deref s.heap e).arp_status = PICO_ARP_STATUS_REACHABLE := by
      by_contra hno
      rw [htim e, if_neg hno] at hpos
      omega
    refine ⟨hmem e hvalid.1, hvalid.2, by rw [htim e, if_pos hvalid], fun c => ?_⟩
    obtain ⟨hwf2, _, htim2⟩ :=
      reachable_expire_inv _ (Reachable.expire c t e h ht hcb)
    have hstale : (deref (fire_arp_expire c t e s).heap e).arp_status
        = PICO_ARP_STATUS_STALE := by
      unfold fire_arp_expire
      rw [arp_expire_state]
      simp only [deref_update, hvalid.1, and_self, if_true]
    refine ⟨hstale, ?_⟩
    rw [htim2 e]
    simp [hstale]

/-- Witness of C20: the cache after a REPLY from 10.0.0.2 reached the empty cache. -/
theorem staleness_timer_invariant_witness :
    expire_timers (pico_arp_receive env1 reply_bb ArpState.init).2.2 0 = 1 :=
  ((staleness_timer_invariant _ (Reachable.receive env1 reply_bb Reachable.init)).1 0
    (by decide)).1 (by decide)

end PicoArp
